import Mathlib

/-!
# chat_app: wire protocol and connection state machine

A shallow embedding of `common/protocol.{h,cpp}` and `common/tcp_connection.{h,cpp}`.

Conventions of the embedding:

* machine integers are natural numbers; a value stored into a `uint16_t` / `uint32_t`
  is reduced modulo `2^16` / `2^32` (`u16`, `u32`), which is what the implicit
  conversion at a C++ call or assignment does;
* a `char` of a buffer is a `Byte` (its object representation, `0..255`);
* `memcpy` of an integer goes through the integer's object representation, which
  depends on the byte order of the host (`Endian`); `htonl`/`htons`/`ntohl`/`ntohs`
  swap bytes on a little-endian host and are the identity on a big-endian one;
* a member function that mutates `*this` is a function from the old object to the new
  one; a function that may throw returns the outcome together with the object as it
  is left behind;
* the effects of a connection on the outside world (asynchronous operations handed to
  the io_context, callbacks invoked, socket calls) are appended to `trace`.
-/

namespace chat_app

/-! ## Machine integers and bytes -/

/-- One `char` of a buffer, as its unsigned object representation. -/
abbrev Byte := Fin 256

/-- Conversion to `uint16_t`. -/
def u16 (n : Nat) : Nat := n % 65536

/-- Conversion to `uint32_t`. -/
def u32 (n : Nat) : Nat := n % 4294967296

/-- Byte number `k` of `x`, counted from the least significant one. -/
def byteAt (x k : Nat) : Byte := ⟨x / 256 ^ k % 256, Nat.mod_lt _ (by decide)⟩

/-- Byte order of the host. -/
inductive Endian where
  | little
  | big
  deriving DecidableEq, Repr

/-- Object representation of a `uint16_t` in host memory. -/
def bytesOfU16 (e : Endian) (x : Nat) : List Byte :=
  match e with
  | .little => [byteAt x 0, byteAt x 1]
  | .big => [byteAt x 1, byteAt x 0]

/-- Object representation of a `uint32_t` in host memory. -/
def bytesOfU32 (e : Endian) (x : Nat) : List Byte :=
  match e with
  | .little => [byteAt x 0, byteAt x 1, byteAt x 2, byteAt x 3]
  | .big => [byteAt x 3, byteAt x 2, byteAt x 1, byteAt x 0]

/-- Value of the `uint16_t` whose object representation is the first two bytes of `bs`. -/
def u16OfBytes (e : Endian) (bs : List Byte) : Nat :=
  let b := fun i => (bs.getD i 0).val
  match e with
  | .little => b 1 * 256 + b 0
  | .big => b 0 * 256 + b 1

/-- Value of the `uint32_t` whose object representation is the first four bytes of `bs`. -/
def u32OfBytes (e : Endian) (bs : List Byte) : Nat :=
  let b := fun i => (bs.getD i 0).val
  match e with
  | .little => b 3 * 16777216 + b 2 * 65536 + b 1 * 256 + b 0
  | .big => b 0 * 16777216 + b 1 * 65536 + b 2 * 256 + b 3

/-- Byte swap of a 16-bit value. -/
def bswap16 (x : Nat) : Nat := x % 256 * 256 + x / 256 % 256

/-- Byte swap of a 32-bit value. -/
def bswap32 (x : Nat) : Nat :=
  x % 256 * 16777216 + x / 256 % 256 * 65536 + x / 65536 % 256 * 256 + x / 16777216 % 256

/-- Host to network byte order, `uint16_t` (`htons`). -/
def htons (e : Endian) (x : Nat) : Nat :=
  match e with
  | .little => bswap16 x
  | .big => u16 x

/-- Host to network byte order, `uint32_t` (`htonl`). -/
def htonl (e : Endian) (x : Nat) : Nat :=
  match e with
  | .little => bswap32 x
  | .big => u32 x

/-- Network to host byte order, `uint16_t` (`ntohs`). -/
def ntohs (e : Endian) (x : Nat) : Nat := htons e x

/-- Network to host byte order, `uint32_t` (`ntohl`). -/
def ntohl (e : Endian) (x : Nat) : Nat := htonl e x

/-- The buffer `dst` after `memcpy(dst + off, src, src.size())`. -/
def memcpy (dst : List Byte) (off : Nat) (src : List Byte) : List Byte :=
  dst.take off ++ src ++ dst.drop (off + src.length)

/-- The `n` bytes of `src` from offset `off` on, as `memcpy(&x, src + off, n)` reads them. -/
def memread (src : List Byte) (off n : Nat) : List Byte :=
  (src.drop off).take n

/-! ## protocol.h / protocol.cpp -/

/-- Fixed header size in bytes. -/
def HEADER_SIZE : Nat := 12

/-- Maximum message size (1 MB). -/
def MAX_BODY_SIZE : Nat := 1024 * 1024

/-- The exception types the code throws. -/
inductive Exception where
  | runtime_error
  deriving DecidableEq, Repr

/-- The class `MessageHeader`. -/
structure MessageHeader where
  magic_number_ : Nat
  message_type_ : Nat
  flags_ : Nat
  body_size_ : Nat
  deriving DecidableEq, Repr

namespace MessageHeader

/-- The constant "CHAT" in ASCII. -/
def MAGIC_NUMBER : Nat := 0x43484154

/-- The constructor `MessageHeader::MessageHeader()`. -/
def new : MessageHeader :=
  { magic_number_ := MAGIC_NUMBER, message_type_ := 0, flags_ := 0, body_size_ := 0 }

/-- The member `setBodySize`: throws when the size exceeds the maximum, and then leaves
the object as it was. -/
def setBodySize (h : MessageHeader) (size : Nat) : Except Exception Unit × MessageHeader :=
  let size := u32 size
  if size > MAX_BODY_SIZE then
    (.error .runtime_error, h)
  else
    (.ok (), { h with body_size_ := size })

def getBodySize (h : MessageHeader) : Nat := h.body_size_

def setMessageType (h : MessageHeader) (type : Nat) : MessageHeader :=
  { h with message_type_ := u16 type }

def getMessageType (h : MessageHeader) : Nat := h.message_type_

def setFlags (h : MessageHeader) (flags : Nat) : MessageHeader :=
  { h with flags_ := u16 flags }

def getFlags (h : MessageHeader) : Nat := h.flags_

/-- The member `isValid`: magic number and size constraint. -/
def isValid (h : MessageHeader) : Bool :=
  h.magic_number_ == MAGIC_NUMBER && decide (h.body_size_ ≤ MAX_BODY_SIZE)

/-- The member `encodeToBuffer`: the buffer after the four `memcpy` calls. -/
def encodeToBuffer (e : Endian) (h : MessageHeader) (buffer : List Byte) : List Byte :=
  let net_magic := htonl e h.magic_number_
  let net_type := htons e h.message_type_
  let net_flags := htons e h.flags_
  let net_size := htonl e h.body_size_
  let buffer := memcpy buffer 0 (bytesOfU32 e net_magic)
  let buffer := memcpy buffer 4 (bytesOfU16 e net_type)
  let buffer := memcpy buffer 6 (bytesOfU16 e net_flags)
  let buffer := memcpy buffer 8 (bytesOfU32 e net_size)
  buffer

/-- The member `decodeFromBuffer`: the header after reading the four fields. -/
def decodeFromBuffer (e : Endian) (_h : MessageHeader) (buffer : List Byte) : MessageHeader :=
  let net_magic := u32OfBytes e (memread buffer 0 4)
  let net_type := u16OfBytes e (memread buffer 4 2)
  let net_flags := u16OfBytes e (memread buffer 6 2)
  let net_size := u32OfBytes e (memread buffer 8 4)
  { magic_number_ := ntohl e net_magic
    message_type_ := ntohs e net_type
    flags_ := ntohs e net_flags
    body_size_ := ntohl e net_size }

end MessageHeader

/-! ## Wire layout, stated independently of the code -/

/-- Value of a byte string read most significant byte first. -/
def beValue (bs : List Byte) : Nat :=
  bs.foldl (fun acc b => acc * 256 + b.val) 0

/-- The two bytes of a 16-bit value, most significant first. -/
def beBytes16 (x : Nat) : List Byte := [byteAt x 1, byteAt x 0]

/-- The four bytes of a 32-bit value, most significant first. -/
def beBytes32 (x : Nat) : List Byte := [byteAt x 3, byteAt x 2, byteAt x 1, byteAt x 0]

/-! ## tcp_connection.h / tcp_connection.cpp -/

/-- A `boost::system::error_code`, as far as the code tells the values apart. -/
inductive ErrorCode where
  | success
  | eof
  | connection_reset
  | other (value : Nat)
  deriving DecidableEq, Repr

/-- The test `if (error)`. -/
def ErrorCode.failed : ErrorCode → Bool
  | .success => false
  | _ => true

/-- The struct `TcpConnection::OutgoingMessage`. -/
structure OutgoingMessage where
  header_buffer : List Byte
  body : List Byte
  deriving DecidableEq, Repr

/-- An `async_read` handed to the io_context: for the header buffer, or for `n` bytes of
the body buffer. -/
inductive ReadRequest where
  | header
  | body (n : Nat)
  deriving DecidableEq, Repr

/-- What a connection does to the outside world. -/
inductive Event where
  | asyncReadHeader
  | asyncReadBody (body_size : Nat)
  | asyncWrite (buffers : List (List Byte))
  | messageCallback (data : List Byte) (type flags : Nat)
  | errorCallback (error : ErrorCode)
  | socketShutdown
  | socketClose
  | undefinedBehaviour
  deriving DecidableEq, Repr

/-- The class `TcpConnection`. The callbacks are kept as "is a callable stored"; an
invocation is an event of `trace`. `socket_open` is `socket_.is_open()`.
`outstanding_reads` and `outstanding_writes` are the operations handed to the io_context
whose completion handler has not run yet, oldest first. -/
structure TcpConnection where
  socket_open : Bool
  read_header_buffer_ : List Byte
  read_body_buffer_ : List Byte
  current_header_ : MessageHeader
  write_queue_ : List OutgoingMessage
  write_in_progress_ : Bool
  message_callback_ : Bool
  error_callback_ : Bool
  is_connected_ : Bool
  outstanding_reads : List ReadRequest
  outstanding_writes : List (List (List Byte))
  trace : List Event
  deriving DecidableEq, Repr

/-- The buffer sequence `asyncWrite` builds for a queued message: the header buffer, and
the body when it is not empty. -/
def gatherBuffers (message : OutgoingMessage) : List (List Byte) :=
  let buffers := [message.header_buffer]
  if !message.body.isEmpty then buffers ++ [message.body] else buffers

/-- The vector `v` after `v.resize(n)`. -/
def resize (v : List Byte) (n : Nat) : List Byte :=
  v.take n ++ List.replicate (n - v.length) 0

namespace TcpConnection

/-- The constructor, on a socket that is not open yet. The header buffer is a
`std::array` of `HEADER_SIZE` chars, whose indeterminate initial content is taken as
zeros; it is not read before a header read has filled it. -/
def new : TcpConnection :=
  { socket_open := false
    read_header_buffer_ := List.replicate HEADER_SIZE 0
    read_body_buffer_ := []
    current_header_ := MessageHeader.new
    write_queue_ := []
    write_in_progress_ := false
    message_callback_ := false
    error_callback_ := false
    is_connected_ := false
    outstanding_reads := []
    outstanding_writes := []
    trace := [] }

/-- A constructed connection whose socket the acceptor has opened. -/
def accepted : TcpConnection :=
  { TcpConnection.new with socket_open := true }

def asyncReadHeader (c : TcpConnection) : TcpConnection :=
  { c with
    outstanding_reads := c.outstanding_reads ++ [.header]
    trace := c.trace ++ [.asyncReadHeader] }

def asyncReadBody (c : TcpConnection) (body_size : Nat) : TcpConnection :=
  { c with
    read_body_buffer_ := resize c.read_body_buffer_ body_size
    outstanding_reads := c.outstanding_reads ++ [.body body_size]
    trace := c.trace ++ [.asyncReadBody body_size] }

/-- The member `asyncWrite`: a gather write of the front of the queue. `front()` of an
empty deque is undefined behaviour. -/
def asyncWrite (c : TcpConnection) : TcpConnection :=
  match c.write_queue_ with
  | [] => { c with trace := c.trace ++ [.undefinedBehaviour] }
  | message :: _ =>
    { c with
      outstanding_writes := c.outstanding_writes ++ [gatherBuffers message]
      trace := c.trace ++ [.asyncWrite (gatherBuffers message)] }

def start (c : TcpConnection) : TcpConnection :=
  asyncReadHeader { c with is_connected_ := true }

/-- The member `stop`. Closing the socket leaves the outstanding operations to complete
with an error; that completion is an event of its own. -/
def stop (c : TcpConnection) : TcpConnection :=
  let c :=
    if c.socket_open then
      { c with socket_open := false, trace := c.trace ++ [.socketShutdown, .socketClose] }
    else c
  { c with is_connected_ := false }

/-- The member `send`. The outcome is `ok false` / `ok true` for the returned value and
`error` for the exception of `setBodySize`, which leaves the connection untouched. The
argument of `setBodySize` is `data.size()`, a `size_t`, converted to `uint32_t`. The local
`header_buffer` starts indeterminate (taken as zeros); `encodeToBuffer` overwrites all of
it. -/
def send (e : Endian) (c : TcpConnection) (data : List Byte) (type flags : Nat) :
    Except Exception Bool × TcpConnection :=
  if !c.is_connected_ then
    (.ok false, c)
  else
    let header := MessageHeader.new
    let header := header.setMessageType type
    let header := header.setFlags flags
    match header.setBodySize data.length with
    | (.error ex, _) => (.error ex, c)
    | (.ok (), header) =>
      let message_header_buffer := resize [] HEADER_SIZE
      let header_buffer := header.encodeToBuffer e (List.replicate HEADER_SIZE 0)
      let message : OutgoingMessage :=
        { header_buffer := memcpy message_header_buffer 0 header_buffer, body := data }
      let write_in_progress := !c.write_queue_.isEmpty
      let c := { c with write_queue_ := c.write_queue_ ++ [message] }
      let c := if !write_in_progress then asyncWrite c else c
      (.ok true, c)

def setMessageCallback (c : TcpConnection) (callback : Bool) : TcpConnection :=
  { c with message_callback_ := callback }

def setErrorCallback (c : TcpConnection) (callback : Bool) : TcpConnection :=
  { c with error_callback_ := callback }

def isConnected (c : TcpConnection) : Bool :=
  c.is_connected_ && c.socket_open

/-- The member `handleError`; both branches of the source do the same. -/
def handleError (c : TcpConnection) (error : ErrorCode) : TcpConnection :=
  if error = .eof ∨ error = .connection_reset then
    let c :=
      if c.error_callback_ then { c with trace := c.trace ++ [.errorCallback error] } else c
    stop c
  else
    let c :=
      if c.error_callback_ then { c with trace := c.trace ++ [.errorCallback error] } else c
    stop c

def handleReadHeader (e : Endian) (c : TcpConnection) (error : ErrorCode) : TcpConnection :=
  if error.failed then
    handleError c error
  else
    let c := { c with
      current_header_ := c.current_header_.decodeFromBuffer e c.read_header_buffer_ }
    if !c.current_header_.isValid then
      stop c
    else
      let body_size := c.current_header_.getBodySize
      if body_size > 0 then
        asyncReadBody c body_size
      else
        let c :=
          if c.message_callback_ then
            { c with trace := c.trace ++
                [.messageCallback [] c.current_header_.getMessageType
                  c.current_header_.getFlags] }
          else c
        asyncReadHeader c

def handleReadBody (c : TcpConnection) (error : ErrorCode) : TcpConnection :=
  if error.failed then
    handleError c error
  else
    let c :=
      if c.message_callback_ then
        { c with trace := c.trace ++
            [.messageCallback c.read_body_buffer_ c.current_header_.getMessageType
              c.current_header_.getFlags] }
      else c
    asyncReadHeader c

/-- The member `handleWrite`. `pop_front()` of an empty deque is undefined behaviour. -/
def handleWrite (c : TcpConnection) (error : ErrorCode) : TcpConnection :=
  if error.failed then
    handleError c error
  else
    match c.write_queue_ with
    | [] => { c with trace := c.trace ++ [.undefinedBehaviour] }
    | _ :: rest =>
      let c := { c with write_queue_ := rest }
      if !c.write_queue_.isEmpty then
        asyncWrite c
      else
        { c with write_in_progress_ := false }

end TcpConnection

/-! ## The io_context: completion of the outstanding operations -/

/-- The oldest outstanding read, a header read, completes with the `HEADER_SIZE` bytes
`bytes` in the header buffer and no error. -/
def completeReadHeader (e : Endian) (c : TcpConnection) (bytes : List Byte) : TcpConnection :=
  TcpConnection.handleReadHeader e
    { c with read_header_buffer_ := bytes, outstanding_reads := c.outstanding_reads.tail }
    .success

/-- The oldest outstanding read, a body read, completes with `bytes` in the body buffer
and no error. -/
def completeReadBody (c : TcpConnection) (bytes : List Byte) : TcpConnection :=
  TcpConnection.handleReadBody
    { c with read_body_buffer_ := bytes, outstanding_reads := c.outstanding_reads.tail }
    .success

/-- The oldest outstanding write completes with `error`. -/
def completeWrite (c : TcpConnection) (error : ErrorCode) : TcpConnection :=
  TcpConnection.handleWrite { c with outstanding_writes := c.outstanding_writes.tail } error

/-- The inbound side of a connection on the byte stream `stream`: while the socket is
open and the oldest outstanding read can be served in full from the stream, it completes.
Returns the connection and the bytes not consumed. At most `fuel` completions. -/
def receiveFuel (e : Endian) : Nat → TcpConnection → List Byte → TcpConnection × List Byte
  | 0, c, stream => (c, stream)
  | fuel + 1, c, stream =>
    if !c.socket_open then (c, stream)
    else
      match c.outstanding_reads with
      | [] => (c, stream)
      | .header :: _ =>
        if HEADER_SIZE ≤ stream.length then
          receiveFuel e fuel (completeReadHeader e c (stream.take HEADER_SIZE))
            (stream.drop HEADER_SIZE)
        else (c, stream)
      | .body n :: _ =>
        if n ≤ stream.length then
          receiveFuel e fuel (completeReadBody c (stream.take n)) (stream.drop n)
        else (c, stream)

/-- The inbound side on `stream`, with fuel for every completion the stream can serve: a
completion other than a body read of no bytes consumes a byte. -/
def receive (e : Endian) (c : TcpConnection) (stream : List Byte) : TcpConnection × List Byte :=
  receiveFuel e (2 * stream.length + 2) c stream

/-- The header with message type `type`, flags `flags` and body size `size`. -/
def headerOf (type flags size : Nat) : MessageHeader :=
  { (MessageHeader.new.setMessageType type).setFlags flags with body_size_ := size }

/-- The encoded header of a frame. -/
def headerBytes (e : Endian) (type flags size : Nat) : List Byte :=
  (headerOf type flags size).encodeToBuffer e (List.replicate HEADER_SIZE 0)

/-- The bytes of one frame on the wire: the encoded header, then the body. -/
def frameBytes (e : Endian) (type flags : Nat) (data : List Byte) : List Byte :=
  headerBytes e type flags data.length ++ data

/-- The message callbacks of a trace, in order. -/
def messageCallbacks : List Event → List (List Byte × Nat × Nat)
  | [] => []
  | .messageCallback data type flags :: rest => (data, type, flags) :: messageCallbacks rest
  | _ :: rest => messageCallbacks rest

/-- The error callbacks of a trace, in order. -/
def errorCallbacks : List Event → List ErrorCode
  | [] => []
  | .errorCallback error :: rest => error :: errorCallbacks rest
  | _ :: rest => errorCallbacks rest

/-- The gather writes of a trace, in order. -/
def writesIssued : List Event → List (List (List Byte))
  | [] => []
  | .asyncWrite buffers :: rest => buffers :: writesIssued rest
  | _ :: rest => writesIssued rest

/-- The steps of the outbound side: a call of `send`, or the completion of the oldest
outstanding write without error. -/
inductive OutboundOp where
  | send (data : List Byte) (type flags : Nat)
  | writeCompleted
  deriving DecidableEq, Repr

/-- One outbound step: a `send` that returns `true`, or a write completion, which needs
an outstanding write. -/
def outboundStep (e : Endian) (c : TcpConnection) : OutboundOp → Option TcpConnection
  | .send data type flags =>
    match TcpConnection.send e c data type flags with
    | (.ok true, c) => some c
    | _ => none
  | .writeCompleted =>
    match c.outstanding_writes with
    | [] => none
    | _ :: _ => some (completeWrite c .success)

/-- A run of outbound steps; `none` when a step of it cannot be taken. -/
def runOutbound (e : Endian) : TcpConnection → List OutboundOp → Option TcpConnection
  | c, [] => some c
  | c, op :: ops =>
    match outboundStep e c op with
    | none => none
    | some c => runOutbound e c ops

/-- The frames the `send` calls of a run ask for, in call order, as wire bytes. -/
def sentFrames (e : Endian) : List OutboundOp → List (List Byte)
  | [] => []
  | .send data type flags :: ops => frameBytes e type flags data :: sentFrames e ops
  | .writeCompleted :: ops => sentFrames e ops

/-- The byte strings handed to the transport, one per gather write, in order. -/
def transmitted (trace : List Event) : List (List Byte) :=
  (writesIssued trace).map List.flatten

/-- Whether every write completion of `ops` comes after more sends than completions,
`pending` frames being queued at the start. -/
def completionsEnabled : Nat → List OutboundOp → Bool
  | _, [] => true
  | pending, .send _ _ _ :: ops => completionsEnabled (pending + 1) ops
  | 0, .writeCompleted :: _ => false
  | pending + 1, .writeCompleted :: ops => completionsEnabled pending ops

/-- Whether every payload of `ops` is within the maximum body size. -/
def payloadsWithinLimit : List OutboundOp → Bool
  | [] => true
  | .send data _ _ :: ops => decide (data.length ≤ MAX_BODY_SIZE) && payloadsWithinLimit ops
  | .writeCompleted :: ops => payloadsWithinLimit ops

/-- A frame as the peer sends it: message type, flags, payload. -/
structure Frame where
  type : Nat
  flags : Nat
  payload : List Byte
  deriving DecidableEq, Repr

/-- The wire encodings of `frames`, header then body, back to back. -/
def wireBytes (e : Endian) : List Frame → List Byte
  | [] => []
  | fr :: frames => frameBytes e fr.type fr.flags fr.payload ++ wireBytes e frames

/-- What the message callback receives for a frame. -/
def Frame.delivered (fr : Frame) : List Byte × Nat × Nat :=
  (fr.payload, fr.type, fr.flags)

/-- The receiving connection `c` after it has read the frame `(type, flags, data)` sent
from a host of byte order `e`, delivered it and asked for the next header; used to state
what `receiveFuel` computes. -/
def afterFrame (e : Endian) (c : TcpConnection) (type flags : Nat) (data : List Byte) :
    TcpConnection :=
  { c with
    read_header_buffer_ := headerBytes e type flags data.length
    current_header_ := ⟨MessageHeader.MAGIC_NUMBER, type, flags, data.length⟩
    read_body_buffer_ := if data = [] then c.read_body_buffer_ else data
    outstanding_reads := [.header]
    trace := c.trace ++ (if data = [] then [] else [.asyncReadBody data.length]) ++
      [.messageCallback data type flags, .asyncReadHeader] }

/-- The bytes of a queue entry on the wire. -/
def OutgoingMessage.bytes (m : OutgoingMessage) : List Byte :=
  m.header_buffer ++ m.body

/-- The gather write for the front of a queue, if any. -/
def frontWrite : List OutgoingMessage → List (List (List Byte))
  | [] => []
  | m :: _ => [gatherBuffers m]

/-- The reads of a trace, in the order they were handed to the io_context. -/
def readsIssued : List Event → List ReadRequest
  | [] => []
  | .asyncReadHeader :: rest => .header :: readsIssued rest
  | .asyncReadBody n :: rest => .body n :: readsIssued rest
  | _ :: rest => readsIssued rest

/-- What can happen to a connection from outside: a call of `start`, `stop` or `send`, or
the completion of the oldest outstanding write with an error code. -/
inductive ConnectionEvent where
  | start
  | stop
  | send (data : List Byte) (type flags : Nat)
  | writeCompleted (error : ErrorCode)
  deriving DecidableEq, Repr

/-- One event on a connection; a write completion needs an outstanding write. The value
`send` returns or throws is dropped. -/
def connectionStep (e : Endian) (c : TcpConnection) : ConnectionEvent → Option TcpConnection
  | .start => some c.start
  | .stop => some c.stop
  | .send data type flags => some (TcpConnection.send e c data type flags).2
  | .writeCompleted error =>
    match c.outstanding_writes with
    | [] => none
    | _ :: _ => some (completeWrite c error)

/-- A run of events; `none` when a write completion comes with no write outstanding. -/
def runConnection (e : Endian) : TcpConnection → List ConnectionEvent → Option TcpConnection
  | c, [] => some c
  | c, ev :: evs =>
    match connectionStep e c ev with
    | none => none
    | some c => runConnection e c evs

/-- Whether the events are calls of `start` and `send` and write completions without error
only. -/
def startSendWriteOnly : List ConnectionEvent → Bool
  | [] => true
  | .start :: evs => startSendWriteOnly evs
  | .send _ _ _ :: evs => startSendWriteOnly evs
  | .writeCompleted .success :: evs => startSendWriteOnly evs
  | _ :: _ => false

/-! ## user.h / user.cpp -/

/-- The enumeration `UserStatus` of user.h. -/
inductive UserStatus where
  | OFFLINE
  | ONLINE
  | AWAY
  | DO_NOT_DISTURB
  deriving DecidableEq, Repr

/-- The struct `User` of user.h. A `last_seen` is the count of ticks of
`std::chrono::system_clock` since the epoch. -/
structure User where
  user_id : String
  username : String
  status : UserStatus
  display_name : Option String
  email : Option String
  avatar_url : Option String
  last_seen : Option Int
  room_ids : List String
  deriving DecidableEq, Repr

namespace User

/-- The constructor `User() = default`. -/
def defaulted : User :=
  { user_id := "", username := "", status := .OFFLINE, display_name := none, email := none,
    avatar_url := none, last_seen := none, room_ids := [] }

/-- The constructor with the required fields. -/
def new (id name : String) (user_status : UserStatus) : User :=
  { defaulted with user_id := id, username := name, status := user_status }

/-- The member `addToRoom`: `push_back` when `std::find` does not find the id. -/
def addToRoom (u : User) (room_id : String) : User :=
  if room_id ∉ u.room_ids then
    { u with room_ids := u.room_ids ++ [room_id] }
  else u

/-- The member `removeFromRoom`: erases the first occurrence `std::find` finds. -/
def removeFromRoom (u : User) (room_id : String) : User :=
  if room_id ∈ u.room_ids then
    { u with room_ids := u.room_ids.erase room_id }
  else u

/-- The member `isInRoom`. -/
def isInRoom (u : User) (room_id : String) : Bool :=
  decide (room_id ∈ u.room_ids)

end User

/-! ## nlohmann::json, as far as user.cpp and chat_message.cpp use it -/

/-- A `nlohmann::json` value. Floating-point numbers and binary values, which neither
`toJson` produces, are left out. An object is kept as its members with distinct keys; the
order of the members is not observed. -/
inductive Json where
  | null
  | boolean (b : Bool)
  | number_integer (n : Int)
  | number_unsigned (n : Nat)
  | string (s : String)
  | array (elements : List Json)
  | object (members : List (String × Json))

/-- The exceptions of the JSON library, with their ids. -/
inductive JsonException where
  | type_error (id : Nat)
  | out_of_range (id : Nat)
  deriving DecidableEq, Repr

namespace Json

/-- The members after `members[key] = value`. -/
def setMember : List (String × Json) → String → Json → List (String × Json)
  | [], key, value => [(key, value)]
  | (k, v) :: members, key, value =>
    if k = key then (key, value) :: members else (k, v) :: setMember members key value

/-- The value after `json[key] = value`: a null value becomes an object first. On a value
of another type the library throws; `toJson` never does that. -/
def set (json : Json) (key : String) (value : Json) : Json :=
  match json with
  | .null => .object [(key, value)]
  | .object members => .object (setMember members key value)
  | other => other

/-- The member `contains(key)`. -/
def contains (json : Json) (key : String) : Bool :=
  match json with
  | .object members => (members.lookup key).isSome
  | _ => false

/-- The member `at(key)`: `out_of_range` 403 for a missing key, `type_error` 304 for a
value that is not an object. -/
def atKey (json : Json) (key : String) : Except JsonException Json :=
  match json with
  | .object members =>
    match members.lookup key with
    | some value => .ok value
    | none => .error (.out_of_range 403)
  | _ => .error (.type_error 304)

/-- The operator `json[key]` on a constant value. The code calls it under
`contains(key)` only; without the key the behaviour is undefined, taken as null here. -/
def index (json : Json) (key : String) : Json :=
  match json with
  | .object members => (members.lookup key).getD .null
  | _ => .null

/-- The conversion `get<std::string>()`. -/
def getString : Json → Except JsonException String
  | .string s => .ok s
  | _ => .error (.type_error 302)

/-- The conversion `get<int64_t>()`; an unsigned number is converted to `int64_t`. -/
def getInt64 : Json → Except JsonException Int
  | .number_integer n => .ok n
  | .number_unsigned n => .ok (((n : Int) + 9223372036854775808) % 18446744073709551616 -
      9223372036854775808)
  | _ => .error (.type_error 302)

/-- The conversion `get<uint8_t>()`, a conversion to an arithmetic type that is not one of
the number types of the library: numbers and booleans are converted to `uint8_t`. -/
def getUInt8 : Json → Except JsonException Nat
  | .number_integer n => .ok (n % 256).toNat
  | .number_unsigned n => .ok (n % 256)
  | .boolean b => .ok (if b then 1 else 0)
  | _ => .error (.type_error 302)

/-- The strings of the elements of an array, when all of them are strings. -/
def getStrings : List Json → Except JsonException (List String)
  | [] => .ok []
  | .string s :: rest =>
    match getStrings rest with
    | .ok strings => .ok (s :: strings)
    | .error ex => .error ex
  | _ :: _ => .error (.type_error 302)

/-- The conversion `get<std::vector<std::string>>()`. -/
def getStringVector : Json → Except JsonException (List String)
  | .array elements => getStrings elements
  | _ => .error (.type_error 302)

/-- The JSON value of a `std::vector<std::string>`. -/
def ofStringVector (strings : List String) : Json :=
  .array (strings.map .string)

end Json

/-- The function `to_json` that `NLOHMANN_JSON_SERIALIZE_ENUM(UserStatus, ...)` defines. -/
def UserStatus.to_json : UserStatus → Json
  | .OFFLINE => .string "offline"
  | .ONLINE => .string "online"
  | .AWAY => .string "away"
  | .DO_NOT_DISTURB => .string "dnd"

/-- The function `from_json` that `NLOHMANN_JSON_SERIALIZE_ENUM(UserStatus, ...)` defines:
the status whose JSON value is given, and the first of the table for any other value. -/
def UserStatus.from_json : Json → UserStatus
  | .string "offline" => .OFFLINE
  | .string "online" => .ONLINE
  | .string "away" => .AWAY
  | .string "dnd" => .DO_NOT_DISTURB
  | _ => .OFFLINE

/-- The milliseconds `duration_cast<milliseconds>(t.time_since_epoch()).count()` of a time
point of `ticks` ticks since the epoch, on a platform whose `system_clock` makes
`ticksPerMs` ticks in a millisecond (a million where the tick is a nanosecond): the
division of integers, which truncates toward zero. -/
def millisOfTimePoint (ticksPerMs : Nat) (ticks : Int) : Int :=
  Int.tdiv ticks ticksPerMs

/-- The time point `system_clock::time_point(milliseconds(ts))`, in ticks. An overflow of
the multiplication is undefined behaviour and not modelled. -/
def timePointOfMillis (ticksPerMs : Nat) (ts : Int) : Int :=
  ts * ticksPerMs

namespace User

/-- The member `toJson`. -/
def toJson (ticksPerMs : Nat) (u : User) : Json :=
  let json := Json.null
  let json := json.set "user_id" (.string u.user_id)
  let json := json.set "username" (.string u.username)
  let json := json.set "status" u.status.to_json
  let json :=
    match u.display_name with
    | some value => json.set "display_name" (.string value)
    | none => json
  let json :=
    match u.email with
    | some value => json.set "email" (.string value)
    | none => json
  let json :=
    match u.avatar_url with
    | some value => json.set "avatar_url" (.string value)
    | none => json
  let json :=
    match u.last_seen with
    | some value => json.set "last_seen" (.number_integer (millisOfTimePoint ticksPerMs value))
    | none => json
  let json := json.set "room_ids" (Json.ofStringVector u.room_ids)
  json

/-- The static member `fromJson`. -/
def fromJson (ticksPerMs : Nat) (json : Json) : Except JsonException User := do
  let user := User.defaulted
  let user_id ← (← json.atKey "user_id").getString
  let user := { user with user_id := user_id }
  let username ← (← json.atKey "username").getString
  let user := { user with username := username }
  let status := UserStatus.from_json (← json.atKey "status")
  let user := { user with status := status }
  let user ←
    if json.contains "display_name" then do
      let value ← (json.index "display_name").getString
      pure { user with display_name := some value }
    else pure user
  let user ←
    if json.contains "email" then do
      let value ← (json.index "email").getString
      pure { user with email := some value }
    else pure user
  let user ←
    if json.contains "avatar_url" then do
      let value ← (json.index "avatar_url").getString
      pure { user with avatar_url := some value }
    else pure user
  let user ←
    if json.contains "last_seen" then do
      let ts ← (json.index "last_seen").getInt64
      pure { user with last_seen := some (timePointOfMillis ticksPerMs ts) }
    else pure user
  let user ←
    if json.contains "room_ids" then do
      let value ← (json.index "room_ids").getStringVector
      pure { user with room_ids := value }
    else pure user
  pure user

end User

/-! ## chat_message.h / chat_message.cpp -/

/-- The struct `ChatMessage`. The `timestamp` is the count of ticks of
`std::chrono::system_clock` since the epoch; `message_type` is a `uint8_t`. -/
structure ChatMessage where
  message_id : String
  sender_id : String
  content : String
  timestamp : Int
  room_id : Option String
  recipient_id : Option String
  message_type : Nat
  deriving DecidableEq, Repr

namespace ChatMessage

/-- The constructor `ChatMessage() = default`. -/
def defaulted : ChatMessage :=
  { message_id := "", sender_id := "", content := "", timestamp := 0, room_id := none,
    recipient_id := none, message_type := 0 }

/-- The member `toJson`. -/
def toJson (ticksPerMs : Nat) (m : ChatMessage) : Json :=
  let json := Json.null
  let json := json.set "id" (.string m.message_id)
  let json := json.set "sender" (.string m.sender_id)
  let json := json.set "content" (.string m.content)
  let json := json.set "timestamp" (.number_integer (millisOfTimePoint ticksPerMs m.timestamp))
  let json := json.set "type" (.number_unsigned m.message_type)
  let json :=
    match m.room_id with
    | some value => json.set "room_id" (.string value)
    | none => json
  let json :=
    match m.recipient_id with
    | some value => json.set "recipient" (.string value)
    | none => json
  json

/-- The static member `fromJson`. -/
def fromJson (ticksPerMs : Nat) (json : Json) : Except JsonException ChatMessage := do
  let msg := ChatMessage.defaulted
  let message_id ← (← json.atKey "id").getString
  let msg := { msg with message_id := message_id }
  let sender_id ← (← json.atKey "sender").getString
  let msg := { msg with sender_id := sender_id }
  let content ← (← json.atKey "content").getString
  let msg := { msg with content := content }
  let message_type ← (← json.atKey "type").getUInt8
  let msg := { msg with message_type := message_type }
  let ts ← (← json.atKey "timestamp").getInt64
  let msg := { msg with timestamp := timePointOfMillis ticksPerMs ts }
  let msg ←
    if json.contains "room_id" then do
      let value ← (json.index "room_id").getString
      pure { msg with room_id := some value }
    else pure msg
  let msg ←
    if json.contains "recipient" then do
      let value ← (json.index "recipient").getString
      pure { msg with recipient_id := some value }
    else pure msg
  pure msg

end ChatMessage

/-! ## message.h: users and rooms that refer to each other -/

/-- Modelled from the spec: the bodies of `User::joinRoom`, `User::leaveRoom`,
`User::getRoomIds`, `ChatRoom::addMember`, `ChatRoom::removeMember`, `ChatRoom::hasMember`
and `ChatRoom::getMemberIds`, which message.h declares, are not among the sources. The
graph holds what message.h declares: for each user id the keys of that user's map
`rooms_`, and for each room id the keys of that room's map `members_`, in insertion
order. -/
structure MembershipGraph where
  rooms_ : String → List String
  members_ : String → List String

namespace MembershipGraph

/-- Modelled from the spec: users and rooms as constructed, with no membership. -/
def empty : MembershipGraph :=
  { rooms_ := fun _ => [], members_ := fun _ => [] }

/-- Insertion of a key into a map that holds it at most once. -/
def insertKey (keys : List String) (key : String) : List String :=
  if key ∈ keys then keys else keys ++ [key]

/-- Removal of a key from a map. -/
def eraseKey (keys : List String) (key : String) : List String :=
  keys.filter (fun k => k ≠ key)

/-- Modelled from the spec: the single logical update behind `addMember` and `joinRoom`,
"applied atomically": the user enters the room's members and the room enters the user's
rooms. -/
def link (g : MembershipGraph) (room_id user_id : String) : MembershipGraph :=
  { rooms_ := fun u => if u = user_id then insertKey (g.rooms_ u) room_id else g.rooms_ u
    members_ := fun r => if r = room_id then insertKey (g.members_ r) user_id else g.members_ r }

/-- Modelled from the spec: the single logical update behind `removeMember` and
`leaveRoom`. -/
def unlink (g : MembershipGraph) (room_id user_id : String) : MembershipGraph :=
  { rooms_ := fun u => if u = user_id then eraseKey (g.rooms_ u) room_id else g.rooms_ u
    members_ := fun r => if r = room_id then eraseKey (g.members_ r) user_id else g.members_ r }

/-- Modelled from the spec: `hasMember(room, userId)`. -/
def hasMember (g : MembershipGraph) (room_id user_id : String) : Bool :=
  decide (user_id ∈ g.members_ room_id)

/-- Modelled from the spec: `listMembers(room)`, in insertion order. -/
def getMemberIds (g : MembershipGraph) (room_id : String) : List String :=
  g.members_ room_id

/-- Modelled from the spec: `listRooms(user)`. -/
def getRoomIds (g : MembershipGraph) (user_id : String) : List String :=
  g.rooms_ user_id

/-- Modelled from the spec: `addMember(room, user)`; "re-adding an existing member is a
no-op returning already a member". -/
def addMember (g : MembershipGraph) (room_id user_id : String) : Bool × MembershipGraph :=
  if g.hasMember room_id user_id then (false, g) else (true, g.link room_id user_id)

/-- Modelled from the spec: `removeMember(room, userId)`; "removing a non-member is a
no-op returning not a member". -/
def removeMember (g : MembershipGraph) (room_id user_id : String) : Bool × MembershipGraph :=
  if g.hasMember room_id user_id then (true, g.unlink room_id user_id) else (false, g)

/-- Modelled from the spec: `joinRoom(user, room)`, the user's side of `addMember`. -/
def joinRoom (g : MembershipGraph) (user_id room_id : String) : MembershipGraph :=
  if room_id ∈ g.getRoomIds user_id then g else g.link room_id user_id

/-- Modelled from the spec: `leaveRoom(user, roomId)`, the user's side of
`removeMember`. -/
def leaveRoom (g : MembershipGraph) (user_id room_id : String) : MembershipGraph :=
  if room_id ∈ g.getRoomIds user_id then g.unlink room_id user_id else g

end MembershipGraph

/-- A call on the membership graph. -/
inductive MembershipOp where
  | joinRoom (user_id room_id : String)
  | leaveRoom (user_id room_id : String)
  | addMember (room_id user_id : String)
  | removeMember (room_id user_id : String)
  deriving DecidableEq, Repr

/-- The graph after one call. -/
def MembershipGraph.apply (g : MembershipGraph) : MembershipOp → MembershipGraph
  | .joinRoom user_id room_id => g.joinRoom user_id room_id
  | .leaveRoom user_id room_id => g.leaveRoom user_id room_id
  | .addMember room_id user_id => (g.addMember room_id user_id).2
  | .removeMember room_id user_id => (g.removeMember room_id user_id).2

/-- The graph after a sequence of calls. -/
def MembershipGraph.run (g : MembershipGraph) : List MembershipOp → MembershipGraph
  | [] => g
  | op :: ops => (g.apply op).run ops

/-- Both sides of the graph tell the same memberships. -/
def MembershipGraph.Consistent (g : MembershipGraph) : Prop :=
  ∀ room_id user_id : String, user_id ∈ g.members_ room_id ↔ room_id ∈ g.rooms_ user_id

/-! ## chat_message.h: the constructors -/

namespace ChatMessage

/-- The constructor for direct messages. `now` is what `system_clock::now()` returns and
`uuid` what `generateUUID()` returns; `type` is a `uint8_t`. The source declares the
constructor for room messages with the same parameter types. -/
def newDirect (sender recipient content_text : String) (type : Nat) (now : Int)
    (uuid : String) : ChatMessage :=
  { message_id := uuid
    sender_id := sender
    content := content_text
    timestamp := now
    room_id := none
    recipient_id := some recipient
    message_type := type % 256 }

/-- The constructor for room messages, with `now` and `uuid` as in `newDirect`. -/
def newRoom (sender room content_text : String) (type : Nat) (now : Int) (uuid : String) :
    ChatMessage :=
  { message_id := uuid
    sender_id := sender
    content := content_text
    timestamp := now
    room_id := some room
    recipient_id := none
    message_type := type % 256 }

/-- The member `isRoomMessage`. -/
def isRoomMessage (m : ChatMessage) : Bool := m.room_id.isSome

/-- The member `isDirectMessage`. -/
def isDirectMessage (m : ChatMessage) : Bool := m.recipient_id.isSome

end ChatMessage

/-! ## A connection after a failure -/

/-- What can still happen to a connection that does not call `start` again: calls of
`send` and `stop`, and completions of outstanding operations with an error code. -/
inductive ClosedEvent where
  | send (data : List Byte) (type flags : Nat)
  | stop
  | readHeaderCompleted (error : ErrorCode)
  | readBodyCompleted (error : ErrorCode)
  | writeCompleted (error : ErrorCode)
  deriving DecidableEq, Repr

/-- One such event. The value `send` returns or throws is dropped. -/
def closedStep (e : Endian) (c : TcpConnection) : ClosedEvent → TcpConnection
  | .send data type flags => (TcpConnection.send e c data type flags).2
  | .stop => c.stop
  | .readHeaderCompleted error =>
    TcpConnection.handleReadHeader e { c with outstanding_reads := c.outstanding_reads.tail }
      error
  | .readBodyCompleted error =>
    TcpConnection.handleReadBody { c with outstanding_reads := c.outstanding_reads.tail } error
  | .writeCompleted error => completeWrite c error

/-- A run of such events. -/
def runClosed (e : Endian) : TcpConnection → List ClosedEvent → TcpConnection
  | c, [] => c
  | c, ev :: evs => runClosed e (closedStep e c ev) evs

/-- Whether every completion among the events carries an error. -/
def completionsFailed : List ClosedEvent → Bool
  | [] => true
  | .send _ _ _ :: evs => completionsFailed evs
  | .stop :: evs => completionsFailed evs
  | .readHeaderCompleted error :: evs => error.failed && completionsFailed evs
  | .readBodyCompleted error :: evs => error.failed && completionsFailed evs
  | .writeCompleted error :: evs => error.failed && completionsFailed evs

/-! ## config_loader.h / config_loader.cpp -/

/-- The enumeration `LogLevel` of config_loader.h (namespace `chat` in the source). -/
inductive LogLevel where
  | TRACE
  | DEBUG
  | INFO
  | WARN
  | ERROR
  deriving DecidableEq, Repr

/-- The function `std::isspace` in the "C" locale, the locale of a program that never
calls `setlocale`. -/
def isspace (c : Char) : Bool :=
  c == ' ' || c == '\t' || c == '\n' || c == '\x0b' || c == '\x0c' || c == '\r'

/-- The exceptions of `std::stoi`. -/
inductive StoiError where
  | invalid_argument
  | out_of_range
  deriving DecidableEq, Repr

/-- The value of a run of decimal digits. -/
def digitsValue (digits : List Char) : Nat :=
  digits.foldl (fun acc d => acc * 10 + (d.toNat - 48)) 0

/-- The conversion of `std::stoi` after the sign: the longest run of digits is taken and
what follows it is ignored. No digit there is `invalid_argument`; a value outside the range
of `int` is `out_of_range`. -/
def stoiDigits (negative : Bool) (s : List Char) : Except StoiError Int :=
  let digits := s.takeWhile Char.isDigit
  if digits = [] then
    .error .invalid_argument
  else
    let value : Int := if negative then -(digitsValue digits : Int) else digitsValue digits
    if value < -2147483648 ∨ 2147483647 < value then .error .out_of_range else .ok value

/-- The function `std::stoi(str)`, base 10: leading whitespace is skipped, one sign is
taken, then the digits are converted. -/
def stoi (str : List Char) : Except StoiError Int :=
  match str.dropWhile isspace with
  | '-' :: s => stoiDigits true s
  | '+' :: s => stoiDigits false s
  | s => stoiDigits false s

/-- The class `ConfigLoader`. A `std::string` is the list of its chars; the map
`config_values_` is the list of its entries, with distinct keys. -/
structure ConfigLoader where
  config_file_path_ : List Char
  config_values_ : List (List Char × List Char)
  deriving DecidableEq, Repr

namespace ConfigLoader

/-- The member `trim`. The iterator `start` is kept as the rest of the string from it on,
the iterator `end` as the number of chars behind it; `start < end` is then
`behind < start.length`. -/
def trim (str : List Char) : List Char :=
  let start := str.dropWhile isspace
  let behind := (str.reverse.takeWhile isspace).length
  if behind < start.length then start.take (start.length - behind) else []

/-- The member `std::string::find(ch)`: the first position of `ch`, or `npos` (`none`). -/
def find : List Char → Char → Option Nat
  | [], _ => none
  | c :: rest, ch => if c = ch then some 0 else (find rest ch).map (fun pos => pos + 1)

/-- The map after `config_values_[key] = value`. -/
def assign : List (List Char × List Char) → List Char → List Char →
    List (List Char × List Char)
  | [], key, value => [(key, value)]
  | (k, v) :: entries, key, value =>
    if k = key then (key, value) :: entries else (k, v) :: assign entries key value

/-- The call `config_values_.find(key)`: the mapped value, or `end()` (`none`). -/
def lookup : List (List Char × List Char) → List Char → Option (List Char)
  | [], _ => none
  | (k, v) :: entries, key => if k = key then some v else lookup entries key

/-- The member `parseLine`. -/
def parseLine (c : ConfigLoader) (line : List Char) : ConfigLoader :=
  let trimmed_line := trim line
  if trimmed_line.isEmpty || trimmed_line.head? == some '#' then
    c
  else
    match find trimmed_line '=' with
    | none => c
    | some equals_pos =>
      let key := trim (trimmed_line.take equals_pos)
      let value_with_comment := trimmed_line.drop (equals_pos + 1)
      let value :=
        match find value_with_comment '#' with
        | some comment_pos => trim (value_with_comment.take comment_pos)
        | none => trim value_with_comment
      if !key.isEmpty then
        { c with config_values_ := assign c.config_values_ key value }
      else c

/-- The member `reload`, on the lines `std::getline` reads from the file, or `none` when
the file cannot be opened. -/
def reload (c : ConfigLoader) (file : Option (List (List Char))) : Bool × ConfigLoader :=
  let c := { c with config_values_ := [] }
  match file with
  | none => (false, c)
  | some lines => (true, lines.foldl parseLine c)

/-- The constructor. -/
def new (config_file_path : List Char) (file : Option (List (List Char))) : ConfigLoader :=
  (reload { config_file_path_ := config_file_path, config_values_ := [] } file).2

/-- The member `getString`. -/
def getString (c : ConfigLoader) (key : List Char) (default_value : List Char) : List Char :=
  match lookup c.config_values_ key with
  | some value => value
  | none => default_value

/-- The member `getInt`; an exception of `std::stoi` is caught and gives the default. -/
def getInt (c : ConfigLoader) (key : List Char) (default_value : Int) : Int :=
  match lookup c.config_values_ key with
  | some value =>
    match stoi value with
    | .ok result => result
    | .error _ => default_value
  | none => default_value

/-- The member `getBool`. -/
def getBool (c : ConfigLoader) (key : List Char) (default_value : Bool) : Bool :=
  match lookup c.config_values_ key with
  | some value =>
    let value_lower := value.map Char.toLower
    if value_lower = ['t', 'r', 'u', 'e'] || value_lower = ['y', 'e', 's'] ||
        value_lower = ['1'] then
      true
    else if value_lower = ['f', 'a', 'l', 's', 'e'] || value_lower = ['n', 'o'] ||
        value_lower = ['0'] then
      false
    else default_value
  | none => default_value

/-- The member `hasKey`. -/
def hasKey (c : ConfigLoader) (key : List Char) : Bool :=
  (lookup c.config_values_ key).isSome

/-- The member `stringToLogLevel`. -/
def stringToLogLevel (level_str : List Char) : LogLevel :=
  let upper_level := level_str.map Char.toUpper
  if upper_level = ['T', 'R', 'A', 'C', 'E'] then .TRACE
  else if upper_level = ['D', 'E', 'B', 'U', 'G'] then .DEBUG
  else if upper_level = ['I', 'N', 'F', 'O'] then .INFO
  else if upper_level = ['W', 'A', 'R', 'N'] ||
      upper_level = ['W', 'A', 'R', 'N', 'I', 'N', 'G'] then .WARN
  else if upper_level = ['E', 'R', 'R', 'O', 'R'] then .ERROR
  else .INFO

/-- The member `getLogLevel`. -/
def getLogLevel (c : ConfigLoader) : LogLevel :=
  stringToLogLevel (c.getString ['L', 'O', 'G', '_', 'L', 'E', 'V', 'E', 'L']
    ['I', 'N', 'F', 'O'])

/-- The member `getServerPort`. -/
def getServerPort (c : ConfigLoader) : Int :=
  c.getInt ['S', 'E', 'R', 'V', 'E', 'R', '_', 'P', 'O', 'R', 'T'] 8080

/-- The member `getAutosaveInterval`. -/
def getAutosaveInterval (c : ConfigLoader) : Int :=
  c.getInt ['A', 'U', 'T', 'O', 'S', 'A', 'V', 'E', '_', 'I', 'N', 'T', 'E', 'R', 'V',
    'A', 'L'] 300

end ConfigLoader

/-- The decimal text of an integer. -/
def decimalText : Int → List Char
  | .ofNat n => Nat.toDigits 10 n
  | .negSucc n => '-' :: Nat.toDigits 10 (n + 1)

/-! ## Threads that call `send` on one connection -/

namespace TcpConnection

/-- The part of `send` before `write_mutex_` is taken: the test of `is_connected_` and the
construction of the message from the arguments. `none` is the return of `false`. -/
def sendUnlocked (e : Endian) (c : TcpConnection) (data : List Byte) (type flags : Nat) :
    Except Exception (Option OutgoingMessage) :=
  if !c.is_connected_ then
    .ok none
  else
    let header := MessageHeader.new
    let header := header.setMessageType type
    let header := header.setFlags flags
    match header.setBodySize data.length with
    | (.error ex, _) => .error ex
    | (.ok (), header) =>
      let message_header_buffer := resize [] HEADER_SIZE
      let header_buffer := header.encodeToBuffer e (List.replicate HEADER_SIZE 0)
      .ok (some { header_buffer := memcpy message_header_buffer 0 header_buffer, body := data })

/-- The block of `send` under `write_mutex_`: the test of the queue, the append, and the
start of a write when the queue was empty. -/
def sendLocked (c : TcpConnection) (message : OutgoingMessage) : TcpConnection :=
  let write_in_progress := !c.write_queue_.isEmpty
  let c := { c with write_queue_ := c.write_queue_ ++ [message] }
  if !write_in_progress then asyncWrite c else c

end TcpConnection

/-- A thread that calls `send` once for each of `calls`, in order. A call takes two steps:
the part before `write_mutex_`, which leaves the message it built in `message`, and the
block under `write_mutex_`. `returned` holds the results of the calls that are over. -/
structure SenderThread where
  calls : List Frame
  message : Option OutgoingMessage
  returned : List (Except Exception Bool)

/-- Two sender threads and the reactor thread on one connection. -/
structure Threads where
  connection : TcpConnection
  threadA : SenderThread
  threadB : SenderThread

/-- The thread that takes the next step. A step of the reactor is the completion handler
`handleWrite` of the oldest outstanding write, without error. -/
inductive ThreadStep where
  | senderA
  | senderB
  | reactor
  deriving DecidableEq, Repr

/-- The next step of a sender thread on the connection `c`; `none` when it has made all its
calls. -/
def senderStep (e : Endian) (c : TcpConnection) (t : SenderThread) :
    Option (TcpConnection × SenderThread) :=
  match t.message with
  | some message =>
    some (c.sendLocked message, { t with message := none, returned := t.returned ++ [.ok true] })
  | none =>
    match t.calls with
    | [] => none
    | call :: calls =>
      match c.sendUnlocked e call.payload call.type call.flags with
      | .ok (some message) => some (c, { t with calls := calls, message := some message })
      | .ok none => some (c, { t with calls := calls, returned := t.returned ++ [.ok false] })
      | .error ex => some (c, { t with calls := calls, returned := t.returned ++ [.error ex] })

/-- One step of the system; `none` when the thread has no step to take. The steps are
atomic: the blocks under `write_mutex_` exclude one another, and the part of `send` before
the mutex writes nothing that is shared. -/
def threadStep (e : Endian) (s : Threads) : ThreadStep → Option Threads
  | .senderA =>
    match senderStep e s.connection s.threadA with
    | none => none
    | some (c, t) => some { s with connection := c, threadA := t }
  | .senderB =>
    match senderStep e s.connection s.threadB with
    | none => none
    | some (c, t) => some { s with connection := c, threadB := t }
  | .reactor =>
    match s.connection.outstanding_writes with
    | [] => none
    | _ :: _ => some { s with connection := completeWrite s.connection .success }

/-- A run of the system under a schedule. -/
def runThreads (e : Endian) : Threads → List ThreadStep → Option Threads
  | s, [] => some s
  | s, step :: steps =>
    match threadStep e s step with
    | none => none
    | some s => runThreads e s steps

/-- The list `order` is an interleaving of `a` and `b`: each element of `order` is the next
element of `a` or the next element of `b`. -/
inductive Interleaving : List Frame → List Frame → List Frame → Prop where
  | nil : Interleaving [] [] []
  | left (fr : Frame) {order a b : List Frame} :
    Interleaving order a b → Interleaving (fr :: order) (fr :: a) b
  | right (fr : Frame) {order a b : List Frame} :
    Interleaving order a b → Interleaving (fr :: order) a (fr :: b)

/-- The queue entry `send` builds for a frame. -/
def Frame.message (e : Endian) (fr : Frame) : OutgoingMessage :=
  { header_buffer := headerBytes e fr.type fr.flags fr.payload.length, body := fr.payload }

/-- The sender thread `t` has `k` of `calls` behind it, each returned `true`, and is either
between two calls or holds the message of call `k`. -/
def SenderThread.At (e : Endian) (calls : List Frame) (k : Nat) (t : SenderThread) : Prop :=
  t.returned = List.replicate k (.ok true) ∧
  ((t.message = none ∧ t.calls = calls.drop k) ∨
    (∃ fr, calls.drop k = fr :: t.calls ∧ t.message = some (fr.message e)))

/-- The steps a sender thread and the reactor still take for its calls: three per call to
make, two for a message built and not yet queued. -/
def SenderThread.stepsLeft (t : SenderThread) : Nat :=
  3 * t.calls.length + (if t.message.isSome then 2 else 0)

/-- All threads are done: no call left, no message waiting, no write outstanding. -/
def Threads.finished (s : Threads) : Prop :=
  s.threadA.calls = [] ∧ s.threadA.message = none ∧ s.threadB.calls = [] ∧
    s.threadB.message = none ∧ s.connection.outstanding_writes = []

/-- The connection `c` has handed over the frames `done`, holds the frames `queued` in its
queue with the write of the first of them outstanding, and `sent` was transmitted before
them. -/
def TcpConnection.Carries (e : Endian) (sent : List (List Byte)) (done queued : List Frame)
    (c : TcpConnection) : Prop :=
  c.is_connected_ = true ∧ c.write_queue_ = queued.map (Frame.message e) ∧
  c.outstanding_writes = frontWrite c.write_queue_ ∧
  transmitted c.trace =
    sent ++ (done ++ queued.take 1).map (fun fr => frameBytes e fr.type fr.flags fr.payload)

/-! ## Sequences of calls on the room list of a user -/

/-- A call that changes the room list of a user. -/
inductive RoomCall where
  | addToRoom (room_id : String)
  | removeFromRoom (room_id : String)
  deriving DecidableEq, Repr

/-- The user after one call. -/
def User.call (u : User) : RoomCall → User
  | .addToRoom room_id => u.addToRoom room_id
  | .removeFromRoom room_id => u.removeFromRoom room_id

/-- The user after a sequence of calls, in order. -/
def User.calls (u : User) : List RoomCall → User
  | [] => u
  | call :: rest => (u.call call).calls rest

/-! ## Well-formed entries of the outbound queue -/

/-- An entry of the outbound queue is well-formed for a reader of byte order `e`: its header
buffer has `HEADER_SIZE` bytes and decodes to a valid header whose body size is the length
of the entry's body. -/
def OutgoingMessage.wellFormed (e : Endian) (m : OutgoingMessage) : Bool :=
  decide (m.header_buffer.length = HEADER_SIZE) &&
    (MessageHeader.new.decodeFromBuffer e m.header_buffer).isValid &&
    decide ((MessageHeader.new.decodeFromBuffer e m.header_buffer).getBodySize = m.body.length)

/-- Whether every payload passed to `send` in `evs` has a length that fits `uint32_t`. -/
def payloadsFitUInt32 : List ConnectionEvent → Bool
  | [] => true
  | .send data _ _ :: evs => decide (data.length < 4294967296) && payloadsFitUInt32 evs
  | _ :: evs => payloadsFitUInt32 evs

/-! ## Lemmas on the byte order -/

theorem list_length_twelve (b : List Byte) (hb : b.length = 12) :
    ∃ b0 b1 b2 b3 b4 b5 b6 b7 b8 b9 b10 b11,
      b = [b0, b1, b2, b3, b4, b5, b6, b7, b8, b9, b10, b11] := by
  match b, hb with
  | [b0, b1, b2, b3, b4, b5, b6, b7, b8, b9, b10, b11], _ =>
    exact ⟨b0, b1, b2, b3, b4, b5, b6, b7, b8, b9, b10, b11, rfl⟩

theorem unpack32 (a b c d : Nat) (ha : a < 256) (hb : b < 256) (hc : c < 256)
    (hd : d < 256) :
    (a * 16777216 + b * 65536 + c * 256 + d) % 256 = d ∧
    (a * 16777216 + b * 65536 + c * 256 + d) / 256 % 256 = c ∧
    (a * 16777216 + b * 65536 + c * 256 + d) / 65536 % 256 = b ∧
    (a * 16777216 + b * 65536 + c * 256 + d) / 16777216 % 256 = a ∧
    (a * 16777216 + b * 65536 + c * 256 + d) % 4294967296 =
      a * 16777216 + b * 65536 + c * 256 + d := by
  refine ⟨?_, ?_, ?_, ?_, ?_⟩ <;> omega

theorem unpack16 (a b : Nat) (ha : a < 256) (hb : b < 256) :
    (a * 256 + b) % 256 = b ∧ (a * 256 + b) / 256 % 256 = a ∧
    (a * 256 + b) % 65536 = a * 256 + b := by
  refine ⟨?_, ?_, ?_⟩ <;> omega

theorem bytesOfU32_htonl (e : Endian) (x : Nat) :
    bytesOfU32 e (htonl e x) = beBytes32 x := by
  cases e
  · obtain ⟨k0, k1, k2, k3, -⟩ := unpack32 (x % 256) (x / 256 % 256) (x / 65536 % 256)
      (x / 16777216 % 256) (Nat.mod_lt _ (by decide)) (Nat.mod_lt _ (by decide))
      (Nat.mod_lt _ (by decide)) (Nat.mod_lt _ (by decide))
    simp only [bytesOfU32, htonl, bswap32, beBytes32, byteAt, List.cons.injEq,
      Fin.mk.injEq, and_true, Nat.reducePow, pow_zero, pow_one, Nat.div_one, k1, k2, k3]
    omega
  · simp only [bytesOfU32, htonl, u32, beBytes32, byteAt, List.cons.injEq,
      Fin.mk.injEq, and_true, Nat.reducePow, pow_zero, pow_one, Nat.div_one]
    refine ⟨?_, ?_, ?_, ?_⟩ <;> omega

theorem bytesOfU16_htons (e : Endian) (x : Nat) :
    bytesOfU16 e (htons e x) = beBytes16 x := by
  cases e
  · obtain ⟨k0, k1, -⟩ := unpack16 (x % 256) (x / 256 % 256)
      (Nat.mod_lt _ (by decide)) (Nat.mod_lt _ (by decide))
    simp only [bytesOfU16, htons, bswap16, beBytes16, byteAt, List.cons.injEq,
      Fin.mk.injEq, and_true, pow_zero, pow_one, Nat.div_one, k1]
    omega
  · simp only [bytesOfU16, htons, u16, beBytes16, byteAt, List.cons.injEq,
      Fin.mk.injEq, and_true, pow_zero, pow_one, Nat.div_one]
    refine ⟨?_, ?_⟩ <;> omega

theorem ntohl_u32OfBytes (e : Endian) (b0 b1 b2 b3 : Byte) :
    ntohl e (u32OfBytes e [b0, b1, b2, b3]) = beValue [b0, b1, b2, b3] := by
  cases e
  · obtain ⟨k0, k1, k2, k3, -⟩ := unpack32 b3.val b2.val b1.val b0.val
      b3.isLt b2.isLt b1.isLt b0.isLt
    simp only [ntohl, htonl, bswap32, u32OfBytes, beValue, List.getD_cons_zero,
      List.getD_cons_succ, List.foldl_cons, List.foldl_nil, k0, k1, k2, k3]
    omega
  · obtain ⟨-, -, -, -, k4⟩ := unpack32 b0.val b1.val b2.val b3.val
      b0.isLt b1.isLt b2.isLt b3.isLt
    simp only [ntohl, htonl, u32, u32OfBytes, beValue, List.getD_cons_zero,
      List.getD_cons_succ, List.foldl_cons, List.foldl_nil, k4]
    omega

theorem ntohs_u16OfBytes (e : Endian) (b0 b1 : Byte) :
    ntohs e (u16OfBytes e [b0, b1]) = beValue [b0, b1] := by
  cases e
  · obtain ⟨k0, k1, -⟩ := unpack16 b1.val b0.val b1.isLt b0.isLt
    simp only [ntohs, htons, bswap16, u16OfBytes, beValue, List.getD_cons_zero,
      List.getD_cons_succ, List.foldl_cons, List.foldl_nil, k0, k1]
    omega
  · obtain ⟨-, -, k2⟩ := unpack16 b0.val b1.val b0.isLt b1.isLt
    simp only [ntohs, htons, u16, u16OfBytes, beValue, List.getD_cons_zero,
      List.getD_cons_succ, List.foldl_cons, List.foldl_nil, k2]
    omega

theorem beValue_beBytes32 (x : Nat) : beValue (beBytes32 x) = u32 x := by
  simp only [beValue, beBytes32, byteAt, u32, List.foldl_cons, List.foldl_nil,
    Nat.reducePow, pow_zero, pow_one, Nat.div_one]
  omega

theorem beValue_beBytes16 (x : Nat) : beValue (beBytes16 x) = u16 x := by
  simp only [beValue, beBytes16, byteAt, u16, List.foldl_cons, List.foldl_nil,
    pow_zero, pow_one, Nat.div_one]
  omega

/-- The layout `encodeToBuffer` writes, whatever the buffer held and whatever the host. -/
theorem encodeToBuffer_eq (e : Endian) (h : MessageHeader) (buffer : List Byte)
    (hb : buffer.length = HEADER_SIZE) :
    h.encodeToBuffer e buffer =
      beBytes32 h.magic_number_ ++ beBytes16 h.message_type_ ++ beBytes16 h.flags_ ++
        beBytes32 h.body_size_ := by
  obtain ⟨b0, b1, b2, b3, b4, b5, b6, b7, b8, b9, b10, b11, rfl⟩ :=
    list_length_twelve buffer hb
  simp only [MessageHeader.encodeToBuffer, bytesOfU32_htonl, bytesOfU16_htons]
  simp [memcpy, beBytes32, beBytes16]

/-- What `decodeFromBuffer` reads from twelve bytes, whatever the host. -/
theorem decodeFromBuffer_eq (e : Endian) (h : MessageHeader)
    (b0 b1 b2 b3 b4 b5 b6 b7 b8 b9 b10 b11 : Byte) :
    h.decodeFromBuffer e [b0, b1, b2, b3, b4, b5, b6, b7, b8, b9, b10, b11] =
      { magic_number_ := beValue [b0, b1, b2, b3]
        message_type_ := beValue [b4, b5]
        flags_ := beValue [b6, b7]
        body_size_ := beValue [b8, b9, b10, b11] } := by
  simp only [MessageHeader.decodeFromBuffer, memread, List.drop_succ_cons, List.drop_zero,
    List.take_succ_cons, List.take_zero, ntohl_u32OfBytes, ntohs_u16OfBytes]

/-- Decoding an encoded header gives back its fields, reduced to their widths. -/
theorem decode_encode (e1 e2 : Endian) (h h0 : MessageHeader) (buffer : List Byte)
    (hb : buffer.length = HEADER_SIZE) :
    h0.decodeFromBuffer e2 (h.encodeToBuffer e1 buffer) =
      { magic_number_ := u32 h.magic_number_
        message_type_ := u16 h.message_type_
        flags_ := u16 h.flags_
        body_size_ := u32 h.body_size_ } := by
  rw [encodeToBuffer_eq e1 h buffer hb]
  simp only [beBytes32, beBytes16, List.cons_append, List.nil_append, decodeFromBuffer_eq]
  have h1 := beValue_beBytes32 h.magic_number_
  have h2 := beValue_beBytes16 h.message_type_
  have h3 := beValue_beBytes16 h.flags_
  have h4 := beValue_beBytes32 h.body_size_
  simp only [beBytes32, beBytes16] at h1 h2 h3 h4
  rw [h1, h2, h3, h4]

/-! ## The header: claims C1 to C4 -/

theorem decodeFromBuffer_of_length (e : Endian) (h : MessageHeader) (b : List Byte)
    (hb : b.length = HEADER_SIZE) :
    h.decodeFromBuffer e b =
      { magic_number_ := beValue (b.take 4)
        message_type_ := beValue ((b.drop 4).take 2)
        flags_ := beValue ((b.drop 6).take 2)
        body_size_ := beValue ((b.drop 8).take 4) } := by
  obtain ⟨b0, b1, b2, b3, b4, b5, b6, b7, b8, b9, b10, b11, rfl⟩ := list_length_twelve b hb
  rw [decodeFromBuffer_eq]
  rfl

/-- C1: header round-trip. For every 16-bit message type `t`, 16-bit flags `f` and body
size `s ≤ MAX_BODY_SIZE`, `setBodySize s` does not throw on the header built with
`setMessageType t` and `setFlags f`, and that header, encoded (on a host of either byte
order, into any buffer of `HEADER_SIZE` bytes) and decoded into a fresh header (on a host
of either byte order), has message type `t`, flags `f`, body size `s`, is valid, and is
the header that was encoded. -/
theorem header_round_trip (e1 e2 : Endian) (t f s : Nat) (ht : t < 65536) (hf : f < 65536)
    (hs : s ≤ MAX_BODY_SIZE) (buffer : List Byte) (hb : buffer.length = HEADER_SIZE) :
    (((MessageHeader.new.setMessageType t).setFlags f).setBodySize s).1 = .ok () ∧
    (MessageHeader.new.decodeFromBuffer e2
        ((((MessageHeader.new.setMessageType t).setFlags f).setBodySize s).2.encodeToBuffer e1
          buffer)).getMessageType = t ∧
    (MessageHeader.new.decodeFromBuffer e2
        ((((MessageHeader.new.setMessageType t).setFlags f).setBodySize s).2.encodeToBuffer e1
          buffer)).getFlags = f ∧
    (MessageHeader.new.decodeFromBuffer e2
        ((((MessageHeader.new.setMessageType t).setFlags f).setBodySize s).2.encodeToBuffer e1
          buffer)).getBodySize = s ∧
    (MessageHeader.new.decodeFromBuffer e2
        ((((MessageHeader.new.setMessageType t).setFlags f).setBodySize s).2.encodeToBuffer e1
          buffer)).isValid = true ∧
    MessageHeader.new.decodeFromBuffer e2
        ((((MessageHeader.new.setMessageType t).setFlags f).setBodySize s).2.encodeToBuffer e1
          buffer) =
      (((MessageHeader.new.setMessageType t).setFlags f).setBodySize s).2 := by
  have hs1 : s ≤ 1048576 := hs
  have hsu : u32 s = s := by unfold u32; omega
  have htu : u16 t = t := by unfold u16; omega
  have hfu : u16 f = f := by unfold u16; omega
  have hset : ((MessageHeader.new.setMessageType t).setFlags f).setBodySize s =
      (.ok (), MessageHeader.mk MessageHeader.MAGIC_NUMBER t f s) := by
    simp only [MessageHeader.setBodySize, MessageHeader.setFlags, MessageHeader.setMessageType,
      MessageHeader.new, hsu, htu, hfu, MAX_BODY_SIZE]
    rw [if_neg (by omega)]
  rw [hset, decode_encode e1 e2 _ _ buffer hb]
  have hmu : u32 MessageHeader.MAGIC_NUMBER = MessageHeader.MAGIC_NUMBER := by decide
  simp only [hsu, htu, hfu, hmu, MessageHeader.getMessageType, MessageHeader.getFlags,
    MessageHeader.getBodySize, MessageHeader.isValid, MAX_BODY_SIZE, beq_self_eq_true,
    Bool.true_and, decide_eq_true_eq, true_and, and_true]
  omega

theorem header_round_trip_witness :
    (258 < 65536 ∧ 16 < 65536 ∧ 1048576 ≤ MAX_BODY_SIZE ∧
      (List.replicate 12 (7 : Byte)).length = HEADER_SIZE) ∧
    (MessageHeader.new.decodeFromBuffer .big
        ((((MessageHeader.new.setMessageType 258).setFlags 16).setBodySize 1048576).2.encodeToBuffer
          .little (List.replicate 12 7))).getBodySize = 1048576 :=
  ⟨by decide,
    (header_round_trip .little .big 258 16 1048576 (by decide) (by decide) (by decide)
      (List.replicate 12 7) (by decide)).2.2.2.1⟩

/-- C2, counterexample: a header into which `decodeFromBuffer` read the magic 0xDEADBEEF
and which was then given message type 258, flags 16 and body size 3 is a header with that
type, those flags and that size; `encodeToBuffer` writes DE AD BE EF into bytes 0..3, not
43 48 41 54. -/
theorem encode_writes_stored_magic :
    ((((MessageHeader.new.decodeFromBuffer .little
      [0xDE, 0xAD, 0xBE, 0xEF, 0, 0, 0, 0, 0, 0, 0, 0]).setMessageType 258).setFlags
      16).setBodySize 3).1 = .ok () ∧
    ((((MessageHeader.new.decodeFromBuffer .little
      [0xDE, 0xAD, 0xBE, 0xEF, 0, 0, 0, 0, 0, 0, 0, 0]).setMessageType 258).setFlags
      16).setBodySize 3).2.getMessageType = 258 ∧
    ((((MessageHeader.new.decodeFromBuffer .little
      [0xDE, 0xAD, 0xBE, 0xEF, 0, 0, 0, 0, 0, 0, 0, 0]).setMessageType 258).setFlags
      16).setBodySize 3).2.getFlags = 16 ∧
    ((((MessageHeader.new.decodeFromBuffer .little
      [0xDE, 0xAD, 0xBE, 0xEF, 0, 0, 0, 0, 0, 0, 0, 0]).setMessageType 258).setFlags
      16).setBodySize 3).2.getBodySize = 3 ∧
    ((((MessageHeader.new.decodeFromBuffer .little
      [0xDE, 0xAD, 0xBE, 0xEF, 0, 0, 0, 0, 0, 0, 0, 0]).setMessageType 258).setFlags
      16).setBodySize 3).2.encodeToBuffer .little (List.replicate 12 0) =
      [0xDE, 0xAD, 0xBE, 0xEF, 1, 2, 0, 16, 0, 0, 0, 3] ∧
    (((((MessageHeader.new.decodeFromBuffer .little
      [0xDE, 0xAD, 0xBE, 0xEF, 0, 0, 0, 0, 0, 0, 0, 0]).setMessageType 258).setFlags
      16).setBodySize 3).2.encodeToBuffer .little (List.replicate 12 0)).take 4 ≠
      [0x43, 0x48, 0x41, 0x54] := by
  refine ⟨by rfl, by decide, by decide, by decide, by decide, by decide⟩

/-- C2, amended: bit-exact wire layout. For every header, with its stored magic number `m`,
message type `t`, flags `f` and body size `s`, `encodeToBuffer` (on a host of either byte
order, into any buffer of `HEADER_SIZE` bytes) leaves exactly 12 bytes: bytes 0..3 are `m`,
bytes 4..5 are `t`, bytes 6..7 are `f` and bytes 8..11 are `s`, each most significant byte
first. Bytes 0..3 are 0x43 0x48 0x41 0x54 exactly when the stored magic number is the
constant 0x43484154: for every header for which `isValid` holds, and for every header made
by the constructor and the setters, which leave the stored magic number as it is. -/
theorem encode_wire_layout_of_stored_magic (e : Endian) (h : MessageHeader)
    (hm : h.magic_number_ < 4294967296) (ht : h.getMessageType < 65536)
    (hf : h.getFlags < 65536) (hs : h.getBodySize < 4294967296) (buffer : List Byte)
    (hb : buffer.length = HEADER_SIZE) (out : List Byte)
    (hout : out = h.encodeToBuffer e buffer) :
    out.length = 12 ∧
    out = [byteAt h.magic_number_ 3, byteAt h.magic_number_ 2, byteAt h.magic_number_ 1,
      byteAt h.magic_number_ 0, byteAt h.getMessageType 1, byteAt h.getMessageType 0,
      byteAt h.getFlags 1, byteAt h.getFlags 0, byteAt h.getBodySize 3,
      byteAt h.getBodySize 2, byteAt h.getBodySize 1, byteAt h.getBodySize 0] ∧
    beValue (out.take 4) = h.magic_number_ ∧
    beValue ((out.drop 4).take 2) = h.getMessageType ∧
    beValue ((out.drop 6).take 2) = h.getFlags ∧
    beValue ((out.drop 8).take 4) = h.getBodySize ∧
    (out.take 4 = [0x43, 0x48, 0x41, 0x54] ↔
      h.magic_number_ = MessageHeader.MAGIC_NUMBER) ∧
    (h.isValid = true → out.take 4 = [0x43, 0x48, 0x41, 0x54]) ∧
    (∀ t f s : Nat,
      ((((MessageHeader.new.setMessageType t).setFlags f).setBodySize s).2.encodeToBuffer e
        buffer).take 4 = [0x43, 0x48, 0x41, 0x54]) ∧
    (∀ v : Nat, (h.setMessageType v).magic_number_ = h.magic_number_ ∧
      (h.setFlags v).magic_number_ = h.magic_number_ ∧
      (h.setBodySize v).2.magic_number_ = h.magic_number_) := by
  have h0 := beValue_beBytes32 h.magic_number_
  have h1 := beValue_beBytes16 h.message_type_
  have h2 := beValue_beBytes16 h.flags_
  have h3 := beValue_beBytes32 h.body_size_
  have hmu : u32 h.magic_number_ = h.magic_number_ := by unfold u32; omega
  have hsu : u32 h.body_size_ = h.body_size_ := by
    have : h.body_size_ < 4294967296 := hs
    unfold u32; omega
  have htu : u16 h.message_type_ = h.message_type_ := by
    have : h.message_type_ < 65536 := ht
    unfold u16; omega
  have hfu : u16 h.flags_ = h.flags_ := by
    have : h.flags_ < 65536 := hf
    unfold u16; omega
  rw [hmu] at h0
  rw [htu] at h1
  rw [hfu] at h2
  rw [hsu] at h3
  have hchat : beBytes32 MessageHeader.MAGIC_NUMBER = [0x43, 0x48, 0x41, 0x54] := by decide
  have htake : out.take 4 = beBytes32 h.magic_number_ := by
    rw [hout, encodeToBuffer_eq e h buffer hb]
    rfl
  have hiff : out.take 4 = [0x43, 0x48, 0x41, 0x54] ↔
      h.magic_number_ = MessageHeader.MAGIC_NUMBER := by
    rw [htake]
    constructor
    · intro heq
      have := congrArg beValue heq
      rw [h0] at this
      rw [this]
      decide
    · intro heq
      rw [heq, hchat]
  refine ⟨?_, ?_, ?_, ?_, ?_, ?_, hiff, ?_, ?_, ?_⟩
  · rw [hout, encodeToBuffer_eq e h buffer hb]
    rfl
  · rw [hout, encodeToBuffer_eq e h buffer hb]
    rfl
  · rw [htake]
    exact h0
  · rw [hout, encodeToBuffer_eq e h buffer hb]
    exact h1
  · rw [hout, encodeToBuffer_eq e h buffer hb]
    exact h2
  · rw [hout, encodeToBuffer_eq e h buffer hb]
    exact h3
  · intro hv
    apply hiff.mpr
    simp only [MessageHeader.isValid, Bool.and_eq_true, beq_iff_eq] at hv
    exact hv.1
  · intro t f s
    have hmagic : (((MessageHeader.new.setMessageType t).setFlags f).setBodySize
        s).2.magic_number_ = MessageHeader.MAGIC_NUMBER := by
      unfold MessageHeader.setBodySize
      simp only
      split <;> rfl
    rw [encodeToBuffer_eq e _ buffer hb, hmagic]
    rfl
  · intro v
    refine ⟨rfl, rfl, ?_⟩
    unfold MessageHeader.setBodySize
    simp only
    split <;> rfl

theorem encode_wire_layout_of_stored_magic_witness :
    ((0x43484154 : Nat) < 4294967296 ∧ 258 < 65536 ∧ 16 < 65536 ∧ 66051 < 4294967296 ∧
      (List.replicate 12 (7 : Byte)).length = HEADER_SIZE ∧
      ([0x43, 0x48, 0x41, 0x54, 1, 2, 0, 16, 0, 1, 2, 3] : List Byte) =
        (MessageHeader.mk MessageHeader.MAGIC_NUMBER 258 16 66051).encodeToBuffer .little
          (List.replicate 12 7)) ∧
    beValue ((([0x43, 0x48, 0x41, 0x54, 1, 2, 0, 16, 0, 1, 2, 3] : List Byte).drop 8).take 4) =
      (MessageHeader.mk MessageHeader.MAGIC_NUMBER 258 16 66051).getBodySize :=
  ⟨by decide,
    (encode_wire_layout_of_stored_magic .little
      (MessageHeader.mk MessageHeader.MAGIC_NUMBER 258 16 66051) (by decide) (by decide)
      (by decide) (by decide) (List.replicate 12 7) (by decide)
      [0x43, 0x48, 0x41, 0x54, 1, 2, 0, 16, 0, 1, 2, 3] (by decide)).2.2.2.2.2.1⟩

/-- C3: `setBodySize size`, for a 32-bit `size`, throws if and only if
`size > MAX_BODY_SIZE`. When it throws the header is left as it was; when it does not,
`getBodySize` is `size` and magic, message type and flags are as before. The size 1048576
is accepted and 1048577 is rejected. -/
theorem setBodySize_throws_iff (h : MessageHeader) (size : Nat) (hsize : size < 4294967296) :
    ((h.setBodySize size).1 = .error .runtime_error ↔ size > MAX_BODY_SIZE) ∧
    ((h.setBodySize size).1 = .ok () ↔ size ≤ MAX_BODY_SIZE) ∧
    (size > MAX_BODY_SIZE → (h.setBodySize size).2 = h) ∧
    (size ≤ MAX_BODY_SIZE →
      (h.setBodySize size).2.getBodySize = size ∧
      (h.setBodySize size).2.magic_number_ = h.magic_number_ ∧
      (h.setBodySize size).2.getMessageType = h.getMessageType ∧
      (h.setBodySize size).2.getFlags = h.getFlags) ∧
    (h.setBodySize 1048576).1 = .ok () ∧
    (h.setBodySize 1048577).1 = .error .runtime_error := by
  have hsu : u32 size = size := by unfold u32; omega
  refine ⟨?_, ?_, ?_, ?_, ?_, ?_⟩
  · simp only [MessageHeader.setBodySize, hsu]
    split <;> simp_all
  · simp only [MessageHeader.setBodySize, hsu]
    split <;> simp_all
  · intro hgt
    simp only [MessageHeader.setBodySize, hsu, if_pos hgt]
  · intro hle
    have hng : ¬ size > MAX_BODY_SIZE := by omega
    simp only [MessageHeader.setBodySize, hsu, if_neg hng, MessageHeader.getBodySize,
      MessageHeader.getMessageType, MessageHeader.getFlags, and_self]
  · simp [MessageHeader.setBodySize, u32, MAX_BODY_SIZE]
  · simp [MessageHeader.setBodySize, u32, MAX_BODY_SIZE]

theorem setBodySize_throws_iff_witness :
    (2097152 < 4294967296) ∧
    ((MessageHeader.new.setBodySize 2097152).1 = .error .runtime_error ↔
      2097152 > MAX_BODY_SIZE) :=
  ⟨by decide, (setBodySize_throws_iff MessageHeader.new 2097152 (by decide)).1⟩

/-- C4: header validity. For every buffer `b` of 12 bytes, on a host of either byte order,
after `decodeFromBuffer b` the header is valid if and only if bytes 0..3, read most
significant byte first, are the magic 0x43484154 and bytes 8..11, read most significant
byte first, are at most `MAX_BODY_SIZE`. A buffer that starts with 0xDE 0xAD 0xBE 0xEF is
invalid whatever its other bytes, and two buffers that agree on bytes 0..3 and 8..11 are
both valid or both invalid. -/
theorem isValid_after_decode (e : Endian) (h : MessageHeader) (b : List Byte)
    (hb : b.length = 12) :
    ((h.decodeFromBuffer e b).isValid = true ↔
      beValue (b.take 4) = 0x43484154 ∧ beValue ((b.drop 8).take 4) ≤ 1048576) ∧
    (beValue (b.take 4) ≠ 0x43484154 → (h.decodeFromBuffer e b).isValid = false) ∧
    (b.take 4 = [0xDE, 0xAD, 0xBE, 0xEF] → (h.decodeFromBuffer e b).isValid = false) ∧
    (∀ (h1 : MessageHeader) (b1 : List Byte), b1.length = 12 → b1.take 4 = b.take 4 →
      b1.drop 8 = b.drop 8 →
      (h1.decodeFromBuffer e b1).isValid = (h.decodeFromBuffer e b).isValid) := by
  have key : ∀ (h1 : MessageHeader) (b1 : List Byte), b1.length = 12 →
      ((h1.decodeFromBuffer e b1).isValid = true ↔
        beValue (b1.take 4) = 0x43484154 ∧ beValue ((b1.drop 8).take 4) ≤ 1048576) := by
    intro h1 b1 hb1
    rw [decodeFromBuffer_of_length e h1 b1 hb1]
    simp [MessageHeader.isValid, MessageHeader.MAGIC_NUMBER, MAX_BODY_SIZE]
  refine ⟨key h b hb, ?_, ?_, ?_⟩
  · intro hne
    have hk := key h b hb
    cases hv : (h.decodeFromBuffer e b).isValid
    · rfl
    · exact absurd (hk.mp hv).1 hne
  · intro hde
    have hk := key h b hb
    cases hv : (h.decodeFromBuffer e b).isValid
    · rfl
    · have := (hk.mp hv).1
      rw [hde] at this
      exact absurd this (by decide)
  · intro h1 b1 hb1 h4 h8
    have hk := key h b hb
    have hk1 := key h1 b1 hb1
    rw [h4, h8] at hk1
    rw [Bool.eq_iff_iff, hk, hk1]

theorem isValid_after_decode_witness :
    ([0x43, 0x48, 0x41, 0x54, 0, 1, 0, 2, 0, 0x10, 0, 0] : List Byte).length = 12 ∧
    ((MessageHeader.new.decodeFromBuffer .little
        [0x43, 0x48, 0x41, 0x54, 0, 1, 0, 2, 0, 0x10, 0, 0]).isValid = true ↔
      beValue (([0x43, 0x48, 0x41, 0x54, 0, 1, 0, 2, 0, 0x10, 0, 0] : List Byte).take 4) =
          0x43484154 ∧
        beValue ((([0x43, 0x48, 0x41, 0x54, 0, 1, 0, 2, 0, 0x10, 0, 0] : List Byte).drop 8).take
          4) ≤ 1048576) :=
  ⟨by decide,
    (isValid_after_decode .little MessageHeader.new
      [0x43, 0x48, 0x41, 0x54, 0, 1, 0, 2, 0, 0x10, 0, 0] (by decide)).1⟩

/-! ## The outbound side: `send` -/

theorem headerBytes_eq (e : Endian) (t f s : Nat) :
    headerBytes e t f s =
      beBytes32 MessageHeader.MAGIC_NUMBER ++ beBytes16 (u16 t) ++ beBytes16 (u16 f) ++
        beBytes32 s := by
  unfold headerBytes
  rw [encodeToBuffer_eq e _ _ (by simp [HEADER_SIZE])]
  rfl

theorem headerBytes_length (e : Endian) (t f s : Nat) :
    (headerBytes e t f s).length = 12 := by
  rw [headerBytes_eq]
  rfl

theorem memcpy_resize_nil (src : List Byte) (hsrc : src.length = HEADER_SIZE) :
    memcpy (resize [] HEADER_SIZE) 0 src = src := by
  simp [memcpy, resize, hsrc]

/-- What `send` does on a connected connection when the converted size passes the check
of `setBodySize`. -/
theorem send_connected (e : Endian) (c : TcpConnection) (data : List Byte) (t f : Nat)
    (hc : c.is_connected_ = true) (hlen : u32 data.length ≤ MAX_BODY_SIZE) :
    TcpConnection.send e c data t f =
      (.ok true,
        if c.write_queue_ = [] then
          { c with
            write_queue_ := [⟨headerBytes e t f (u32 data.length), data⟩]
            outstanding_writes := c.outstanding_writes ++
              [gatherBuffers ⟨headerBytes e t f (u32 data.length), data⟩]
            trace := c.trace ++
              [.asyncWrite (gatherBuffers ⟨headerBytes e t f (u32 data.length), data⟩)] }
        else
          { c with
            write_queue_ := c.write_queue_ ++
              [⟨headerBytes e t f (u32 data.length), data⟩] }) := by
  have hset : ((MessageHeader.new.setMessageType t).setFlags f).setBodySize data.length =
      (.ok (), headerOf t f (u32 data.length)) := by
    simp only [MessageHeader.setBodySize, headerOf]
    rw [if_neg (by omega)]
  have hcopy : memcpy (resize [] HEADER_SIZE) 0
      ((headerOf t f (u32 data.length)).encodeToBuffer e (List.replicate HEADER_SIZE 0)) =
      headerBytes e t f (u32 data.length) :=
    memcpy_resize_nil _ (headerBytes_length e t f _)
  unfold TcpConnection.send
  simp only [hc, Bool.not_true, Bool.false_eq_true, if_false, hset, hcopy]
  cases hq : c.write_queue_ with
  | nil => simp [TcpConnection.asyncWrite]
  | cons m ms => simp

/-- What `send` does on a connected connection when the converted size fails the check. -/
theorem send_throws (e : Endian) (c : TcpConnection) (data : List Byte) (t f : Nat)
    (hc : c.is_connected_ = true) (hlen : MAX_BODY_SIZE < u32 data.length) :
    TcpConnection.send e c data t f = (.error .runtime_error, c) := by
  have hset : ((MessageHeader.new.setMessageType t).setFlags f).setBodySize data.length =
      (.error .runtime_error, (MessageHeader.new.setMessageType t).setFlags f) := by
    simp only [MessageHeader.setBodySize]
    rw [if_pos hlen]
  unfold TcpConnection.send
  simp only [hc, Bool.not_true, Bool.false_eq_true, if_false, hset]

theorem headerOf_eq (t f s : Nat) (ht : t < 65536) (hf : f < 65536) :
    headerOf t f s =
      MessageHeader.mk MessageHeader.MAGIC_NUMBER t f s := by
  have htu : u16 t = t := by unfold u16; omega
  have hfu : u16 f = f := by unfold u16; omega
  simp only [headerOf, MessageHeader.setFlags, MessageHeader.setMessageType, MessageHeader.new,
    htu, hfu]

theorem u32_of_le_max (n : Nat) (hn : n ≤ MAX_BODY_SIZE) : u32 n = n := by
  have h1 : n ≤ 1048576 := hn
  unfold u32
  omega

theorem gatherBuffers_flatten (m : OutgoingMessage) :
    (gatherBuffers m).flatten = m.header_buffer ++ m.body := by
  unfold gatherBuffers
  cases hb : m.body with
  | nil => simp
  | cons x xs => simp

theorem gatherBuffers_eq (hdr p : List Byte) :
    gatherBuffers ⟨hdr, p⟩ = if p = [] then [hdr] else [hdr, p] := by
  unfold gatherBuffers
  cases p with
  | nil => simp
  | cons x xs => simp

/-- C6: on a connected connection, for every payload `p` with `|p| ≤ MAX_BODY_SIZE`, every
16-bit type `t` and 16-bit flags `f`, with `hdr` the 12-byte encoding of the header with
type `t`, flags `f` and body size `|p|`: `send` returns `true`; the outbound queue is the
old queue followed by the one entry `(hdr, p)`; and one gather write (of `hdr`, then `p`
when `p` is not empty) is handed over when the queue was empty before the call, none when
it was not. -/
theorem send_appends_frame (e : Endian) (c : TcpConnection) (p : List Byte) (t f : Nat)
    (hc : c.is_connected_ = true) (hp : p.length ≤ MAX_BODY_SIZE) (ht : t < 65536)
    (hf : f < 65536) (hdr : List Byte)
    (hhdr : hdr = (MessageHeader.mk MessageHeader.MAGIC_NUMBER t f p.length).encodeToBuffer e
      (List.replicate HEADER_SIZE 0)) :
    (TcpConnection.send e c p t f).1 = .ok true ∧
    (TcpConnection.send e c p t f).2.write_queue_ = c.write_queue_ ++ [⟨hdr, p⟩] ∧
    hdr.length = 12 ∧
    (c.write_queue_ = [] →
      (TcpConnection.send e c p t f).2.trace =
        c.trace ++ [.asyncWrite (if p = [] then [hdr] else [hdr, p])] ∧
      (TcpConnection.send e c p t f).2.outstanding_writes =
        c.outstanding_writes ++ [if p = [] then [hdr] else [hdr, p]]) ∧
    (c.write_queue_ ≠ [] →
      (TcpConnection.send e c p t f).2.trace = c.trace ∧
      (TcpConnection.send e c p t f).2.outstanding_writes = c.outstanding_writes) := by
  have hu : u32 p.length = p.length := u32_of_le_max _ hp
  have hh : headerBytes e t f p.length = hdr := by
    rw [hhdr, headerBytes, headerOf_eq t f _ ht hf]
  rw [send_connected e c p t f hc (by rw [hu]; exact hp), hu, hh, gatherBuffers_eq]
  refine ⟨rfl, ?_, ?_, ?_, ?_⟩
  · by_cases hq : c.write_queue_ = []
    · simp [hq]
    · simp [hq]
  · rw [← hh]
    exact headerBytes_length e t f _
  · intro hq
    simp [hq]
  · intro hq
    simp [hq]

theorem send_appends_frame_witness :
    ((TcpConnection.accepted.start).is_connected_ = true ∧
      ([1, 2, 3] : List Byte).length ≤ MAX_BODY_SIZE ∧ 5 < 65536 ∧ 16 < 65536 ∧
      ([0x43, 0x48, 0x41, 0x54, 0, 5, 0, 16, 0, 0, 0, 3] : List Byte) =
        (MessageHeader.mk MessageHeader.MAGIC_NUMBER 5 16
          ([1, 2, 3] : List Byte).length).encodeToBuffer .little
          (List.replicate HEADER_SIZE 0)) ∧
    (TcpConnection.send .little TcpConnection.accepted.start [1, 2, 3] 5 16).2.write_queue_ =
      TcpConnection.accepted.start.write_queue_ ++
        [⟨[0x43, 0x48, 0x41, 0x54, 0, 5, 0, 16, 0, 0, 0, 3], [1, 2, 3]⟩] :=
  ⟨by decide,
    (send_appends_frame .little TcpConnection.accepted.start [1, 2, 3] 5 16 (by decide) (by decide)
      (by decide) (by decide) [0x43, 0x48, 0x41, 0x54, 0, 5, 0, 16, 0, 0, 0, 3]
      (by decide)).2.1⟩

/-- Within the range of `uint32_t`, an oversize payload makes `send` throw and leaves the
connection as it was. -/
theorem send_oversize_rejected (e : Endian) (c : TcpConnection) (p : List Byte) (t f : Nat)
    (hc : c.is_connected_ = true) (hp : MAX_BODY_SIZE < p.length)
    (hp32 : p.length < 4294967296) :
    TcpConnection.send e c p t f = (.error .runtime_error, c) := by
  have hu : u32 p.length = p.length := by unfold u32; omega
  exact send_throws e c p t f hc (by rw [hu]; exact hp)

/-- C7, the code at the failing input: a payload of 4294967296 bytes is over the maximum,
yet on a connected connection with an empty queue `send` returns `true`, queues a header
that declares a body of 0 bytes together with the whole payload, and hands both to the
transport. The `size_t` length is converted to the `uint32_t` parameter of `setBodySize`
before the check. -/
theorem send_oversize_wraps :
    MAX_BODY_SIZE < (List.replicate 4294967296 (0 : Byte)).length ∧
    TcpConnection.accepted.start.is_connected_ = true ∧
    (TcpConnection.send .little TcpConnection.accepted.start (List.replicate 4294967296 0) 1 0).1 =
      .ok true ∧
    (TcpConnection.send .little TcpConnection.accepted.start (List.replicate 4294967296 0) 1
        0).2.write_queue_ =
      [⟨[0x43, 0x48, 0x41, 0x54, 0, 1, 0, 0, 0, 0, 0, 0], List.replicate 4294967296 0⟩] ∧
    (TcpConnection.send .little TcpConnection.accepted.start (List.replicate 4294967296 0) 1
        0).2.outstanding_writes =
      [[[0x43, 0x48, 0x41, 0x54, 0, 1, 0, 0, 0, 0, 0, 0], List.replicate 4294967296 0]] := by
  have hlen : (List.replicate 4294967296 (0 : Byte)).length = 4294967296 :=
    List.length_replicate _ _
  have hu : u32 (List.replicate 4294967296 (0 : Byte)).length = 0 := by
    rw [hlen]; decide
  have hne : List.replicate 4294967296 (0 : Byte) ≠ [] := by
    intro h
    have := congrArg List.length h
    rw [hlen] at this
    exact absurd this (by decide)
  have hhdr : headerBytes .little 1 0 0 = [0x43, 0x48, 0x41, 0x54, 0, 1, 0, 0, 0, 0, 0, 0] := by
    decide
  have hc : TcpConnection.accepted.start.is_connected_ = true := rfl
  have hq : TcpConnection.accepted.start.write_queue_ = [] := rfl
  have hw : TcpConnection.accepted.start.outstanding_writes = [] := rfl
  rw [send_connected .little _ _ 1 0 hc (by rw [hu]; decide), hu, hhdr, gatherBuffers_eq,
    if_neg hne, if_pos hq, hlen]
  refine ⟨by decide, hc, rfl, rfl, ?_⟩
  simp only [hw, List.nil_append]

/-- C8: `send` on a connection that is not connected returns `false` and leaves the
connection, its outbound queue included, exactly as it was, so no write is started; this
is so for a connection that was never started and for every stopped connection. -/
theorem send_not_connected (e : Endian) (c : TcpConnection) (p : List Byte) (t f : Nat)
    (hc : c.is_connected_ = false) :
    TcpConnection.send e c p t f = (.ok false, c) ∧
    TcpConnection.send e TcpConnection.new p t f = (.ok false, TcpConnection.new) ∧
    (∀ c1 : TcpConnection, TcpConnection.send e c1.stop p t f = (.ok false, c1.stop)) := by
  have key : ∀ c1 : TcpConnection, c1.is_connected_ = false →
      TcpConnection.send e c1 p t f = (.ok false, c1) := by
    intro c1 h1
    unfold TcpConnection.send
    simp only [h1, Bool.not_false, if_true]
  exact ⟨key c hc, key _ rfl, fun c1 => key _ rfl⟩

theorem send_not_connected_witness :
    (TcpConnection.new.start.stop).is_connected_ = false ∧
    TcpConnection.send .big TcpConnection.new.start.stop [1, 2] 7 0 =
      (.ok false, TcpConnection.new.start.stop) :=
  ⟨by decide, (send_not_connected .big TcpConnection.new.start.stop [1, 2] 7 0 (by decide)).1⟩

/-! ## The inbound side -/

theorem receiveFuel_header (e : Endian) (fuel : Nat) (c : TcpConnection) (stream : List Byte)
    (rs : List ReadRequest) (hso : c.socket_open = true)
    (hor : c.outstanding_reads = .header :: rs) (hlen : HEADER_SIZE ≤ stream.length) :
    receiveFuel e (fuel + 1) c stream =
      receiveFuel e fuel (completeReadHeader e c (stream.take HEADER_SIZE))
        (stream.drop HEADER_SIZE) := by
  rw [receiveFuel]
  simp only [hso, hor, hlen, Bool.not_true, Bool.false_eq_true, if_false, if_true]

theorem receiveFuel_body (e : Endian) (fuel n : Nat) (c : TcpConnection) (stream : List Byte)
    (rs : List ReadRequest) (hso : c.socket_open = true)
    (hor : c.outstanding_reads = .body n :: rs) (hlen : n ≤ stream.length) :
    receiveFuel e (fuel + 1) c stream =
      receiveFuel e fuel (completeReadBody c (stream.take n)) (stream.drop n) := by
  rw [receiveFuel]
  simp only [hso, hor, hlen, Bool.not_true, Bool.false_eq_true, if_false, if_true]

theorem receiveFuel_blocked (e : Endian) (fuel : Nat) (c : TcpConnection)
    (hor : c.outstanding_reads = [.header]) :
    receiveFuel e fuel c [] = (c, []) := by
  cases fuel with
  | zero => rfl
  | succ k =>
    rw [receiveFuel]
    simp [hor, HEADER_SIZE]

/-- The header read completes with the encoding of a valid header. -/
theorem completeReadHeader_valid (e1 e2 : Endian) (c : TcpConnection) (t f n : Nat)
    (ht : t < 65536) (hf : f < 65536) (hn : n ≤ MAX_BODY_SIZE)
    (hor : c.outstanding_reads = [.header]) :
    completeReadHeader e2 c (headerBytes e1 t f n) =
      if n > 0 then
        { c with
          read_header_buffer_ := headerBytes e1 t f n
          current_header_ := ⟨MessageHeader.MAGIC_NUMBER, t, f, n⟩
          read_body_buffer_ := resize c.read_body_buffer_ n
          outstanding_reads := [.body n]
          trace := c.trace ++ [.asyncReadBody n] }
      else
        { c with
          read_header_buffer_ := headerBytes e1 t f n
          current_header_ := ⟨MessageHeader.MAGIC_NUMBER, t, f, n⟩
          outstanding_reads := [.header]
          trace := (if c.message_callback_ then c.trace ++ [.messageCallback [] t f]
            else c.trace) ++ [.asyncReadHeader] } := by
  have hdec : c.current_header_.decodeFromBuffer e2 (headerBytes e1 t f n) =
      ⟨MessageHeader.MAGIC_NUMBER, t, f, n⟩ := by
    unfold headerBytes
    rw [decode_encode e1 e2 _ _ _ (by simp [HEADER_SIZE]), headerOf_eq t f n ht hf]
    have hmu : u32 MessageHeader.MAGIC_NUMBER = MessageHeader.MAGIC_NUMBER := by decide
    have htu : u16 t = t := by unfold u16; omega
    have hfu : u16 f = f := by unfold u16; omega
    simp only [hmu, htu, hfu, u32_of_le_max n hn]
  have hval : (⟨MessageHeader.MAGIC_NUMBER, t, f, n⟩ : MessageHeader).isValid = true := by
    simp [MessageHeader.isValid, hn]
  unfold completeReadHeader TcpConnection.handleReadHeader
  simp only [ErrorCode.failed, Bool.false_eq_true, if_false, hdec, hval, Bool.not_true,
    MessageHeader.getBodySize, MessageHeader.getMessageType, MessageHeader.getFlags, hor,
    List.tail_cons]
  by_cases hpos : n > 0
  · simp only [hpos, if_true, TcpConnection.asyncReadBody, List.nil_append]
  · simp only [hpos, if_false, TcpConnection.asyncReadHeader, List.nil_append]
    cases hcb : c.message_callback_ <;> simp

theorem frameBytes_take (e : Endian) (t f : Nat) (p rest : List Byte) :
    (frameBytes e t f p ++ rest).take HEADER_SIZE = headerBytes e t f p.length := by
  unfold frameBytes
  rw [List.append_assoc]
  exact List.take_left' (headerBytes_length e t f _)

theorem frameBytes_drop (e : Endian) (t f : Nat) (p rest : List Byte) :
    (frameBytes e t f p ++ rest).drop HEADER_SIZE = p ++ rest := by
  unfold frameBytes
  rw [List.append_assoc]
  exact List.drop_left' (headerBytes_length e t f _)

theorem frameBytes_length (e : Endian) (t f : Nat) (p : List Byte) :
    (frameBytes e t f p).length = HEADER_SIZE + p.length := by
  unfold frameBytes
  rw [List.length_append, headerBytes_length]
  rfl

/-- One well-formed frame at the head of the stream: the header read and, when the payload
is not empty, the body read complete, the callback gets the frame, and the next header
read is outstanding. -/
theorem receiveFuel_frame (e1 e2 : Endian) (k : Nat) (c : TcpConnection) (t f : Nat)
    (p rest : List Byte) (hso : c.socket_open = true) (hor : c.outstanding_reads = [.header])
    (hcb : c.message_callback_ = true) (ht : t < 65536) (hf : f < 65536)
    (hp : p.length ≤ MAX_BODY_SIZE) :
    receiveFuel e2 (k + 2) c (frameBytes e1 t f p ++ rest) =
      receiveFuel e2 (if p = [] then k + 1 else k) (afterFrame e1 c t f p) rest := by
  unfold afterFrame
  have hlen : HEADER_SIZE ≤ (frameBytes e1 t f p ++ rest).length := by
    rw [List.length_append, frameBytes_length]
    omega
  rw [show k + 2 = (k + 1) + 1 from rfl,
    receiveFuel_header e2 (k + 1) c _ [] hso hor hlen, frameBytes_take, frameBytes_drop,
    completeReadHeader_valid e1 e2 c t f p.length ht hf hp hor]
  cases p with
  | nil =>
    simp [hcb]
  | cons x xs =>
    have hpos : (x :: xs).length > 0 := by simp
    rw [if_pos hpos, receiveFuel_body e2 k (x :: xs).length _ (x :: xs ++ rest) [] ?_ rfl ?_,
      List.take_left' rfl, List.drop_left' rfl]
    · simp [completeReadBody, TcpConnection.handleReadBody, ErrorCode.failed, hcb,
        TcpConnection.asyncReadHeader, MessageHeader.getMessageType, MessageHeader.getFlags]
    · exact hso
    · simp

theorem messageCallbacks_append (a b : List Event) :
    messageCallbacks (a ++ b) = messageCallbacks a ++ messageCallbacks b := by
  induction a with
  | nil => rfl
  | cons x xs ih => cases x <;> simp [messageCallbacks, ih]

theorem errorCallbacks_append (a b : List Event) :
    errorCallbacks (a ++ b) = errorCallbacks a ++ errorCallbacks b := by
  induction a with
  | nil => rfl
  | cons x xs ih => cases x <;> simp [errorCallbacks, ih]

theorem writesIssued_append (a b : List Event) :
    writesIssued (a ++ b) = writesIssued a ++ writesIssued b := by
  induction a with
  | nil => rfl
  | cons x xs ih => cases x <;> simp [writesIssued, ih]

theorem wireBytes_length (e : Endian) (frames : List Frame) :
    frames.length ≤ (wireBytes e frames).length := by
  induction frames with
  | nil => simp [wireBytes]
  | cons fr frs ih =>
    simp only [wireBytes, List.length_cons, List.length_append, frameBytes_length, HEADER_SIZE]
    omega

/-- Well-formed frames back to back: each is delivered, in order, and nothing else is
reported. -/
theorem receiveFuel_frames (e1 e2 : Endian) (frames : List Frame) :
    ∀ (fuel : Nat) (c : TcpConnection), 2 * frames.length ≤ fuel →
      c.socket_open = true → c.outstanding_reads = [.header] → c.message_callback_ = true →
      (∀ fr ∈ frames, fr.type < 65536 ∧ fr.flags < 65536 ∧ fr.payload.length ≤ MAX_BODY_SIZE) →
      ∃ (c1 : TcpConnection) (added : List Event),
        receiveFuel e2 fuel c (wireBytes e1 frames) = (c1, []) ∧
        c1.trace = c.trace ++ added ∧
        messageCallbacks added = frames.map Frame.delivered ∧
        errorCallbacks added = [] ∧
        c1.socket_open = true ∧ c1.outstanding_reads = [.header] ∧
        c1.is_connected_ = c.is_connected_ := by
  induction frames with
  | nil =>
    intro fuel c _ hso hor _ _
    exact ⟨c, [], receiveFuel_blocked e2 fuel c hor, by simp, rfl, rfl, hso, hor, rfl⟩
  | cons fr frs ih =>
    intro fuel c hfuel hso hor hcb hwf
    obtain ⟨ht, hf, hp⟩ := hwf fr (List.mem_cons_self _ _)
    obtain ⟨k, rfl⟩ : ∃ k, fuel = k + 2 := ⟨fuel - 2, by simp at hfuel; omega⟩
    have hk : 2 * frs.length ≤ k := by simp at hfuel; omega
    simp only [wireBytes]
    rw [receiveFuel_frame e1 e2 k c fr.type fr.flags fr.payload _ hso hor hcb ht hf hp]
    obtain ⟨c1, added, hrun, htr, hmc, hec, hso1, hor1, hic1⟩ :=
      ih (if fr.payload = [] then k + 1 else k) (afterFrame e1 c fr.type fr.flags fr.payload)
        (by split <;> omega) hso rfl hcb (fun fr1 h1 => hwf fr1 (List.mem_cons_of_mem _ h1))
    refine ⟨c1, (if fr.payload = [] then [] else [.asyncReadBody fr.payload.length]) ++
      [.messageCallback fr.payload fr.type fr.flags, .asyncReadHeader] ++ added, hrun, ?_, ?_, ?_,
      hso1, hor1, hic1⟩
    · rw [htr]
      simp only [afterFrame, List.append_assoc]
    · rw [messageCallbacks_append, messageCallbacks_append, hmc]
      by_cases hpe : fr.payload = [] <;> simp [hpe, messageCallbacks, Frame.delivered]
    · rw [errorCallbacks_append, errorCallbacks_append, hec]
      by_cases hpe : fr.payload = [] <;> simp [hpe, errorCallbacks]

/-- The handlers on one well-formed frame: `handleReadHeader` on its header bytes, then
`handleReadBody` on its payload when the payload is not empty. -/
theorem handlers_frame (e1 e2 : Endian) (c : TcpConnection) (t f : Nat) (p : List Byte)
    (hor : c.outstanding_reads = [.header]) (hcb : c.message_callback_ = true)
    (ht : t < 65536) (hf : f < 65536) (hp : p.length ≤ MAX_BODY_SIZE) :
    (if p = [] then completeReadHeader e2 c (headerBytes e1 t f p.length)
      else completeReadBody (completeReadHeader e2 c (headerBytes e1 t f p.length)) p) =
      afterFrame e1 c t f p := by
  rw [completeReadHeader_valid e1 e2 c t f p.length ht hf hp hor]
  cases p with
  | nil => simp [afterFrame, hcb]
  | cons x xs =>
    simp [afterFrame, completeReadBody, TcpConnection.handleReadBody, ErrorCode.failed, hcb,
      TcpConnection.asyncReadHeader, MessageHeader.getMessageType, MessageHeader.getFlags]

theorem receive_frame (e1 e2 : Endian) (c : TcpConnection) (t f : Nat) (p : List Byte)
    (hso : c.socket_open = true) (hor : c.outstanding_reads = [.header])
    (hcb : c.message_callback_ = true) (ht : t < 65536) (hf : f < 65536)
    (hp : p.length ≤ MAX_BODY_SIZE) :
    receive e2 c (frameBytes e1 t f p) = (afterFrame e1 c t f p, []) := by
  unfold receive
  have h := receiveFuel_frame e1 e2 (2 * (frameBytes e1 t f p).length) c t f p [] hso hor hcb
    ht hf hp
  rw [List.append_nil] at h
  rw [h]
  exact receiveFuel_blocked e2 _ _ rfl

/-- C5: frame round-trip. For every 16-bit type `t`, 16-bit flags `f` and payload `p` with
`|p| ≤ MAX_BODY_SIZE` (the empty payload included), `send p t f` on a connected connection
returns `true` and queues, as last entry, a header buffer and a body; when these bytes
(on a host of either byte order) reach a connection that has an open socket, a header
read outstanding and a message callback, `handleReadHeader` on the 12 header bytes and,
for a non-empty payload, `handleReadBody` on the body bytes run, the trace grows by the
body read (non-empty payload only), one message callback with exactly `(p, t, f)`, and the
next header read; no error callback is invoked, all bytes are consumed, and a header read
is again the one outstanding read. -/
theorem frame_round_trip (e1 e2 : Endian) (cs cr : TcpConnection) (p : List Byte) (t f : Nat)
    (hcs : cs.is_connected_ = true) (hp : p.length ≤ MAX_BODY_SIZE) (ht : t < 65536)
    (hf : f < 65536) (hso : cr.socket_open = true) (hor : cr.outstanding_reads = [.header])
    (hcb : cr.message_callback_ = true) :
    (TcpConnection.send e1 cs p t f).1 = .ok true ∧
    ∃ msg : OutgoingMessage,
      (TcpConnection.send e1 cs p t f).2.write_queue_.getLast? = some msg ∧
      msg.header_buffer.length = HEADER_SIZE ∧
      (receive e2 cr (msg.header_buffer ++ msg.body)).1 =
        (if p = [] then completeReadHeader e2 cr msg.header_buffer
          else completeReadBody (completeReadHeader e2 cr msg.header_buffer) msg.body) ∧
      (receive e2 cr (msg.header_buffer ++ msg.body)).2 = [] ∧
      (receive e2 cr (msg.header_buffer ++ msg.body)).1.trace =
        cr.trace ++ (if p = [] then [] else [.asyncReadBody p.length]) ++
          [.messageCallback p t f, .asyncReadHeader] ∧
      messageCallbacks (receive e2 cr (msg.header_buffer ++ msg.body)).1.trace =
        messageCallbacks cr.trace ++ [(p, t, f)] ∧
      errorCallbacks (receive e2 cr (msg.header_buffer ++ msg.body)).1.trace =
        errorCallbacks cr.trace ∧
      (receive e2 cr (msg.header_buffer ++ msg.body)).1.outstanding_reads = [.header] ∧
      (receive e2 cr (msg.header_buffer ++ msg.body)).1.socket_open = true ∧
      (receive e2 cr (msg.header_buffer ++ msg.body)).1.is_connected_ = cr.is_connected_ := by
  have hu : u32 p.length = p.length := u32_of_le_max _ hp
  have hsend := send_connected e1 cs p t f hcs (by rw [hu]; exact hp)
  rw [hu] at hsend
  have hlast : (TcpConnection.send e1 cs p t f).2.write_queue_.getLast? =
      some ⟨headerBytes e1 t f p.length, p⟩ := by
    rw [hsend]
    by_cases hq : cs.write_queue_ = []
    · simp [hq]
    · simp [hq]
  refine ⟨by rw [hsend], ⟨headerBytes e1 t f p.length, p⟩, hlast, headerBytes_length e1 t f _,
    ?_⟩
  have hrecv : receive e2 cr (headerBytes e1 t f p.length ++ p) =
      (afterFrame e1 cr t f p, []) := receive_frame e1 e2 cr t f p hso hor hcb ht hf hp
  dsimp only
  rw [hrecv, handlers_frame e1 e2 cr t f p hor hcb ht hf hp]
  refine ⟨rfl, rfl, rfl, ?_, ?_, rfl, hso, rfl⟩
  · simp only [afterFrame, messageCallbacks_append]
    by_cases hpe : p = [] <;> simp [hpe, messageCallbacks]
  · simp only [afterFrame, errorCallbacks_append]
    by_cases hpe : p = [] <;> simp [hpe, errorCallbacks]

theorem frame_round_trip_witness :
    (TcpConnection.accepted.start.is_connected_ = true ∧
      ([10, 20, 30] : List Byte).length ≤ MAX_BODY_SIZE ∧ 5 < 65536 ∧ 16 < 65536 ∧
      (TcpConnection.accepted.setMessageCallback true).start.socket_open = true ∧
      (TcpConnection.accepted.setMessageCallback true).start.outstanding_reads = [.header] ∧
      (TcpConnection.accepted.setMessageCallback true).start.message_callback_ = true) ∧
    (TcpConnection.send .little TcpConnection.accepted.start [10, 20, 30] 5 16).1 = .ok true ∧
    ∃ msg : OutgoingMessage,
      (TcpConnection.send .little TcpConnection.accepted.start [10, 20, 30] 5
        16).2.write_queue_.getLast? = some msg ∧
      messageCallbacks (receive .big (TcpConnection.accepted.setMessageCallback true).start
        (msg.header_buffer ++ msg.body)).1.trace =
        messageCallbacks (TcpConnection.accepted.setMessageCallback true).start.trace ++
          [([10, 20, 30], 5, 16)] := by
  refine ⟨by decide, ?_⟩
  obtain ⟨h1, msg, h2, -, -, -, -, h3, -⟩ :=
    frame_round_trip .little .big TcpConnection.accepted.start
      (TcpConnection.accepted.setMessageCallback true).start [10, 20, 30] 5 16 (by decide)
      (by decide) (by decide) (by decide) (by decide) (by decide) (by decide)
  exact ⟨h1, msg, h2, h3⟩

/-- C10: inbound ordering. For every finite list of frames with 16-bit type and flags and
a payload of at most `MAX_BODY_SIZE` bytes, when the concatenation of their wire encodings
(from a host of either byte order) is fed to a connection that has an open socket, a
header read outstanding and a message callback, every byte is consumed, the message
callback is invoked exactly once per frame, in list order, with that frame's payload, type
and flags, the error callback is never invoked, and the connection stays as connected as
it was with a header read outstanding. -/
theorem inbound_ordering (e1 e2 : Endian) (c : TcpConnection) (frames : List Frame)
    (hso : c.socket_open = true) (hor : c.outstanding_reads = [.header])
    (hcb : c.message_callback_ = true)
    (hwf : ∀ fr ∈ frames,
      fr.type < 65536 ∧ fr.flags < 65536 ∧ fr.payload.length ≤ MAX_BODY_SIZE) :
    ∃ added : List Event,
      (receive e2 c (wireBytes e1 frames)).2 = [] ∧
      (receive e2 c (wireBytes e1 frames)).1.trace = c.trace ++ added ∧
      messageCallbacks added = frames.map Frame.delivered ∧
      errorCallbacks added = [] ∧
      (receive e2 c (wireBytes e1 frames)).1.socket_open = true ∧
      (receive e2 c (wireBytes e1 frames)).1.outstanding_reads = [.header] ∧
      (receive e2 c (wireBytes e1 frames)).1.is_connected_ = c.is_connected_ := by
  have hfuel : 2 * frames.length ≤ 2 * (wireBytes e1 frames).length + 2 := by
    have := wireBytes_length e1 frames
    omega
  obtain ⟨c1, added, hrun, htr, hmc, hec, hso1, hor1, hic1⟩ :=
    receiveFuel_frames e1 e2 frames _ c hfuel hso hor hcb hwf
  refine ⟨added, ?_⟩
  unfold receive
  rw [hrun]
  exact ⟨rfl, htr, hmc, hec, hso1, hor1, hic1⟩

theorem inbound_ordering_witness :
    ((TcpConnection.accepted.setMessageCallback true).start.socket_open = true ∧
      (TcpConnection.accepted.setMessageCallback true).start.outstanding_reads = [.header] ∧
      (TcpConnection.accepted.setMessageCallback true).start.message_callback_ = true ∧
      (∀ fr ∈ ([⟨1, 0, [10, 20]⟩, ⟨2, 4, []⟩, ⟨1, 0, [30]⟩] : List Frame),
        fr.type < 65536 ∧ fr.flags < 65536 ∧ fr.payload.length ≤ MAX_BODY_SIZE)) ∧
    ∃ added : List Event,
      (receive .little (TcpConnection.accepted.setMessageCallback true).start
        (wireBytes .big [⟨1, 0, [10, 20]⟩, ⟨2, 4, []⟩, ⟨1, 0, [30]⟩])).1.trace =
        (TcpConnection.accepted.setMessageCallback true).start.trace ++ added ∧
      messageCallbacks added = [([10, 20], 1, 0), ([], 2, 4), ([30], 1, 0)] ∧
      errorCallbacks added = [] := by
  have hwf : ∀ fr ∈ ([⟨1, 0, [10, 20]⟩, ⟨2, 4, []⟩, ⟨1, 0, [30]⟩] : List Frame),
      fr.type < 65536 ∧ fr.flags < 65536 ∧ fr.payload.length ≤ MAX_BODY_SIZE := by
    decide
  refine ⟨⟨by decide, by decide, by decide, hwf⟩, ?_⟩
  obtain ⟨added, -, h1, h2, h3, -⟩ :=
    inbound_ordering .big .little (TcpConnection.accepted.setMessageCallback true).start
      [⟨1, 0, [10, 20]⟩, ⟨2, 4, []⟩, ⟨1, 0, [30]⟩] (by decide) (by decide) (by decide) hwf
  exact ⟨added, h1, h2, h3⟩

/-! ## The outbound side: runs of `send` and write completions -/

theorem transmitted_append (a b : List Event) :
    transmitted (a ++ b) = transmitted a ++ transmitted b := by
  simp [transmitted, writesIssued_append]

theorem completeWrite_success (c : TcpConnection) (m : OutgoingMessage)
    (ms : List OutgoingMessage) (hq : c.write_queue_ = m :: ms)
    (hw : c.outstanding_writes = [gatherBuffers m]) :
    completeWrite c .success =
      match ms with
      | [] => { c with outstanding_writes := [], write_queue_ := [], write_in_progress_ := false }
      | m1 :: ms1 =>
        { c with
          outstanding_writes := [gatherBuffers m1]
          write_queue_ := m1 :: ms1
          trace := c.trace ++ [.asyncWrite (gatherBuffers m1)] } := by
  unfold completeWrite TcpConnection.handleWrite
  cases ms with
  | nil => simp [ErrorCode.failed, hq, hw]
  | cons m1 ms1 => simp [ErrorCode.failed, hq, hw, TcpConnection.asyncWrite]

/-- Runs of the outbound side from a connected state in which the one outstanding write,
if any, is the write of the front of the queue. The frames still to be handed over are
those behind the front of the queue, then those of the `send` calls to come. -/
theorem runOutbound_spec (e : Endian) (ops : List OutboundOp) :
    ∀ c : TcpConnection, c.is_connected_ = true →
      c.outstanding_writes = frontWrite c.write_queue_ →
      payloadsWithinLimit ops = true →
      completionsEnabled c.write_queue_.length ops = true →
      ∃ (c1 : TcpConnection) (k : Nat),
        runOutbound e c ops = some c1 ∧
        transmitted c1.trace = transmitted c.trace ++
          (c.write_queue_.tail.map OutgoingMessage.bytes ++ sentFrames e ops).take k ∧
        (c1.outstanding_writes = [] →
          k = (c.write_queue_.tail.map OutgoingMessage.bytes ++ sentFrames e ops).length ∧
          c1.write_queue_ = []) ∧
        c1.outstanding_writes.length ≤ 1 ∧ c1.is_connected_ = true := by
  induction ops with
  | nil =>
    intro c hc hw _ _
    refine ⟨c, 0, rfl, by simp, ?_, ?_, hc⟩
    · intro h0
      rw [hw] at h0
      cases hq : c.write_queue_ with
      | nil => simp [sentFrames]
      | cons m ms => rw [hq] at h0; simp [frontWrite] at h0
    · rw [hw]
      cases c.write_queue_ <;> simp [frontWrite]
  | cons op ops ih =>
    intro c hc hw hlim hen
    cases op with
    | send data t f =>
      simp only [payloadsWithinLimit, Bool.and_eq_true, decide_eq_true_eq] at hlim
      obtain ⟨hdata, hlim⟩ := hlim
      have hu : u32 data.length = data.length := u32_of_le_max _ hdata
      have hsend := send_connected e c data t f hc (by rw [hu]; exact hdata)
      rw [hu] at hsend
      have hpair : TcpConnection.send e c data t f =
          (.ok true, (TcpConnection.send e c data t f).2) := by rw [hsend]
      have hstep : runOutbound e c (.send data t f :: ops) =
          runOutbound e (TcpConnection.send e c data t f).2 ops := by
        simp only [runOutbound, outboundStep]
        rw [hpair]
      simp only [completionsEnabled] at hen
      cases hq : c.write_queue_ with
      | nil =>
        rw [hq] at hw hen
        simp only [hq, if_true] at hsend
        obtain ⟨c1, k, hrun, htr, hfin, hone, hc1⟩ := ih (TcpConnection.send e c data t f).2
          (by rw [hsend]; exact hc) (by rw [hsend]; simp [frontWrite, hw]) hlim
          (by rw [hsend]; simpa using hen)
        rw [hsend] at htr hfin
        refine ⟨c1, k + 1, by rw [hstep]; exact hrun, ?_, ?_, hone, hc1⟩
        · rw [htr, transmitted_append]
          simp [transmitted, writesIssued, gatherBuffers_flatten, sentFrames, frameBytes]
        · intro h0
          obtain ⟨hk, hq1⟩ := hfin h0
          refine ⟨?_, hq1⟩
          rw [hk]
          simp [sentFrames]
      | cons m ms =>
        rw [hq] at hw hen
        simp only [hq, reduceCtorEq, if_false] at hsend
        obtain ⟨c1, k, hrun, htr, hfin, hone, hc1⟩ := ih (TcpConnection.send e c data t f).2
          (by rw [hsend]; exact hc) (by rw [hsend]; simpa [frontWrite] using hw) hlim
          (by rw [hsend]; simpa using hen)
        rw [hsend] at htr hfin
        refine ⟨c1, k, by rw [hstep]; exact hrun, ?_, ?_, hone, hc1⟩
        · rw [htr]
          simp [sentFrames, frameBytes, OutgoingMessage.bytes]
        · intro h0
          obtain ⟨hk, hq1⟩ := hfin h0
          refine ⟨?_, hq1⟩
          rw [hk]
          simp [sentFrames]
    | writeCompleted =>
      simp only [payloadsWithinLimit] at hlim
      cases hq : c.write_queue_ with
      | nil =>
        rw [hq] at hen
        simp [completionsEnabled] at hen
      | cons m ms =>
        rw [hq] at hw hen
        simp only [List.length_cons, completionsEnabled] at hen
        simp only [frontWrite] at hw
        have hcw := completeWrite_success c m ms hq hw
        have hstep : runOutbound e c (.writeCompleted :: ops) =
            runOutbound e (completeWrite c .success) ops := by
          simp only [runOutbound, outboundStep, hw]
        cases ms with
        | nil =>
          simp only at hcw
          obtain ⟨c1, k, hrun, htr, hfin, hone, hc1⟩ := ih (completeWrite c .success)
            (by rw [hcw]; exact hc) (by rw [hcw]; simp [frontWrite]) hlim
            (by rw [hcw]; simpa using hen)
          rw [hcw] at htr hfin
          refine ⟨c1, k, by rw [hstep]; exact hrun, ?_, ?_, hone, hc1⟩
          · rw [htr]
            simp [sentFrames]
          · intro h0
            obtain ⟨hk, hq1⟩ := hfin h0
            refine ⟨?_, hq1⟩
            rw [hk]
            simp [sentFrames]
        | cons m1 ms1 =>
          simp only at hcw
          obtain ⟨c1, k, hrun, htr, hfin, hone, hc1⟩ := ih (completeWrite c .success)
            (by rw [hcw]; exact hc) (by rw [hcw]; simp [frontWrite]) hlim
            (by rw [hcw]; simpa using hen)
          rw [hcw] at htr hfin
          refine ⟨c1, k + 1, by rw [hstep]; exact hrun, ?_, ?_, hone, hc1⟩
          · rw [htr, transmitted_append]
            simp [transmitted, writesIssued, gatherBuffers_flatten, sentFrames,
              OutgoingMessage.bytes]
          · intro h0
            obtain ⟨hk, hq1⟩ := hfin h0
            refine ⟨?_, hq1⟩
            rw [hk]
            simp [sentFrames]

theorem sentFrames_mem (e : Endian) (ops : List OutboundOp) :
    ∀ fr ∈ sentFrames e ops, ∃ (data : List Byte) (t f : Nat),
      OutboundOp.send data t f ∈ ops ∧ fr = headerBytes e t f data.length ++ data ∧
      (headerBytes e t f data.length).length = 12 := by
  induction ops with
  | nil => intro fr hfr; simp [sentFrames] at hfr
  | cons op ops ih =>
    intro fr hfr
    cases op with
    | send data t f =>
      simp only [sentFrames, List.mem_cons] at hfr
      rcases hfr with hfr | hfr
      · exact ⟨data, t, f, List.mem_cons_self _ _, hfr, headerBytes_length e t f _⟩
      · obtain ⟨d1, t1, f1, hm, heq, hl⟩ := ih fr hfr
        exact ⟨d1, t1, f1, List.mem_cons_of_mem _ hm, heq, hl⟩
    | writeCompleted =>
      simp only [sentFrames] at hfr
      obtain ⟨d1, t1, f1, hm, heq, hl⟩ := ih fr hfr
      exact ⟨d1, t1, f1, List.mem_cons_of_mem _ hm, heq, hl⟩

/-- C9: FIFO outbound ordering. From a connected connection with an empty queue and no
write outstanding, take any finite run of `send` calls with payloads of at most
`MAX_BODY_SIZE` bytes, interleaved in any way with write completions without error, each
completion coming while a write is outstanding. Every step of the run can be taken (each
`send` returns `true`); the byte strings handed to the transport, one per gather write,
are a prefix of the frames in `send`-call order, each the 12-byte header of that call
followed by its payload; at most one write is outstanding; and when no write is
outstanding the transmitted sequence is the whole `send` sequence and the queue is
empty. -/
theorem fifo_outbound (e : Endian) (c0 : TcpConnection) (ops : List OutboundOp)
    (hc : c0.is_connected_ = true) (hq : c0.write_queue_ = [])
    (hw : c0.outstanding_writes = []) (hlim : payloadsWithinLimit ops = true)
    (hen : completionsEnabled 0 ops = true) :
    ∃ (c : TcpConnection) (k : Nat),
      runOutbound e c0 ops = some c ∧
      k ≤ (sentFrames e ops).length ∧
      transmitted c.trace = transmitted c0.trace ++ (sentFrames e ops).take k ∧
      (∀ fr ∈ sentFrames e ops, ∃ (data : List Byte) (t f : Nat),
        OutboundOp.send data t f ∈ ops ∧ fr = headerBytes e t f data.length ++ data ∧
        (headerBytes e t f data.length).length = 12) ∧
      c.outstanding_writes.length ≤ 1 ∧
      (c.outstanding_writes = [] →
        transmitted c.trace = transmitted c0.trace ++ sentFrames e ops ∧
        c.write_queue_ = []) := by
  obtain ⟨c, k, hrun, htr, hfin, hone, -⟩ := runOutbound_spec e ops c0 hc
    (by rw [hq, hw]; rfl) hlim (by rw [hq]; exact hen)
  simp only [hq, List.tail_nil, List.map_nil, List.nil_append] at htr hfin
  refine ⟨c, min k (sentFrames e ops).length, hrun, Nat.min_le_right _ _, ?_,
    sentFrames_mem e ops, hone, ?_⟩
  · rw [htr]
    congr 1
    apply List.take_eq_take.mpr
    simp
  · intro h0
    obtain ⟨hk, hq1⟩ := hfin h0
    refine ⟨?_, hq1⟩
    rw [htr, hk, List.take_length]

theorem fifo_outbound_witness :
    (TcpConnection.accepted.start.is_connected_ = true ∧
      TcpConnection.accepted.start.write_queue_ = [] ∧
      TcpConnection.accepted.start.outstanding_writes = [] ∧
      payloadsWithinLimit [.send [1] 1 0, .send [2, 3] 2 0, .writeCompleted, .send [] 3 0,
        .writeCompleted, .writeCompleted] = true ∧
      completionsEnabled 0 [.send [1] 1 0, .send [2, 3] 2 0, .writeCompleted, .send [] 3 0,
        .writeCompleted, .writeCompleted] = true) ∧
    ∃ (c : TcpConnection) (k : Nat),
      runOutbound .little TcpConnection.accepted.start [.send [1] 1 0, .send [2, 3] 2 0,
        .writeCompleted, .send [] 3 0, .writeCompleted, .writeCompleted] = some c ∧
      k ≤ (sentFrames .little [.send [1] 1 0, .send [2, 3] 2 0, .writeCompleted, .send [] 3 0,
        .writeCompleted, .writeCompleted]).length ∧
      transmitted c.trace = transmitted TcpConnection.accepted.start.trace ++
        (sentFrames .little [.send [1] 1 0, .send [2, 3] 2 0, .writeCompleted, .send [] 3 0,
          .writeCompleted, .writeCompleted]).take k ∧
      c.outstanding_writes.length ≤ 1 := by
  refine ⟨by decide, ?_⟩
  obtain ⟨c, k, h1, h2, h3, -, h4, -⟩ :=
    fifo_outbound .little TcpConnection.accepted.start [.send [1] 1 0, .send [2, 3] 2 0,
      .writeCompleted, .send [] 3 0, .writeCompleted, .writeCompleted] (by decide) (by decide)
      (by decide) (by decide) (by decide)
  exact ⟨c, k, h1, h2, h3, h4⟩

/-! ## Errors and shutdown: claims C11 to C14 -/

theorem readsIssued_append (a b : List Event) :
    readsIssued (a ++ b) = readsIssued a ++ readsIssued b := by
  induction a with
  | nil => rfl
  | cons x xs ih => cases x <;> simp [readsIssued, ih]

/-- What `stop` leaves behind. -/
theorem stop_eq (c : TcpConnection) :
    c.stop =
      { c with
        socket_open := false
        is_connected_ := false
        trace := c.trace ++ (if c.socket_open then [.socketShutdown, .socketClose] else []) } := by
  unfold TcpConnection.stop
  cases h : c.socket_open <;> simp [h]

/-- The header read completes with bytes that decode to an invalid header: the connection
is stopped, and nothing else happens. -/
theorem completeReadHeader_invalid (e : Endian) (c : TcpConnection) (b : List Byte)
    (hbad : (MessageHeader.new.decodeFromBuffer e b).isValid = false) :
    completeReadHeader e c b =
      { c with
        read_header_buffer_ := b
        current_header_ := MessageHeader.new.decodeFromBuffer e b
        outstanding_reads := c.outstanding_reads.tail
        socket_open := false
        is_connected_ := false
        trace := c.trace ++ (if c.socket_open then [.socketShutdown, .socketClose] else []) } := by
  have hdec : c.current_header_.decodeFromBuffer e b = MessageHeader.new.decodeFromBuffer e b :=
    rfl
  unfold completeReadHeader TcpConnection.handleReadHeader
  simp only [ErrorCode.failed, Bool.false_eq_true, if_false, hdec, hbad, Bool.not_false, if_true]
  rw [stop_eq]

/-- The handlers on an error code: the error callback, if one is registered, then `stop`. -/
theorem handleError_eq (c : TcpConnection) (error : ErrorCode) :
    c.handleError error =
      { c with
        socket_open := false
        is_connected_ := false
        trace := c.trace ++ (if c.error_callback_ then [.errorCallback error] else []) ++
          (if c.socket_open then [.socketShutdown, .socketClose] else []) } := by
  unfold TcpConnection.handleError
  split <;> cases hcb : c.error_callback_ <;> simp [stop_eq, hcb]

/-- C11: a malformed header terminates the connection without delivery. For every 12
received header bytes that decode to an invalid header, which is when the magic is wrong
or the body size is over `MAX_BODY_SIZE`, `handleReadHeader` invokes no message callback,
hands no body read and no further header read to the io_context (the completed read
leaves the outstanding ones, none is added), does nothing but shut down and close the
socket when it is open, and leaves the connection not connected. -/
theorem malformed_header_terminates (e : Endian) (c : TcpConnection) (b : List Byte)
    (hb : b.length = HEADER_SIZE)
    (hbad : (MessageHeader.new.decodeFromBuffer e b).isValid = false) :
    (beValue (b.take 4) ≠ 0x43484154 ∨ 1048576 < beValue ((b.drop 8).take 4)) ∧
    completeReadHeader e c b =
      TcpConnection.handleReadHeader e
        { c with read_header_buffer_ := b, outstanding_reads := c.outstanding_reads.tail }
        .success ∧
    messageCallbacks (completeReadHeader e c b).trace = messageCallbacks c.trace ∧
    readsIssued (completeReadHeader e c b).trace = readsIssued c.trace ∧
    (completeReadHeader e c b).outstanding_reads = c.outstanding_reads.tail ∧
    (completeReadHeader e c b).trace =
      c.trace ++ (if c.socket_open then [.socketShutdown, .socketClose] else []) ∧
    (completeReadHeader e c b).is_connected_ = false ∧
    (completeReadHeader e c b).isConnected = false := by
  refine ⟨?_, rfl, ?_⟩
  · rw [decodeFromBuffer_of_length e _ b hb] at hbad
    simp only [MessageHeader.isValid, MessageHeader.MAGIC_NUMBER, MAX_BODY_SIZE,
      Bool.and_eq_false_iff, beq_eq_false_iff_ne, decide_eq_false_iff_not] at hbad
    rcases hbad with h | h
    · exact Or.inl h
    · exact Or.inr (by omega)
  · rw [completeReadHeader_invalid e c b hbad]
    refine ⟨?_, ?_, rfl, rfl, rfl, ?_⟩
    · rw [messageCallbacks_append]
      cases c.socket_open <;> simp [messageCallbacks]
    · rw [readsIssued_append]
      cases c.socket_open <;> simp [readsIssued]
    · simp [TcpConnection.isConnected]

theorem malformed_header_terminates_witness :
    (([0xDE, 0xAD, 0xBE, 0xEF, 0, 1, 0, 0, 0, 0, 0, 5] : List Byte).length = HEADER_SIZE ∧
      (MessageHeader.new.decodeFromBuffer .little
        [0xDE, 0xAD, 0xBE, 0xEF, 0, 1, 0, 0, 0, 0, 0, 5]).isValid = false) ∧
    (completeReadHeader .little (TcpConnection.accepted.setMessageCallback true).start
      [0xDE, 0xAD, 0xBE, 0xEF, 0, 1, 0, 0, 0, 0, 0, 5]).is_connected_ = false :=
  ⟨by decide,
    (malformed_header_terminates .little (TcpConnection.accepted.setMessageCallback true).start
      [0xDE, 0xAD, 0xBE, 0xEF, 0, 1, 0, 0, 0, 0, 0, 5] (by decide) (by decide)).2.2.2.2.2.2.1⟩

/-- C12, the claim fails: a started connection with an open socket, a message callback and
an error callback receives a header with the magic 0xDEADBEEF, or with the right magic and
a body size of 2 MiB; the header is invalid, the connection is stopped, and the error
callback is not invoked. -/
theorem malformed_header_unreported :
    ((TcpConnection.accepted.setMessageCallback true).setErrorCallback true).start.error_callback_
      = true ∧
    (MessageHeader.new.decodeFromBuffer .little
      [0xDE, 0xAD, 0xBE, 0xEF, 0, 1, 0, 0, 0, 0, 0, 5]).isValid = false ∧
    errorCallbacks (completeReadHeader .little
      ((TcpConnection.accepted.setMessageCallback true).setErrorCallback true).start
      [0xDE, 0xAD, 0xBE, 0xEF, 0, 1, 0, 0, 0, 0, 0, 5]).trace = [] ∧
    (completeReadHeader .little
      ((TcpConnection.accepted.setMessageCallback true).setErrorCallback true).start
      [0xDE, 0xAD, 0xBE, 0xEF, 0, 1, 0, 0, 0, 0, 0, 5]).is_connected_ = false ∧
    (MessageHeader.new.decodeFromBuffer .little
      [0x43, 0x48, 0x41, 0x54, 0, 1, 0, 0, 0, 0x20, 0, 0]).isValid = false ∧
    errorCallbacks (completeReadHeader .little
      ((TcpConnection.accepted.setMessageCallback true).setErrorCallback true).start
      [0x43, 0x48, 0x41, 0x54, 0, 1, 0, 0, 0, 0x20, 0, 0]).trace = [] := by
  decide

/-- C12, amended: when a connection, with or without a registered error callback, receives
12 header bytes that decode to an invalid header (wrong magic or oversize body length),
`handleReadHeader` invokes neither the error callback nor the message callback; it shuts
down and closes the socket when it is open and leaves the connection not connected. -/
theorem malformed_header_closes_unreported (e : Endian) (c : TcpConnection) (b : List Byte)
    (hb : b.length = HEADER_SIZE)
    (hbad : (MessageHeader.new.decodeFromBuffer e b).isValid = false) :
    (beValue (b.take 4) ≠ 0x43484154 ∨ 1048576 < beValue ((b.drop 8).take 4)) ∧
    errorCallbacks (completeReadHeader e c b).trace = errorCallbacks c.trace ∧
    messageCallbacks (completeReadHeader e c b).trace = messageCallbacks c.trace ∧
    (completeReadHeader e c b).trace =
      c.trace ++ (if c.socket_open then [.socketShutdown, .socketClose] else []) ∧
    (completeReadHeader e c b).socket_open = false ∧
    (completeReadHeader e c b).is_connected_ = false := by
  refine ⟨?_, ?_⟩
  · rw [decodeFromBuffer_of_length e _ b hb] at hbad
    simp only [MessageHeader.isValid, MessageHeader.MAGIC_NUMBER, MAX_BODY_SIZE,
      Bool.and_eq_false_iff, beq_eq_false_iff_ne, decide_eq_false_iff_not] at hbad
    rcases hbad with h | h
    · exact Or.inl h
    · exact Or.inr (by omega)
  · rw [completeReadHeader_invalid e c b hbad]
    refine ⟨?_, ?_, rfl, rfl, rfl⟩
    · rw [errorCallbacks_append]
      cases c.socket_open <;> simp [errorCallbacks]
    · rw [messageCallbacks_append]
      cases c.socket_open <;> simp [messageCallbacks]

theorem malformed_header_closes_unreported_witness :
    (([0x43, 0x48, 0x41, 0x54, 0, 1, 0, 0, 0, 0x20, 0, 0] : List Byte).length = HEADER_SIZE ∧
      (MessageHeader.new.decodeFromBuffer .big
        [0x43, 0x48, 0x41, 0x54, 0, 1, 0, 0, 0, 0x20, 0, 0]).isValid = false) ∧
    errorCallbacks (completeReadHeader .big
      ((TcpConnection.accepted.setMessageCallback true).setErrorCallback true).start
      [0x43, 0x48, 0x41, 0x54, 0, 1, 0, 0, 0, 0x20, 0, 0]).trace =
      errorCallbacks
        ((TcpConnection.accepted.setMessageCallback true).setErrorCallback true).start.trace :=
  ⟨by decide,
    (malformed_header_closes_unreported .big
      ((TcpConnection.accepted.setMessageCallback true).setErrorCallback true).start
      [0x43, 0x48, 0x41, 0x54, 0, 1, 0, 0, 0, 0x20, 0, 0] (by decide) (by decide)).2.1⟩

/-- C13: transport errors are reported once, then the connection closes. For every error
code (end of stream, connection reset, or any other) delivered to `handleReadHeader`,
`handleReadBody` or `handleWrite` on a connection with a registered error callback, the
handler does what `handleError` does: the error callback is invoked exactly once, with
that code; no message callback is invoked; no read and no write is handed to the
io_context; the queue is left as it was; the socket is shut down and closed when open and
the connection ends not connected. The outcome is the same for every error code, up to the
code the callback receives. -/
theorem transport_error_reported (e : Endian) (c : TcpConnection) (error : ErrorCode)
    (herr : error.failed = true) (hcb : c.error_callback_ = true) :
    TcpConnection.handleReadHeader e c error = c.handleError error ∧
    TcpConnection.handleReadBody c error = c.handleError error ∧
    TcpConnection.handleWrite c error = c.handleError error ∧
    (c.handleError error).trace =
      c.trace ++ [.errorCallback error] ++
        (if c.socket_open then [.socketShutdown, .socketClose] else []) ∧
    errorCallbacks (c.handleError error).trace = errorCallbacks c.trace ++ [error] ∧
    messageCallbacks (c.handleError error).trace = messageCallbacks c.trace ∧
    readsIssued (c.handleError error).trace = readsIssued c.trace ∧
    writesIssued (c.handleError error).trace = writesIssued c.trace ∧
    (c.handleError error).outstanding_reads = c.outstanding_reads ∧
    (c.handleError error).outstanding_writes = c.outstanding_writes ∧
    (c.handleError error).write_queue_ = c.write_queue_ ∧
    (c.handleError error).socket_open = false ∧
    (c.handleError error).is_connected_ = false ∧
    (c.handleError error).isConnected = false ∧
    (∀ error2 : ErrorCode, error2.failed = true →
      c.handleError error2 =
        { c.handleError error with
          trace := c.trace ++ [.errorCallback error2] ++
            (if c.socket_open then [.socketShutdown, .socketClose] else []) }) := by
  have hgen : ∀ err : ErrorCode, c.handleError err =
      { c with
        socket_open := false
        is_connected_ := false
        trace := c.trace ++ [.errorCallback err] ++
          (if c.socket_open then [.socketShutdown, .socketClose] else []) } := by
    intro err
    rw [handleError_eq, hcb]
    rfl
  refine ⟨?_, ?_, ?_, ?_⟩
  · unfold TcpConnection.handleReadHeader
    rw [if_pos herr]
  · unfold TcpConnection.handleReadBody
    rw [if_pos herr]
  · unfold TcpConnection.handleWrite
    rw [if_pos herr]
  · rw [hgen error]
    refine ⟨rfl, ?_, ?_, ?_, ?_, rfl, rfl, rfl, rfl, rfl, ?_, ?_⟩
    · simp only [errorCallbacks_append]
      cases c.socket_open <;> simp [errorCallbacks]
    · simp only [messageCallbacks_append]
      cases c.socket_open <;> simp [messageCallbacks]
    · simp only [readsIssued_append]
      cases c.socket_open <;> simp [readsIssued]
    · simp only [writesIssued_append]
      cases c.socket_open <;> simp [writesIssued]
    · simp [TcpConnection.isConnected]
    · intro error2 _
      rw [hgen error2]

theorem transport_error_reported_witness :
    (ErrorCode.eof.failed = true ∧
      ((TcpConnection.accepted.setMessageCallback true).setErrorCallback
        true).start.error_callback_ = true) ∧
    errorCallbacks
      (((TcpConnection.accepted.setMessageCallback true).setErrorCallback
        true).start.handleError .eof).trace =
      errorCallbacks
        ((TcpConnection.accepted.setMessageCallback true).setErrorCallback true).start.trace ++
        [.eof] :=
  ⟨by decide,
    (transport_error_reported .little
      ((TcpConnection.accepted.setMessageCallback true).setErrorCallback true).start .eof
      (by decide) (by decide)).2.2.2.2.1⟩

/-- C14: `stop` is idempotent. From every connection state `stop` returns (it raises
nothing), calling it twice gives the same state as calling it once, and after `stop`,
once or twice, `isConnected` is false; so it is for a connection that was never
started. -/
theorem stop_idempotent (c : TcpConnection) :
    c.stop.stop = c.stop ∧
    c.stop.isConnected = false ∧
    c.stop.stop.isConnected = false ∧
    c.stop.is_connected_ = false ∧
    c.stop.socket_open = false ∧
    TcpConnection.new.stop.isConnected = false ∧
    TcpConnection.accepted.stop.isConnected = false := by
  have h1 : c.stop.stop = c.stop := by
    rw [stop_eq c.stop, stop_eq c]
    simp
  refine ⟨h1, ?_, ?_, ?_, ?_, ?_, ?_⟩
  · rw [stop_eq]; rfl
  · rw [h1, stop_eq]; rfl
  · rw [stop_eq]
  · rw [stop_eq]
  · decide
  · decide

/-! ## The write invariant: claim C15 -/

theorem send_disconnected (e : Endian) (c : TcpConnection) (data : List Byte) (t f : Nat)
    (hc : c.is_connected_ = false) :
    TcpConnection.send e c data t f = (.ok false, c) := by
  unfold TcpConnection.send
  simp only [hc, Bool.not_false, if_true]

/-- `send` keeps "the write outstanding is the write of the front of the queue", whatever
it returns or throws, and reads no empty queue. -/
theorem send_keeps_frontWrite (e : Endian) (c : TcpConnection) (data : List Byte) (t f : Nat)
    (hw : c.outstanding_writes = frontWrite c.write_queue_)
    (hub : Event.undefinedBehaviour ∉ c.trace) :
    (TcpConnection.send e c data t f).2.outstanding_writes =
      frontWrite (TcpConnection.send e c data t f).2.write_queue_ ∧
    Event.undefinedBehaviour ∉ (TcpConnection.send e c data t f).2.trace := by
  cases hc : c.is_connected_ with
  | false =>
    rw [send_disconnected e c data t f hc]
    exact ⟨hw, hub⟩
  | true =>
    by_cases hlen : u32 data.length ≤ MAX_BODY_SIZE
    · rw [send_connected e c data t f hc hlen]
      cases hq : c.write_queue_ with
      | nil =>
        rw [hq] at hw
        simp [frontWrite, hw, hub]
      | cons m ms =>
        rw [hq] at hw
        simp [frontWrite, hw, hub]
    · rw [send_throws e c data t f hc (by omega)]
      exact ⟨hw, hub⟩

/-- Every event among `start`, `send` and write completion without error keeps the write
invariant. -/
theorem connectionStep_keeps_frontWrite (e : Endian) (c c1 : TcpConnection)
    (ev : ConnectionEvent) (hw : c.outstanding_writes = frontWrite c.write_queue_)
    (hub : Event.undefinedBehaviour ∉ c.trace) (hev : startSendWriteOnly [ev] = true)
    (hstep : connectionStep e c ev = some c1) :
    c1.outstanding_writes = frontWrite c1.write_queue_ ∧
    Event.undefinedBehaviour ∉ c1.trace := by
  cases ev with
  | start =>
    simp only [connectionStep, Option.some.injEq] at hstep
    subst hstep
    simp [TcpConnection.start, TcpConnection.asyncReadHeader, hw, hub]
  | stop => simp [startSendWriteOnly] at hev
  | send data t f =>
    simp only [connectionStep, Option.some.injEq] at hstep
    subst hstep
    exact send_keeps_frontWrite e c data t f hw hub
  | writeCompleted error =>
    cases error with
    | success =>
      cases hq : c.write_queue_ with
      | nil =>
        rw [hq] at hw
        simp [connectionStep, hw, frontWrite] at hstep
      | cons m ms =>
        rw [hq] at hw
        simp only [frontWrite] at hw
        simp only [connectionStep, hw, Option.some.injEq] at hstep
        subst hstep
        rw [completeWrite_success c m ms hq hw]
        cases ms with
        | nil => simp [frontWrite, hub]
        | cons m1 ms1 => simp [frontWrite, hub]
    | eof => simp [startSendWriteOnly] at hev
    | connection_reset => simp [startSendWriteOnly] at hev
    | other v => simp [startSendWriteOnly] at hev

theorem startSendWriteOnly_cons (ev : ConnectionEvent) (evs : List ConnectionEvent)
    (h : startSendWriteOnly (ev :: evs) = true) :
    startSendWriteOnly [ev] = true ∧ startSendWriteOnly evs = true := by
  cases ev with
  | start => exact ⟨rfl, by simpa [startSendWriteOnly] using h⟩
  | stop => simp [startSendWriteOnly] at h
  | send data t f => exact ⟨rfl, by simpa [startSendWriteOnly] using h⟩
  | writeCompleted error =>
    cases error with
    | success => exact ⟨rfl, by simpa [startSendWriteOnly] using h⟩
    | eof => simp [startSendWriteOnly] at h
    | connection_reset => simp [startSendWriteOnly] at h
    | other v => simp [startSendWriteOnly] at h

theorem runConnection_keeps_frontWrite (e : Endian) (evs : List ConnectionEvent) :
    ∀ c c1 : TcpConnection, c.outstanding_writes = frontWrite c.write_queue_ →
      Event.undefinedBehaviour ∉ c.trace → startSendWriteOnly evs = true →
      runConnection e c evs = some c1 →
      c1.outstanding_writes = frontWrite c1.write_queue_ ∧
      Event.undefinedBehaviour ∉ c1.trace := by
  induction evs with
  | nil =>
    intro c c1 hw hub _ hrun
    simp only [runConnection, Option.some.injEq] at hrun
    subst hrun
    exact ⟨hw, hub⟩
  | cons ev evs ih =>
    intro c c1 hw hub hev hrun
    obtain ⟨hev1, hevs⟩ := startSendWriteOnly_cons ev evs hev
    simp only [runConnection] at hrun
    cases hstep : connectionStep e c ev with
    | none => rw [hstep] at hrun; simp at hrun
    | some c2 =>
      rw [hstep] at hrun
      obtain ⟨hw2, hub2⟩ := connectionStep_keeps_frontWrite e c c2 ev hw hub hev1 hstep
      exact ih c2 c1 hw2 hub2 hevs hrun

/-- C15: single write in flight. In every state reached from a fresh connection (socket
opened by the acceptor or not) by calls of `start` and `send` (accepted, refused or
throwing) and by write completions without error, at most one write is outstanding; a
write is outstanding exactly when the outbound queue is not empty, and it is the gather
write of the front entry of the queue; and neither `handleWrite` nor `asyncWrite` has met
an empty queue. -/
theorem single_write_in_flight (e : Endian) (c0 c : TcpConnection)
    (evs : List ConnectionEvent)
    (hc0 : c0 = TcpConnection.new ∨ c0 = TcpConnection.accepted)
    (hev : startSendWriteOnly evs = true) (hrun : runConnection e c0 evs = some c) :
    c.outstanding_writes.length ≤ 1 ∧
    (c.outstanding_writes ≠ [] ↔ c.write_queue_ ≠ []) ∧
    c.outstanding_writes = frontWrite c.write_queue_ ∧
    (∀ m ms, c.write_queue_ = m :: ms → c.outstanding_writes = [gatherBuffers m]) ∧
    Event.undefinedBehaviour ∉ c.trace := by
  have h0 : c0.outstanding_writes = frontWrite c0.write_queue_ ∧
      Event.undefinedBehaviour ∉ c0.trace := by
    rcases hc0 with h | h <;> subst h <;> decide
  obtain ⟨hw, hub⟩ := runConnection_keeps_frontWrite e evs c0 c h0.1 h0.2 hev hrun
  refine ⟨?_, ?_, hw, ?_, hub⟩
  · rw [hw]
    cases c.write_queue_ <;> simp [frontWrite]
  · rw [hw]
    cases c.write_queue_ <;> simp [frontWrite]
  · intro m ms hq
    rw [hw, hq]
    rfl

theorem single_write_in_flight_witness :
    ((TcpConnection.accepted = TcpConnection.new ∨
        TcpConnection.accepted = TcpConnection.accepted) ∧
      startSendWriteOnly [.send [9] 1 0, .start, .send [1] 1 0, .send [2, 3] 2 0,
        .writeCompleted .success, .send [] 3 0] = true ∧
      runConnection .little TcpConnection.accepted [.send [9] 1 0, .start, .send [1] 1 0,
        .send [2, 3] 2 0, .writeCompleted .success, .send [] 3 0] =
        some (TcpConnection.send .little (completeWrite (TcpConnection.send .little
          (TcpConnection.send .little TcpConnection.accepted.start [1] 1 0).2 [2, 3] 2 0).2
          .success) [] 3 0).2) ∧
    (TcpConnection.send .little (completeWrite (TcpConnection.send .little
      (TcpConnection.send .little TcpConnection.accepted.start [1] 1 0).2 [2, 3] 2 0).2
      .success) [] 3 0).2.outstanding_writes.length ≤ 1 :=
  ⟨by decide,
    (single_write_in_flight .little TcpConnection.accepted _
      [.send [9] 1 0, .start, .send [1] 1 0, .send [2, 3] 2 0, .writeCompleted .success,
        .send [] 3 0] (by decide) (by decide) (by decide)).1⟩

/-! ## Membership: claims C16 and C17 -/

theorem mem_insertKey (keys : List String) (key k : String) :
    k ∈ MembershipGraph.insertKey keys key ↔ k ∈ keys ∨ k = key := by
  unfold MembershipGraph.insertKey
  split
  · constructor
    · intro h; exact Or.inl h
    · rintro (h | h)
      · exact h
      · subst h; assumption
  · simp

theorem mem_eraseKey (keys : List String) (key k : String) :
    k ∈ MembershipGraph.eraseKey keys key ↔ k ∈ keys ∧ k ≠ key := by
  simp [MembershipGraph.eraseKey]

theorem link_consistent (g : MembershipGraph) (r0 u0 : String) (hg : g.Consistent) :
    (g.link r0 u0).Consistent := by
  intro r u
  simp only [MembershipGraph.link]
  by_cases hr : r = r0 <;> by_cases hu : u = u0 <;>
    simp [hr, hu, mem_insertKey, hg _ _]

theorem unlink_consistent (g : MembershipGraph) (r0 u0 : String) (hg : g.Consistent) :
    (g.unlink r0 u0).Consistent := by
  intro r u
  simp only [MembershipGraph.unlink]
  by_cases hr : r = r0 <;> by_cases hu : u = u0 <;>
    simp [hr, hu, mem_eraseKey, hg _ _]

theorem apply_consistent (g : MembershipGraph) (op : MembershipOp) (hg : g.Consistent) :
    (g.apply op).Consistent := by
  cases op with
  | joinRoom u r =>
    simp only [MembershipGraph.apply, MembershipGraph.joinRoom]
    split
    · exact hg
    · exact link_consistent g r u hg
  | leaveRoom u r =>
    simp only [MembershipGraph.apply, MembershipGraph.leaveRoom]
    split
    · exact unlink_consistent g r u hg
    · exact hg
  | addMember r u =>
    simp only [MembershipGraph.apply, MembershipGraph.addMember]
    split
    · exact hg
    · exact link_consistent g r u hg
  | removeMember r u =>
    simp only [MembershipGraph.apply, MembershipGraph.removeMember]
    split
    · exact unlink_consistent g r u hg
    · exact hg

theorem run_consistent (ops : List MembershipOp) :
    ∀ g : MembershipGraph, g.Consistent → (g.run ops).Consistent := by
  induction ops with
  | nil => intro g hg; exact hg
  | cons op ops ih => intro g hg; exact ih _ (apply_consistent g op hg)

/-- C16: membership consistency. For every sequence of `joinRoom`, `leaveRoom`,
`addMember` and `removeMember` calls on users and rooms that start without memberships,
after the whole sequence and after each call of it (every initial part of the sequence),
`hasMember(room, userId)` holds if and only if the room's id is among the user's
`getRoomIds`, for every room and every user. -/
theorem membership_consistency (ops : List MembershipOp) (room_id user_id : String) :
    ((MembershipGraph.empty.run ops).hasMember room_id user_id = true ↔
      room_id ∈ (MembershipGraph.empty.run ops).getRoomIds user_id) ∧
    (∀ k : Nat,
      ((MembershipGraph.empty.run (ops.take k)).hasMember room_id user_id = true ↔
        room_id ∈ (MembershipGraph.empty.run (ops.take k)).getRoomIds user_id)) ∧
    (∀ op : MembershipOp,
      (((MembershipGraph.empty.run ops).apply op).hasMember room_id user_id = true ↔
        room_id ∈ ((MembershipGraph.empty.run ops).apply op).getRoomIds user_id)) := by
  have h0 : MembershipGraph.empty.Consistent := by
    intro r u
    simp [MembershipGraph.empty]
  have key : ∀ g : MembershipGraph, g.Consistent →
      (g.hasMember room_id user_id = true ↔ room_id ∈ g.getRoomIds user_id) := by
    intro g hg
    simp only [MembershipGraph.hasMember, MembershipGraph.getRoomIds, decide_eq_true_eq]
    exact hg room_id user_id
  exact ⟨key _ (run_consistent ops _ h0), fun k => key _ (run_consistent _ _ h0),
    fun op => key _ (apply_consistent _ op (run_consistent ops _ h0))⟩

/-- C17: membership of a user in rooms is a set. For every `User` and room id: when the id
is already in `room_ids`, `addToRoom` leaves the user as it is, so that `addToRoom`
applied twice is `addToRoom` applied once; when the id is not in `room_ids`,
`removeFromRoom` leaves the user as it is; and in every case the two members change no
field other than `room_ids`. -/
theorem room_list_is_a_set (u : User) (r : String) :
    (r ∈ u.room_ids → u.addToRoom r = u) ∧
    (u.addToRoom r).addToRoom r = u.addToRoom r ∧
    (r ∉ u.room_ids → u.removeFromRoom r = u) ∧
    u.addToRoom r = { u with room_ids := (u.addToRoom r).room_ids } ∧
    u.removeFromRoom r = { u with room_ids := (u.removeFromRoom r).room_ids } := by
  refine ⟨?_, ?_, ?_, ?_, ?_⟩
  · intro h
    simp [User.addToRoom, h]
  · by_cases h : r ∈ u.room_ids
    · simp [User.addToRoom, h]
    · simp [User.addToRoom, h]
  · intro h
    simp [User.removeFromRoom, h]
  · by_cases h : r ∈ u.room_ids <;> simp [User.addToRoom, h]
  · by_cases h : r ∈ u.room_ids <;> simp [User.removeFromRoom, h]

theorem room_list_is_a_set_witness :
    ("lobby" ∈ ((User.new "u1" "ann" .ONLINE).addToRoom "lobby").room_ids →
      ((User.new "u1" "ann" .ONLINE).addToRoom "lobby").addToRoom "lobby" =
        (User.new "u1" "ann" .ONLINE).addToRoom "lobby") ∧
    ("lobby" ∉ (User.new "u1" "ann" .ONLINE).room_ids →
      (User.new "u1" "ann" .ONLINE).removeFromRoom "lobby" = User.new "u1" "ann" .ONLINE) ∧
    "lobby" ∈ ((User.new "u1" "ann" .ONLINE).addToRoom "lobby").room_ids ∧
    "lobby" ∉ (User.new "u1" "ann" .ONLINE).room_ids :=
  ⟨(room_list_is_a_set ((User.new "u1" "ann" .ONLINE).addToRoom "lobby") "lobby").1,
    (room_list_is_a_set (User.new "u1" "ann" .ONLINE) "lobby").2.2.1, by decide, by decide⟩

/-! ## Serialization: claims C18 to C20 -/

theorem getStrings_map (ids : List String) :
    Json.getStrings (ids.map .string) = .ok ids := by
  induction ids with
  | nil => rfl
  | cons x xs ih => simp [Json.getStrings, ih]

theorem from_json_to_json (st : UserStatus) : UserStatus.from_json st.to_json = st := by
  cases st <;> rfl

theorem getString_eq_ok (j : Json) (v : String) : j.getString = .ok v ↔ j = .string v := by
  cases j <;> simp [Json.getString]

/-- Decoding an encoded user gives the user back, but for the ticks of `last_seen` below a
millisecond. -/
theorem user_fromJson_toJson (p : Nat) (u : User) :
    User.fromJson p (u.toJson p) =
      .ok { u with
        last_seen := u.last_seen.map (fun t => timePointOfMillis p (millisOfTimePoint p t)) } := by
  obtain ⟨uid, un, st, dn, em, av, ls, rids⟩ := u
  cases dn <;> cases em <;> cases av <;> cases ls <;>
    simp [User.toJson, User.fromJson, Json.set, Json.setMember, Json.atKey, Json.contains,
      Json.index, Json.getString, Json.getInt64, Json.getStringVector, Json.ofStringVector,
      getStrings_map, from_json_to_json, User.defaulted, List.lookup, bind, Except.bind, pure,
      Except.pure]

/-- Decoding an encoded message gives the message back, but for the ticks of `timestamp`
below a millisecond. -/
theorem message_fromJson_toJson (p : Nat) (m : ChatMessage) (ht : m.message_type < 256) :
    ChatMessage.fromJson p (m.toJson p) =
      .ok { m with timestamp := timePointOfMillis p (millisOfTimePoint p m.timestamp) } := by
  obtain ⟨mid, sid, ct, ts, rid, rcp, mt⟩ := m
  have hmt : mt % 256 = mt := Nat.mod_eq_of_lt ht
  cases rid <;> cases rcp <;>
    simp [ChatMessage.toJson, ChatMessage.fromJson, Json.set, Json.setMember, Json.atKey,
      Json.contains, Json.index, Json.getString, Json.getInt64, Json.getUInt8,
      ChatMessage.defaulted, List.lookup, bind, Except.bind, pure, Except.pure, hmt]

theorem truncate_of_dvd (p : Nat) (t : Int) (h : (p : Int) ∣ t) :
    timePointOfMillis p (millisOfTimePoint p t) = t := by
  unfold timePointOfMillis millisOfTimePoint
  exact Int.tdiv_mul_cancel h

/-- C18, the claim fails: on a platform whose `system_clock` ticks in nanoseconds, a user
last seen 1700000000123456789 ticks after the epoch is encoded with `last_seen`
1700000000123 and decoded as last seen 1700000000123000000 ticks after the epoch, which
is not the user that was encoded. -/
theorem user_round_trip_truncates :
    User.fromJson 1000000
        (User.toJson 1000000
          ⟨"u1", "ann", .ONLINE, some "Ann", none, none, some 1700000000123456789, ["lobby"]⟩) =
      .ok ⟨"u1", "ann", .ONLINE, some "Ann", none, none, some 1700000000123000000, ["lobby"]⟩ ∧
    User.fromJson 1000000
        (User.toJson 1000000
          ⟨"u1", "ann", .ONLINE, some "Ann", none, none, some 1700000000123456789, ["lobby"]⟩) ≠
      .ok ⟨"u1", "ann", .ONLINE, some "Ann", none, none, some 1700000000123456789, ["lobby"]⟩ := by
  rw [user_fromJson_toJson]
  constructor
  · rfl
  · intro h
    injection h with h
    injection h with _ _ _ _ _ _ h _
    exact absurd h (by decide)

/-- C18, amended: for every `User` `u` and every tick length of `system_clock`,
`User::fromJson(u.toJson())` returns a user equal to `u` in `user_id`, `username`,
`status`, `display_name`, `email`, `avatar_url` (each optional field set exactly when set
in `u`, with the same value) and `room_ids` (same ids, same order); `last_seen` is set
exactly when set in `u` and holds the value of `u` truncated toward zero to whole
milliseconds. The user returned is `u` itself when `last_seen` is unset or a whole number
of milliseconds. -/
theorem user_round_trip_to_millisecond (p : Nat) (u : User) :
    (∃ u1 : User,
      User.fromJson p (u.toJson p) = .ok u1 ∧
      u1.user_id = u.user_id ∧ u1.username = u.username ∧ u1.status = u.status ∧
      u1.display_name = u.display_name ∧ u1.email = u.email ∧
      u1.avatar_url = u.avatar_url ∧ u1.room_ids = u.room_ids ∧
      (u1.last_seen = none ↔ u.last_seen = none) ∧
      (∀ t : Int, u.last_seen = some t → u1.last_seen = some (Int.tdiv t p * p))) ∧
    ((∀ t : Int, u.last_seen = some t → (p : Int) ∣ t) →
      User.fromJson p (u.toJson p) = .ok u) := by
  constructor
  · refine ⟨_, user_fromJson_toJson p u, rfl, rfl, rfl, rfl, rfl, rfl, rfl, ?_, ?_⟩
    · cases u.last_seen <;> simp
    · intro t ht
      simp [ht, timePointOfMillis, millisOfTimePoint]
  · intro hdvd
    rw [user_fromJson_toJson]
    obtain ⟨uid, un, st, dn, em, av, ls, rids⟩ := u
    cases ls with
    | none => rfl
    | some t =>
      have := truncate_of_dvd p t (hdvd t rfl)
      simp only [Option.map_some', this]

theorem user_round_trip_to_millisecond_witness :
    (∀ t : Int,
      (⟨"u1", "ann", .AWAY, none, some "", none, some 1700000000123000000, ["a", "b"]⟩ :
        User).last_seen = some t → ((1000000 : Nat) : Int) ∣ t) ∧
    User.fromJson 1000000
        (User.toJson 1000000
          ⟨"u1", "ann", .AWAY, none, some "", none, some 1700000000123000000, ["a", "b"]⟩) =
      .ok ⟨"u1", "ann", .AWAY, none, some "", none, some 1700000000123000000, ["a", "b"]⟩ :=
  have hd : ∀ t : Int,
      (⟨"u1", "ann", .AWAY, none, some "", none, some 1700000000123000000, ["a", "b"]⟩ :
        User).last_seen = some t → ((1000000 : Nat) : Int) ∣ t := by
    intro t ht
    cases ht
    exact ⟨1700000000123, by decide⟩
  ⟨hd, (user_round_trip_to_millisecond 1000000 _).2 hd⟩

/-- C19, the claim fails: on a platform whose `system_clock` ticks in nanoseconds, a
message created 1700000000123456789 ticks after the epoch is encoded with `timestamp`
1700000000123 and decoded with a timestamp of 1700000000123000000 ticks, which is not the
message that was encoded. -/
theorem message_round_trip_truncates :
    ChatMessage.fromJson 1000000
        (ChatMessage.toJson 1000000
          ⟨"msg_1", "u1", "hello", 1700000000123456789, none, some "u2", 3⟩) =
      .ok ⟨"msg_1", "u1", "hello", 1700000000123000000, none, some "u2", 3⟩ ∧
    ChatMessage.fromJson 1000000
        (ChatMessage.toJson 1000000
          ⟨"msg_1", "u1", "hello", 1700000000123456789, none, some "u2", 3⟩) ≠
      .ok ⟨"msg_1", "u1", "hello", 1700000000123456789, none, some "u2", 3⟩ := by
  rw [message_fromJson_toJson _ _ (by decide)]
  constructor
  · rfl
  · intro h
    injection h with h
    injection h with _ _ _ h _ _ _
    exact absurd h (by decide)

/-- C19, amended: for every `ChatMessage` `m` (with an 8-bit `message_type`) and every
tick length of `system_clock`, `ChatMessage::fromJson(m.toJson())` returns a message equal
to `m` in `message_id`, `sender_id`, `content`, `message_type`, `room_id` and
`recipient_id` (each optional field set exactly when set in `m`, with the same value);
its `timestamp` is that of `m` truncated toward zero to whole milliseconds. The message
returned is `m` itself when the timestamp is a whole number of milliseconds. -/
theorem message_round_trip_to_millisecond (p : Nat) (m : ChatMessage)
    (ht : m.message_type < 256) :
    (∃ m1 : ChatMessage,
      ChatMessage.fromJson p (m.toJson p) = .ok m1 ∧
      m1.message_id = m.message_id ∧ m1.sender_id = m.sender_id ∧ m1.content = m.content ∧
      m1.message_type = m.message_type ∧ m1.room_id = m.room_id ∧
      m1.recipient_id = m.recipient_id ∧
      m1.timestamp = Int.tdiv m.timestamp p * p) ∧
    ((p : Int) ∣ m.timestamp → ChatMessage.fromJson p (m.toJson p) = .ok m) := by
  constructor
  · exact ⟨_, message_fromJson_toJson p m ht, rfl, rfl, rfl, rfl, rfl, rfl, rfl⟩
  · intro hdvd
    rw [message_fromJson_toJson p m ht, truncate_of_dvd p _ hdvd]

theorem message_round_trip_to_millisecond_witness :
    ((⟨"msg_1", "u1", "hello", 1700000000123000000, some "lobby", none, 255⟩ :
        ChatMessage).message_type < 256 ∧
      ((1000000 : Nat) : Int) ∣
        (⟨"msg_1", "u1", "hello", 1700000000123000000, some "lobby", none, 255⟩ :
          ChatMessage).timestamp) ∧
    ChatMessage.fromJson 1000000
        (ChatMessage.toJson 1000000
          ⟨"msg_1", "u1", "hello", 1700000000123000000, some "lobby", none, 255⟩) =
      .ok ⟨"msg_1", "u1", "hello", 1700000000123000000, some "lobby", none, 255⟩ :=
  have hd : ((1000000 : Nat) : Int) ∣
      (⟨"msg_1", "u1", "hello", 1700000000123000000, some "lobby", none, 255⟩ :
        ChatMessage).timestamp := ⟨1700000000123, by decide⟩
  ⟨⟨by decide, hd⟩, (message_round_trip_to_millisecond 1000000 _ (by decide)).2 hd⟩

theorem atKey_eq_ok (j : Json) (key : String) (v : Json) (h : j.atKey key = .ok v) :
    j.contains key = true ∧ j.index key = v := by
  cases j <;> simp only [Json.atKey, reduceCtorEq] at h
  case object ms =>
    cases hl : ms.lookup key with
    | none => simp [hl] at h
    | some w =>
      simp only [hl, Except.ok.injEq] at h
      subst h
      simp [Json.contains, Json.index, hl]

/-- What `User::fromJson` has put into the optional fields when it returns. -/
theorem user_fromJson_optional (p : Nat) (j : Json) (u : User)
    (h : User.fromJson p j = .ok u) :
    (u.display_name = none ↔ j.contains "display_name" = false) ∧
    (u.email = none ↔ j.contains "email" = false) ∧
    (u.avatar_url = none ↔ j.contains "avatar_url" = false) ∧
    (u.last_seen = none ↔ j.contains "last_seen" = false) ∧
    (∀ s, j.contains "display_name" = true → j.index "display_name" = .string s →
      u.display_name = some s) ∧
    (∀ s, j.contains "email" = true → j.index "email" = .string s → u.email = some s) ∧
    (∀ s, j.contains "avatar_url" = true → j.index "avatar_url" = .string s →
      u.avatar_url = some s) := by
  simp only [User.fromJson, bind, Except.bind, pure, Except.pure, User.defaulted] at h
  repeat' split at h
  all_goals (cases h <;> simp_all [getString_eq_ok])

/-- What `ChatMessage::fromJson` has put into the optional fields when it returns. -/
theorem message_fromJson_optional (p : Nat) (j : Json) (m : ChatMessage)
    (h : ChatMessage.fromJson p j = .ok m) :
    (m.room_id = none ↔ j.contains "room_id" = false) ∧
    (m.recipient_id = none ↔ j.contains "recipient" = false) ∧
    (∀ s, j.contains "room_id" = true → j.index "room_id" = .string s →
      m.room_id = some s) ∧
    (∀ s, j.contains "recipient" = true → j.index "recipient" = .string s →
      m.recipient_id = some s) := by
  simp only [ChatMessage.fromJson, bind, Except.bind, pure, Except.pure,
    ChatMessage.defaulted] at h
  repeat' split at h
  all_goals (cases h <;> simp_all [getString_eq_ok])

/-- `User::fromJson` on an object whose required members have their types and whose
optional members, where present, have theirs. -/
theorem user_fromJson_object (p : Nat) (ms : List (String × Json)) (uid un : String)
    (st : Json) (dn em av : Option String) (ls : Option Int) (rids : Option (List String))
    (h1 : ms.lookup "user_id" = some (.string uid))
    (h2 : ms.lookup "username" = some (.string un))
    (h3 : ms.lookup "status" = some st)
    (h4 : ms.lookup "display_name" = dn.map Json.string)
    (h5 : ms.lookup "email" = em.map Json.string)
    (h6 : ms.lookup "avatar_url" = av.map Json.string)
    (h7 : ms.lookup "last_seen" = ls.map Json.number_integer)
    (h8 : ms.lookup "room_ids" = rids.map Json.ofStringVector) :
    User.fromJson p (.object ms) =
      .ok
        { user_id := uid, username := un, status := UserStatus.from_json st,
          display_name := dn, email := em, avatar_url := av,
          last_seen := ls.map (timePointOfMillis p), room_ids := rids.getD [] } := by
  cases dn <;> cases em <;> cases av <;> cases ls <;> cases rids <;>
    simp [User.fromJson, Json.atKey, Json.contains, Json.index, Json.getString, Json.getInt64,
      Json.getStringVector, Json.ofStringVector, getStrings_map, User.defaulted, bind,
      Except.bind, pure, Except.pure, h1, h2, h3, h4, h5, h6, h7, h8]

/-- `ChatMessage::fromJson` on an object whose required members have their types and
whose optional members, where present, have theirs. -/
theorem message_fromJson_object (p : Nat) (ms : List (String × Json)) (mid sid ct : String)
    (mt : Nat) (ts : Int) (rid rcp : Option String)
    (h1 : ms.lookup "id" = some (.string mid))
    (h2 : ms.lookup "sender" = some (.string sid))
    (h3 : ms.lookup "content" = some (.string ct))
    (h4 : ms.lookup "type" = some (.number_unsigned mt))
    (h5 : ms.lookup "timestamp" = some (.number_integer ts))
    (h6 : ms.lookup "room_id" = rid.map Json.string)
    (h7 : ms.lookup "recipient" = rcp.map Json.string) :
    ChatMessage.fromJson p (.object ms) =
      .ok
        { message_id := mid, sender_id := sid, content := ct,
          timestamp := timePointOfMillis p ts, room_id := rid, recipient_id := rcp,
          message_type := mt % 256 } := by
  cases rid <;> cases rcp <;>
    simp [ChatMessage.fromJson, Json.atKey, Json.contains, Json.index, Json.getString,
      Json.getInt64, Json.getUInt8, ChatMessage.defaulted, bind, Except.bind, pure,
      Except.pure, h1, h2, h3, h4, h5, h6, h7]

/-- The optional keys `toJson` emits. -/
theorem user_toJson_contains (p : Nat) (u : User) :
    (u.toJson p).contains "display_name" = u.display_name.isSome ∧
    (u.toJson p).contains "email" = u.email.isSome ∧
    (u.toJson p).contains "avatar_url" = u.avatar_url.isSome ∧
    (u.toJson p).contains "last_seen" = u.last_seen.isSome := by
  obtain ⟨uid, un, st, dn, em, av, ls, rids⟩ := u
  cases dn <;> cases em <;> cases av <;> cases ls <;>
    simp [User.toJson, Json.set, Json.setMember, Json.contains, List.lookup]

theorem message_toJson_contains (p : Nat) (m : ChatMessage) :
    (m.toJson p).contains "room_id" = m.room_id.isSome ∧
    (m.toJson p).contains "recipient" = m.recipient_id.isSome := by
  obtain ⟨mid, sid, ct, ts, rid, rcp, mt⟩ := m
  cases rid <;> cases rcp <;>
    simp [ChatMessage.toJson, Json.set, Json.setMember, Json.contains, List.lookup]

/-- C20: absent optional fields decode to unset, not to a sentinel. Whenever
`User::fromJson` returns a user for a JSON value, each of `display_name`, `email`,
`avatar_url` and `last_seen` is unset in that user exactly when the value does not contain
its key, and a key that holds a string, the empty string included, gives a set field
holding that string, which is not the unset field; the same holds for `room_id` and
`recipient` in `ChatMessage::fromJson`. `fromJson` does return, with exactly the optional
fields that are present, on every object whose required members have their types and
whose optional members, where present, have theirs. `toJson` emits the key of an optional
field exactly when the field is set. -/
theorem optional_fields_unset_iff_absent (p : Nat) :
    (∀ (j : Json) (u : User), User.fromJson p j = .ok u →
      (u.display_name = none ↔ j.contains "display_name" = false) ∧
      (u.email = none ↔ j.contains "email" = false) ∧
      (u.avatar_url = none ↔ j.contains "avatar_url" = false) ∧
      (u.last_seen = none ↔ j.contains "last_seen" = false) ∧
      (∀ s, j.atKey "display_name" = .ok (.string s) →
        u.display_name = some s ∧ u.display_name ≠ none) ∧
      (∀ s, j.atKey "email" = .ok (.string s) → u.email = some s ∧ u.email ≠ none) ∧
      (∀ s, j.atKey "avatar_url" = .ok (.string s) →
        u.avatar_url = some s ∧ u.avatar_url ≠ none)) ∧
    (∀ (j : Json) (m : ChatMessage), ChatMessage.fromJson p j = .ok m →
      (m.room_id = none ↔ j.contains "room_id" = false) ∧
      (m.recipient_id = none ↔ j.contains "recipient" = false) ∧
      (∀ s, j.atKey "room_id" = .ok (.string s) → m.room_id = some s ∧ m.room_id ≠ none) ∧
      (∀ s, j.atKey "recipient" = .ok (.string s) →
        m.recipient_id = some s ∧ m.recipient_id ≠ none)) ∧
    (∀ (ms : List (String × Json)) (uid un : String) (st : Json) (dn em av : Option String)
      (ls : Option Int) (rids : Option (List String)),
      ms.lookup "user_id" = some (.string uid) → ms.lookup "username" = some (.string un) →
      ms.lookup "status" = some st → ms.lookup "display_name" = dn.map Json.string →
      ms.lookup "email" = em.map Json.string → ms.lookup "avatar_url" = av.map Json.string →
      ms.lookup "last_seen" = ls.map Json.number_integer →
      ms.lookup "room_ids" = rids.map Json.ofStringVector →
      User.fromJson p (.object ms) =
        .ok
          { user_id := uid, username := un, status := UserStatus.from_json st,
            display_name := dn, email := em, avatar_url := av,
            last_seen := ls.map (timePointOfMillis p), room_ids := rids.getD [] }) ∧
    (∀ (ms : List (String × Json)) (mid sid ct : String) (mt : Nat) (ts : Int)
      (rid rcp : Option String),
      ms.lookup "id" = some (.string mid) → ms.lookup "sender" = some (.string sid) →
      ms.lookup "content" = some (.string ct) →
      ms.lookup "type" = some (.number_unsigned mt) →
      ms.lookup "timestamp" = some (.number_integer ts) →
      ms.lookup "room_id" = rid.map Json.string →
      ms.lookup "recipient" = rcp.map Json.string →
      ChatMessage.fromJson p (.object ms) =
        .ok
          { message_id := mid, sender_id := sid, content := ct,
            timestamp := timePointOfMillis p ts, room_id := rid, recipient_id := rcp,
            message_type := mt % 256 }) ∧
    (∀ u : User,
      (u.toJson p).contains "display_name" = u.display_name.isSome ∧
      (u.toJson p).contains "email" = u.email.isSome ∧
      (u.toJson p).contains "avatar_url" = u.avatar_url.isSome ∧
      (u.toJson p).contains "last_seen" = u.last_seen.isSome) ∧
    (∀ m : ChatMessage,
      (m.toJson p).contains "room_id" = m.room_id.isSome ∧
      (m.toJson p).contains "recipient" = m.recipient_id.isSome) := by
  refine ⟨?_, ?_, ?_, ?_, user_toJson_contains p, message_toJson_contains p⟩
  · intro j u h
    obtain ⟨h1, h2, h3, h4, h5, h6, h7⟩ := user_fromJson_optional p j u h
    refine ⟨h1, h2, h3, h4, ?_, ?_, ?_⟩
    · intro s hs
      obtain ⟨hc, hi⟩ := atKey_eq_ok j _ _ hs
      have := h5 s hc hi
      exact ⟨this, by rw [this]; simp⟩
    · intro s hs
      obtain ⟨hc, hi⟩ := atKey_eq_ok j _ _ hs
      have := h6 s hc hi
      exact ⟨this, by rw [this]; simp⟩
    · intro s hs
      obtain ⟨hc, hi⟩ := atKey_eq_ok j _ _ hs
      have := h7 s hc hi
      exact ⟨this, by rw [this]; simp⟩
  · intro j m h
    obtain ⟨h1, h2, h3, h4⟩ := message_fromJson_optional p j m h
    refine ⟨h1, h2, ?_, ?_⟩
    · intro s hs
      obtain ⟨hc, hi⟩ := atKey_eq_ok j _ _ hs
      have := h3 s hc hi
      exact ⟨this, by rw [this]; simp⟩
    · intro s hs
      obtain ⟨hc, hi⟩ := atKey_eq_ok j _ _ hs
      have := h4 s hc hi
      exact ⟨this, by rw [this]; simp⟩
  · intro ms uid un st dn em av ls rids h1 h2 h3 h4 h5 h6 h7 h8
    exact user_fromJson_object p ms uid un st dn em av ls rids h1 h2 h3 h4 h5 h6 h7 h8
  · intro ms mid sid ct mt ts rid rcp h1 h2 h3 h4 h5 h6 h7
    exact message_fromJson_object p ms mid sid ct mt ts rid rcp h1 h2 h3 h4 h5 h6 h7

theorem optional_fields_unset_iff_absent_witness :
    User.fromJson 1000000
        (.object [("user_id", .string "u1"), ("username", .string "ann"),
          ("status", .string "online"), ("display_name", .string "")]) =
      .ok ⟨"u1", "ann", .ONLINE, some "", none, none, none, []⟩ ∧
    ((⟨"u1", "ann", .ONLINE, some "", none, none, none, []⟩ : User).display_name = none ↔
      (Json.object [("user_id", .string "u1"), ("username", .string "ann"),
        ("status", .string "online"), ("display_name", .string "")]).contains "display_name" =
        false) ∧
    ((⟨"u1", "ann", .ONLINE, some "", none, none, none, []⟩ : User).email = none ↔
      (Json.object [("user_id", .string "u1"), ("username", .string "ann"),
        ("status", .string "online"), ("display_name", .string "")]).contains "email" =
        false) :=
  have h : User.fromJson 1000000
      (.object [("user_id", .string "u1"), ("username", .string "ann"),
        ("status", .string "online"), ("display_name", .string "")]) =
      .ok ⟨"u1", "ann", .ONLINE, some "", none, none, none, []⟩ := by rfl
  ⟨h, ((optional_fields_unset_iff_absent 1000000).1 _ _ h).1,
    ((optional_fields_unset_iff_absent 1000000).1 _ _ h).2.1⟩

/-! ## Constructed messages: claim C21 -/

/-- C21: a constructed `ChatMessage` addresses exactly one target. The constructor for
direct messages yields a message with `recipient_id` set to the recipient and `room_id`
unset (`isDirectMessage` true, `isRoomMessage` false); the constructor for room messages
yields a message with `room_id` set to the room and `recipient_id` unset (`isRoomMessage`
true, `isDirectMessage` false); in both, `sender_id`, `content` and the 8-bit
`message_type` are the arguments. -/
theorem constructed_message_has_one_target (sender target content_text : String) (type : Nat)
    (now : Int) (uuid : String) (ht : type < 256) :
    (ChatMessage.newDirect sender target content_text type now uuid).recipient_id =
      some target ∧
    (ChatMessage.newDirect sender target content_text type now uuid).room_id = none ∧
    (ChatMessage.newDirect sender target content_text type now uuid).isDirectMessage = true ∧
    (ChatMessage.newDirect sender target content_text type now uuid).isRoomMessage = false ∧
    (ChatMessage.newDirect sender target content_text type now uuid).sender_id = sender ∧
    (ChatMessage.newDirect sender target content_text type now uuid).content = content_text ∧
    (ChatMessage.newDirect sender target content_text type now uuid).message_type = type ∧
    (ChatMessage.newRoom sender target content_text type now uuid).room_id = some target ∧
    (ChatMessage.newRoom sender target content_text type now uuid).recipient_id = none ∧
    (ChatMessage.newRoom sender target content_text type now uuid).isRoomMessage = true ∧
    (ChatMessage.newRoom sender target content_text type now uuid).isDirectMessage = false ∧
    (ChatMessage.newRoom sender target content_text type now uuid).sender_id = sender ∧
    (ChatMessage.newRoom sender target content_text type now uuid).content = content_text ∧
    (ChatMessage.newRoom sender target content_text type now uuid).message_type = type := by
  have hmod : type % 256 = type := Nat.mod_eq_of_lt ht
  refine ⟨rfl, rfl, rfl, rfl, rfl, rfl, hmod, rfl, rfl, rfl, rfl, rfl, rfl, hmod⟩

theorem constructed_message_has_one_target_witness :
    (3 < 256) ∧
    (ChatMessage.newRoom "u1" "lobby" "hello" 3 1700000000123456789 "msg_1_1_42").room_id =
      some "lobby" ∧
    (ChatMessage.newRoom "u1" "lobby" "hello" 3 1700000000123456789
      "msg_1_1_42").recipient_id = none :=
  ⟨by decide,
    (constructed_message_has_one_target "u1" "lobby" "hello" 3 1700000000123456789
      "msg_1_1_42" (by decide)).2.2.2.2.2.2.2.1,
    (constructed_message_has_one_target "u1" "lobby" "hello" 3 1700000000123456789
      "msg_1_1_42" (by decide)).2.2.2.2.2.2.2.2.1⟩

/-! ## After a failure: claim C29 -/

theorem handleError_closed (c : TcpConnection) (error : ErrorCode) :
    (c.handleError error).is_connected_ = false ∧
    writesIssued (c.handleError error).trace = writesIssued c.trace ∧
    (c.handleError error).write_queue_ = c.write_queue_ := by
  rw [handleError_eq]
  refine ⟨rfl, ?_, rfl⟩
  simp only [writesIssued_append]
  cases c.error_callback_ <;> cases c.socket_open <;> simp [writesIssued]

/-- An event on a connection that is not connected, completions carrying an error: the
connection stays not connected, no write is handed over, the queue is as it was. -/
theorem closedStep_closed (e : Endian) (c : TcpConnection) (ev : ClosedEvent)
    (hc : c.is_connected_ = false) (hev : completionsFailed [ev] = true) :
    (closedStep e c ev).is_connected_ = false ∧
    writesIssued (closedStep e c ev).trace = writesIssued c.trace ∧
    (closedStep e c ev).write_queue_ = c.write_queue_ := by
  cases ev with
  | send data t f =>
    show (TcpConnection.send e c data t f).2.is_connected_ = false ∧
      writesIssued (TcpConnection.send e c data t f).2.trace = writesIssued c.trace ∧
      (TcpConnection.send e c data t f).2.write_queue_ = c.write_queue_
    rw [send_disconnected e c data t f hc]
    exact ⟨hc, rfl, rfl⟩
  | stop =>
    show c.stop.is_connected_ = false ∧ writesIssued c.stop.trace = writesIssued c.trace ∧
      c.stop.write_queue_ = c.write_queue_
    rw [stop_eq]
    refine ⟨rfl, ?_, rfl⟩
    show writesIssued (c.trace ++ _) = _
    rw [writesIssued_append]
    cases c.socket_open <;> simp [writesIssued]
  | readHeaderCompleted error =>
    have herr : error.failed = true := by simpa [completionsFailed] using hev
    simp only [closedStep, TcpConnection.handleReadHeader, herr, if_true]
    exact handleError_closed _ error
  | readBodyCompleted error =>
    have herr : error.failed = true := by simpa [completionsFailed] using hev
    simp only [closedStep, TcpConnection.handleReadBody, herr, if_true]
    exact handleError_closed _ error
  | writeCompleted error =>
    have herr : error.failed = true := by simpa [completionsFailed] using hev
    simp only [closedStep, completeWrite, TcpConnection.handleWrite, herr, if_true]
    exact handleError_closed _ error

theorem completionsFailed_cons (ev : ClosedEvent) (evs : List ClosedEvent)
    (h : completionsFailed (ev :: evs) = true) :
    completionsFailed [ev] = true ∧ completionsFailed evs = true := by
  cases ev <;> simp_all [completionsFailed]

theorem runClosed_closed (e : Endian) (evs : List ClosedEvent) :
    ∀ c : TcpConnection, c.is_connected_ = false → completionsFailed evs = true →
      (runClosed e c evs).is_connected_ = false ∧
      writesIssued (runClosed e c evs).trace = writesIssued c.trace ∧
      (runClosed e c evs).write_queue_ = c.write_queue_ := by
  induction evs with
  | nil => intro c hc _; exact ⟨hc, rfl, rfl⟩
  | cons ev evs ih =>
    intro c hc hev
    obtain ⟨h1, h2⟩ := completionsFailed_cons ev evs hev
    obtain ⟨hc1, hw1, hq1⟩ := closedStep_closed e c ev hc h1
    obtain ⟨hc2, hw2, hq2⟩ := ih (closedStep e c ev) hc1 h2
    exact ⟨hc2, by rw [← hw1, ← hw2]; rfl, by rw [← hq1, ← hq2]; rfl⟩

/-- C29: no delivery past a write failure. After `handleWrite` was invoked with an error
the connection is not connected, and no write was handed over for the frames in the
queue, which stay there. From then on, through every sequence of calls of `send` and
`stop` and of completions of outstanding reads and writes with an error (`start` is not
called again: there is no reconnection), no write is ever handed to the transport, the
connection stays not connected, and every `send` returns `false` and leaves the queue and
the rest of the connection as they are. -/
theorem no_delivery_past_write_failure (e : Endian) (c : TcpConnection) (error : ErrorCode)
    (evs : List ClosedEvent) (herr : error.failed = true)
    (hev : completionsFailed evs = true) :
    (c.handleWrite error).is_connected_ = false ∧
    writesIssued (c.handleWrite error).trace = writesIssued c.trace ∧
    (c.handleWrite error).write_queue_ = c.write_queue_ ∧
    (c.handleWrite error).outstanding_writes = c.outstanding_writes ∧
    (runClosed e (c.handleWrite error) evs).is_connected_ = false ∧
    writesIssued (runClosed e (c.handleWrite error) evs).trace = writesIssued c.trace ∧
    (runClosed e (c.handleWrite error) evs).write_queue_ = c.write_queue_ ∧
    (∀ (data : List Byte) (t f : Nat),
      TcpConnection.send e (runClosed e (c.handleWrite error) evs) data t f =
        (.ok false, runClosed e (c.handleWrite error) evs)) := by
  have hh : c.handleWrite error = c.handleError error := by
    unfold TcpConnection.handleWrite
    rw [if_pos herr]
  obtain ⟨h1, h2, h3⟩ := handleError_closed c error
  rw [← hh] at h1 h2 h3
  obtain ⟨h4, h5, h6⟩ := runClosed_closed e evs (c.handleWrite error) h1 hev
  refine ⟨h1, h2, h3, ?_, h4, by rw [h5, h2], by rw [h6, h3], ?_⟩
  · rw [hh, handleError_eq]
  · intro data t f
    exact send_disconnected e _ data t f h4

theorem no_delivery_past_write_failure_witness :
    (ErrorCode.connection_reset.failed = true ∧
      completionsFailed [.send [7] 1 0, .readHeaderCompleted (.other 125), .stop,
        .send [8] 1 0] = true) ∧
    writesIssued (runClosed .little
      ((TcpConnection.send .little
        (TcpConnection.send .little TcpConnection.accepted.start [1] 1 0).2 [2] 1
        0).2.handleWrite .connection_reset)
      [.send [7] 1 0, .readHeaderCompleted (.other 125), .stop, .send [8] 1 0]).trace =
      writesIssued (TcpConnection.send .little
        (TcpConnection.send .little TcpConnection.accepted.start [1] 1 0).2 [2] 1 0).2.trace :=
  ⟨by decide,
    (no_delivery_past_write_failure .little
      (TcpConnection.send .little
        (TcpConnection.send .little TcpConnection.accepted.start [1] 1 0).2 [2] 1 0).2
      .connection_reset [.send [7] 1 0, .readHeaderCompleted (.other 125), .stop,
        .send [8] 1 0] (by decide) (by decide)).2.2.2.2.2.1⟩

/-! ## The room list of a user: claim C30 -/

/-- What holds of `addToRoom` and `removeFromRoom` on every user: the id added is in the
list, other ids are in the list after the call exactly when they were before, and the ids
that stay keep their order. -/
theorem room_list_other_ids (u : User) (r q : String) (hq : q ≠ r) :
    (u.addToRoom r).isInRoom r = true ∧
    (u.addToRoom r).isInRoom q = u.isInRoom q ∧
    (u.removeFromRoom r).isInRoom q = u.isInRoom q ∧
    (u.addToRoom r).room_ids.filter (fun x => x ≠ r) = u.room_ids.filter (fun x => x ≠ r) ∧
    (u.removeFromRoom r).room_ids.filter (fun x => x ≠ r) =
      u.room_ids.filter (fun x => x ≠ r) := by
  have hfilter : ∀ l : List String,
      (l.erase r).filter (fun x => x ≠ r) = l.filter (fun x => x ≠ r) := by
    intro l
    induction l with
    | nil => rfl
    | cons x xs ih =>
      by_cases hx : x = r
      · subst hx
        simp
      · have hx1 : (x == r) = false := by simpa using hx
        simp only [ne_eq] at ih
        simp only [List.erase_cons, hx1, Bool.false_eq_true, if_false, List.filter_cons, ne_eq,
          hx, not_false_eq_true, decide_True, if_true, ih]
  refine ⟨?_, ?_, ?_, ?_, ?_⟩
  · by_cases h : r ∈ u.room_ids <;> simp [User.addToRoom, User.isInRoom, h]
  · by_cases h : r ∈ u.room_ids <;> simp [User.addToRoom, User.isInRoom, h, hq]
  · by_cases h : r ∈ u.room_ids
    · simp [User.removeFromRoom, User.isInRoom, h, List.mem_erase_of_ne hq]
    · simp [User.removeFromRoom, User.isInRoom, h]
  · by_cases h : r ∈ u.room_ids <;> simp [User.addToRoom, h]
  · by_cases h : r ∈ u.room_ids
    · simp only [User.removeFromRoom, h, if_true]
      exact hfilter _
    · simp [User.removeFromRoom, h]

/-- On a user whose room list holds no id twice, the id removed is not in the list after
`removeFromRoom`. -/
theorem removeFromRoom_nodup (u : User) (r : String) (hnd : u.room_ids.Nodup) :
    (u.removeFromRoom r).isInRoom r = false := by
  by_cases h : r ∈ u.room_ids
  · simp [User.removeFromRoom, User.isInRoom, h, hnd.mem_erase_iff]
  · simp [User.removeFromRoom, User.isInRoom, h]

/-- C30, the code at the failing input: `fromJson` takes a `room_ids` array that names a
room twice as it is, and `removeFromRoom` erases the first occurrence only, so the user is
still in the room after `removeFromRoom`. -/
theorem removeFromRoom_leaves_duplicate :
    User.fromJson 1000000
        (.object [("user_id", .string "u1"), ("username", .string "ann"),
          ("status", .string "online"),
          ("room_ids", .array [.string "lobby", .string "lobby"])]) =
      .ok ⟨"u1", "ann", .ONLINE, none, none, none, none, ["lobby", "lobby"]⟩ ∧
    ((⟨"u1", "ann", .ONLINE, none, none, none, none, ["lobby", "lobby"]⟩ :
      User).removeFromRoom "lobby").room_ids = ["lobby"] ∧
    ((⟨"u1", "ann", .ONLINE, none, none, none, none, ["lobby", "lobby"]⟩ :
      User).removeFromRoom "lobby").isInRoom "lobby" = true := by
  refine ⟨by rfl, by decide, by decide⟩

/-! ## Lemmas on the configuration loader -/

theorem isspace_false_of_isDigit (c : Char) (h : c.isDigit = true) : isspace c = false := by
  cases hs : isspace c
  · rfl
  · exfalso
    simp only [isspace, Bool.or_eq_true, beq_iff_eq] at hs
    rcases hs with ((((rfl | rfl) | rfl) | rfl) | rfl) | rfl <;> revert h <;> decide

theorem takeWhile_all_append (p : Char → Bool) (a b : List Char) (ha : ∀ c ∈ a, p c = true)
    (hb : ∀ c, b.head? = some c → p c = false) : (a ++ b).takeWhile p = a := by
  induction a with
  | nil =>
    cases b with
    | nil => rfl
    | cons x b => simp [List.takeWhile, hb x rfl]
  | cons x a ih =>
    have hx : p x = true := ha x (List.mem_cons_self _ _)
    rw [List.cons_append, List.takeWhile_cons, hx, if_pos rfl,
      ih (fun c hc => ha c (List.mem_cons_of_mem _ hc))]

theorem dropWhile_all_append (p : Char → Bool) (a b : List Char) (ha : ∀ c ∈ a, p c = true)
    (hb : ∀ c, b.head? = some c → p c = false) : (a ++ b).dropWhile p = b := by
  induction a with
  | nil =>
    cases b with
    | nil => rfl
    | cons x b => simp [List.dropWhile, hb x rfl]
  | cons x a ih =>
    have hx : p x = true := ha x (List.mem_cons_self _ _)
    rw [List.cons_append, List.dropWhile_cons, hx, if_pos rfl,
      ih (fun c hc => ha c (List.mem_cons_of_mem _ hc))]

/-- The result of `trim` on whitespace, a core without whitespace at its ends, whitespace. -/
theorem trim_eq (ws1 core ws2 : List Char) (h1 : ∀ c ∈ ws1, isspace c = true)
    (h2 : ∀ c ∈ ws2, isspace c = true)
    (hhead : ∀ c, core.head? = some c → isspace c = false)
    (hlast : ∀ c, core.getLast? = some c → isspace c = false) :
    ConfigLoader.trim (ws1 ++ core ++ ws2) = core := by
  unfold ConfigLoader.trim
  by_cases hcore : core = []
  · subst hcore
    have hd : (ws1 ++ [] ++ ws2).dropWhile isspace = [] := by
      rw [List.dropWhile_eq_nil_iff]
      intro c hc
      simp only [List.append_nil, List.mem_append] at hc
      exact hc.elim (h1 c) (h2 c)
    rw [hd]
    rfl
  · have hd : (ws1 ++ core ++ ws2).dropWhile isspace = core ++ ws2 := by
      rw [List.append_assoc]
      apply dropWhile_all_append _ _ _ h1
      intro c hc
      apply hhead c
      cases core with
      | nil => exact absurd rfl hcore
      | cons x core => simpa using hc
    have ht : ((ws1 ++ core ++ ws2).reverse.takeWhile isspace).length = ws2.length := by
      rw [List.reverse_append, List.reverse_append]
      rw [takeWhile_all_append _ _ _ (fun c hc => h2 c (List.mem_reverse.mp hc))]
      · simp
      · intro c hc
        apply hlast c
        rw [List.head?_append_of_ne_nil _ (by simpa using hcore)] at hc
        simpa using hc
    simp only [hd, ht, List.length_append]
    have hpos : 0 < core.length := List.length_pos.mpr hcore
    rw [if_pos (by omega)]
    have : core.length + ws2.length - ws2.length = core.length := by omega
    rw [this, List.take_left]

/-- Every string is whitespace, a core without whitespace at its ends, whitespace. -/
theorem trim_decomposition (s : List Char) :
    ∃ ws1 core ws2 : List Char, s = ws1 ++ core ++ ws2 ∧ (∀ c ∈ ws1, isspace c = true) ∧
      (∀ c ∈ ws2, isspace c = true) ∧ (∀ c, core.head? = some c → isspace c = false) ∧
      (∀ c, core.getLast? = some c → isspace c = false) := by
  have hright : ∀ t : List Char, ∃ core ws2 : List Char, t = core ++ ws2 ∧
      (∀ c ∈ ws2, isspace c = true) ∧ (∀ c, core.getLast? = some c → isspace c = false) := by
    intro t
    induction t using List.reverseRecOn with
    | nil => exact ⟨[], [], rfl, by simp, by simp⟩
    | append_singleton t x ih =>
      cases hx : isspace x
      · exact ⟨t ++ [x], [], by simp, by simp, by
          intro c hc
          rw [List.getLast?_concat] at hc
          cases hc
          exact hx⟩
      · obtain ⟨core, ws2, rfl, hw, hl⟩ := ih
        refine ⟨core, ws2 ++ [x], by simp, ?_, hl⟩
        intro c hc
        simp only [List.mem_append, List.mem_singleton] at hc
        rcases hc with hc | rfl
        · exact hw c hc
        · exact hx
  obtain ⟨core, ws2, hs, hw2, hl⟩ := hright (s.dropWhile isspace)
  refine ⟨s.takeWhile isspace, core, ws2, ?_, ?_, hw2, ?_, hl⟩
  · rw [List.append_assoc, ← hs, List.takeWhile_append_dropWhile]
  · intro c hc
    exact (List.mem_takeWhile_imp hc)
  · intro c hc
    cases core with
    | nil => simp at hc
    | cons x core =>
      simp only [List.head?_cons, Option.some.injEq] at hc
      subst hc
      have hne : s.dropWhile isspace ≠ [] := by rw [hs]; simp
      have := List.head_dropWhile_not isspace s hne
      simp only [hs, List.cons_append, List.head_cons] at this
      simpa using this

theorem trim_head (s : List Char) (c : Char) (h : (ConfigLoader.trim s).head? = some c) :
    isspace c = false := by
  obtain ⟨ws1, core, ws2, rfl, h1, h2, hh, hl⟩ := trim_decomposition s
  rw [trim_eq ws1 core ws2 h1 h2 hh hl] at h
  exact hh c h

theorem trim_append_whitespace (s ws : List Char) (hws : ∀ c ∈ ws, isspace c = true) :
    ConfigLoader.trim (s ++ ws) = ConfigLoader.trim s := by
  obtain ⟨ws1, core, ws2, rfl, h1, h2, hh, hl⟩ := trim_decomposition s
  rw [trim_eq ws1 core ws2 h1 h2 hh hl, List.append_assoc]
  apply trim_eq ws1 core (ws2 ++ ws) h1 _ hh hl
  intro c hc
  rcases List.mem_append.mp hc with hc | hc
  · exact h2 c hc
  · exact hws c hc

theorem find_append (a b : List Char) (ch : Char) (ha : ch ∉ a) :
    ConfigLoader.find (a ++ ch :: b) ch = some a.length := by
  induction a with
  | nil => simp [ConfigLoader.find]
  | cons x a ih =>
    have hx : x ≠ ch := fun h => ha (h ▸ List.mem_cons_self _ _)
    simp [ConfigLoader.find, hx, ih (fun h => ha (List.mem_cons_of_mem _ h))]

theorem find_none (s : List Char) (ch : Char) (hs : ch ∉ s) : ConfigLoader.find s ch = none := by
  induction s with
  | nil => rfl
  | cons x s ih =>
    have hx : x ≠ ch := fun h => hs (h ▸ List.mem_cons_self _ _)
    simp [ConfigLoader.find, hx, ih (fun h => hs (List.mem_cons_of_mem _ h))]

theorem lookup_assign_self (m : List (List Char × List Char)) (key value : List Char) :
    ConfigLoader.lookup (ConfigLoader.assign m key value) key = some value := by
  induction m with
  | nil => simp [ConfigLoader.assign, ConfigLoader.lookup]
  | cons kv m ih =>
    obtain ⟨k, v⟩ := kv
    by_cases hk : k = key
    · simp [ConfigLoader.assign, ConfigLoader.lookup, hk]
    · simp [ConfigLoader.assign, ConfigLoader.lookup, hk, ih]

theorem lookup_assign_other (m : List (List Char × List Char)) (key value other : List Char)
    (h : other ≠ key) :
    ConfigLoader.lookup (ConfigLoader.assign m key value) other = ConfigLoader.lookup m other := by
  induction m with
  | nil => simp [ConfigLoader.assign, ConfigLoader.lookup, Ne.symm h]
  | cons kv m ih =>
    obtain ⟨k, v⟩ := kv
    by_cases hk : k = key
    · subst hk
      simp [ConfigLoader.assign, ConfigLoader.lookup, Ne.symm h]
    · by_cases ho : k = other
      · subst ho
        simp [ConfigLoader.assign, ConfigLoader.lookup, hk]
      · simp [ConfigLoader.assign, ConfigLoader.lookup, hk, ho, ih]

/-- Every string is a part that does not end in whitespace, followed by whitespace. -/
theorem right_decomposition (t : List Char) :
    ∃ core ws2 : List Char, t = core ++ ws2 ∧ (∀ c ∈ ws2, isspace c = true) ∧
      (∀ c, core.getLast? = some c → isspace c = false) := by
  obtain ⟨ws1, core, ws2, rfl, h1, h2, -, hl⟩ := trim_decomposition t
  by_cases hcore : core = []
  · subst hcore
    refine ⟨[], ws1 ++ ws2, by simp, ?_, by simp⟩
    intro c hc
    rcases List.mem_append.mp hc with hc | hc
    · exact h1 c hc
    · exact h2 c hc
  · refine ⟨ws1 ++ core, ws2, rfl, h2, ?_⟩
    intro c hc
    rw [List.getLast?_append_of_ne_nil _ hcore] at hc
    exact hl c hc

/-- The effect of `parseLine` on a line whose trimmed text is a key without whitespace at its
ends, whitespace, `=`, and the rest. -/
theorem parseLine_eq (c : ConfigLoader) (line k0 ws2 rest : List Char)
    (hline : ConfigLoader.trim line = k0 ++ ws2 ++ '=' :: rest) (hk0 : k0 ≠ [])
    (hhead : ∀ ch, k0.head? = some ch → isspace ch = false)
    (hlast : ∀ ch, k0.getLast? = some ch → isspace ch = false)
    (hws2 : ∀ ch ∈ ws2, isspace ch = true) (heq : '=' ∉ k0) (hhash : k0.head? ≠ some '#') :
    ConfigLoader.parseLine c line =
      ConfigLoader.mk c.config_file_path_ (ConfigLoader.assign c.config_values_ k0
        (match ConfigLoader.find rest '#' with
          | some comment_pos => ConfigLoader.trim (rest.take comment_pos)
          | none => ConfigLoader.trim rest)) := by
  have hnot : '=' ∉ k0 ++ ws2 := by
    intro h
    rcases List.mem_append.mp h with h | h
    · exact heq h
    · exact absurd (hws2 _ h) (by decide)
  have hfind : ConfigLoader.find (k0 ++ ws2 ++ '=' :: rest) '=' = some (k0 ++ ws2).length :=
    find_append (k0 ++ ws2) rest '=' hnot
  have hkey : ConfigLoader.trim ((k0 ++ ws2 ++ '=' :: rest).take (k0 ++ ws2).length) = k0 := by
    rw [List.take_left]
    have := trim_eq [] k0 ws2 (by simp) hws2 hhead hlast
    simpa using this
  have hdrop : (k0 ++ ws2 ++ '=' :: rest).drop ((k0 ++ ws2).length + 1) = rest := by
    rw [← List.drop_drop, List.drop_left]
    rfl
  have hempty : (k0 ++ ws2 ++ '=' :: rest).isEmpty = false := by
    cases k0 with
    | nil => exact absurd rfl hk0
    | cons x k0 => rfl
  have hhead2 : ((k0 ++ ws2 ++ '=' :: rest).head? == some '#') = false := by
    cases k0 with
    | nil => exact absurd rfl hk0
    | cons x k0 =>
      have hx : x ≠ '#' := fun h => hhash (by rw [h]; rfl)
      simp [hx]
  have hk0e : k0.isEmpty = false := by
    cases k0 with
    | nil => exact absurd rfl hk0
    | cons x k0 => rfl
  unfold ConfigLoader.parseLine
  simp only [hline, hempty, hhead2, Bool.or_self, Bool.false_eq_true, if_false, hfind, hkey,
    hdrop, hk0e, Bool.not_false, if_true]

/-- A line either leaves every loader unchanged or assigns the same key and value in every
loader. -/
theorem parseLine_cases (line : List Char) :
    (∀ c : ConfigLoader, ConfigLoader.parseLine c line = c) ∨
    (∃ key value : List Char, ∀ c : ConfigLoader, ConfigLoader.parseLine c line =
      ConfigLoader.mk c.config_file_path_ (ConfigLoader.assign c.config_values_ key value)) := by
  unfold ConfigLoader.parseLine
  simp only
  split
  · exact Or.inl (fun _ => rfl)
  · split
    · exact Or.inl (fun _ => rfl)
    · split
      · exact Or.inr ⟨_, _, fun _ => rfl⟩
      · exact Or.inl (fun _ => rfl)

theorem lookup_foldl_parseLine (lines : List (List Char)) (key : List Char)
    (h : ∀ line ∈ lines, ConfigLoader.lookup
      (ConfigLoader.parseLine ⟨[], []⟩ line).config_values_ key = none)
    (c : ConfigLoader) :
    ConfigLoader.lookup (lines.foldl ConfigLoader.parseLine c).config_values_ key =
      ConfigLoader.lookup c.config_values_ key := by
  induction lines generalizing c with
  | nil => rfl
  | cons line lines ih =>
    rw [List.foldl_cons, ih (fun l hl => h l (List.mem_cons_of_mem _ hl))]
    have h0 := h line (List.mem_cons_self _ _)
    rcases parseLine_cases line with hc | ⟨k, v, hc⟩
    · rw [hc]
    · rw [hc] at h0 ⊢
      have hne : key ≠ k := by
        intro hk
        subst hk
        rw [lookup_assign_self] at h0
        cases h0
      exact lookup_assign_other _ _ _ _ hne

theorem getLast?_cons_of_ne_nil {x : Char} {l : List Char} (h : l ≠ []) :
    (x :: l).getLast? = l.getLast? := by
  cases l with
  | nil => exact absurd rfl h
  | cons y l => exact List.getLast?_cons_cons

/-- The function `trim` removes exactly the whitespace at the two ends. -/
theorem trim_spec (s : List Char) :
    ∃ ws1 ws2 : List Char, s = ws1 ++ ConfigLoader.trim s ++ ws2 ∧
      (∀ c ∈ ws1, isspace c = true) ∧ (∀ c ∈ ws2, isspace c = true) ∧
      (∀ c, (ConfigLoader.trim s).head? = some c → isspace c = false) ∧
      (∀ c, (ConfigLoader.trim s).getLast? = some c → isspace c = false) := by
  obtain ⟨ws1, core, ws2, hs, h1, h2, hh, hl⟩ := trim_decomposition s
  have ht : ConfigLoader.trim s = core := by rw [hs]; exact trim_eq ws1 core ws2 h1 h2 hh hl
  rw [ht]
  exact ⟨ws1, ws2, hs, h1, h2, hh, hl⟩

/-- The effect of `parseLine` on a line `k=v` with whitespace around `k` and `v`. -/
theorem parseLine_key_value (c : ConfigLoader) (ws1 k ws2 ws3 v ws4 : List Char)
    (hk : k ≠ []) (hv : v ≠ [])
    (hkc : ∀ ch ∈ k, ch ≠ '=' ∧ ch ≠ '#' ∧ isspace ch = false)
    (hvc : ∀ ch ∈ v, ch ≠ '=' ∧ ch ≠ '#' ∧ isspace ch = false)
    (h1 : ∀ ch ∈ ws1, isspace ch = true) (h2 : ∀ ch ∈ ws2, isspace ch = true)
    (h3 : ∀ ch ∈ ws3, isspace ch = true) (h4 : ∀ ch ∈ ws4, isspace ch = true) :
    ConfigLoader.parseLine c (ws1 ++ k ++ ws2 ++ '=' :: (ws3 ++ v ++ ws4)) =
      ConfigLoader.mk c.config_file_path_ (ConfigLoader.assign c.config_values_ k v) := by
  have hkhead : ∀ ch, k.head? = some ch → isspace ch = false :=
    fun ch h => (hkc ch (List.mem_of_mem_head? h)).2.2
  have hklast : ∀ ch, k.getLast? = some ch → isspace ch = false :=
    fun ch h => (hkc ch (List.mem_of_getLast?_eq_some h)).2.2
  have hvhead : ∀ ch, v.head? = some ch → isspace ch = false :=
    fun ch h => (hvc ch (List.mem_of_mem_head? h)).2.2
  have hvlast : ∀ ch, v.getLast? = some ch → isspace ch = false :=
    fun ch h => (hvc ch (List.mem_of_getLast?_eq_some h)).2.2
  have hline : ConfigLoader.trim (ws1 ++ k ++ ws2 ++ '=' :: (ws3 ++ v ++ ws4)) =
      k ++ ws2 ++ '=' :: (ws3 ++ v) := by
    have hform : ws1 ++ k ++ ws2 ++ '=' :: (ws3 ++ v ++ ws4) =
        ws1 ++ (k ++ ws2 ++ '=' :: (ws3 ++ v)) ++ ws4 := by simp
    rw [hform]
    apply trim_eq _ _ _ h1 h4
    · intro ch hch
      rw [List.append_assoc, List.head?_append_of_ne_nil _ hk] at hch
      exact hkhead ch hch
    · intro ch hch
      have hne : ws3 ++ v ≠ [] := by simp [hv]
      rw [List.getLast?_append_of_ne_nil _ (List.cons_ne_nil _ _),
        getLast?_cons_of_ne_nil hne, List.getLast?_append_of_ne_nil _ hv] at hch
      exact hvlast ch hch
  rw [parseLine_eq c _ k ws2 (ws3 ++ v) hline hk hkhead hklast h2
    (fun h => (hkc _ h).1 rfl)
    (fun h => (hkc _ (List.mem_of_mem_head? h)).2.1 rfl)]
  have hfind : ConfigLoader.find (ws3 ++ v) '#' = none := by
    apply find_none
    intro h
    rcases List.mem_append.mp h with h | h
    · exact absurd (h3 _ h) (by decide)
    · exact (hvc _ h).2.1 rfl
  have htrim : ConfigLoader.trim (ws3 ++ v) = v := by
    have := trim_eq ws3 v [] h3 (by simp) hvhead hvlast
    simpa using this
  rw [hfind, htrim]

/-- A line whose first non-whitespace character is `#` changes nothing. -/
theorem parseLine_comment (c : ConfigLoader) (ws rest : List Char)
    (hws : ∀ ch ∈ ws, isspace ch = true) :
    ConfigLoader.parseLine c (ws ++ '#' :: rest) = c := by
  obtain ⟨core, ws2, hs, hw2, hl⟩ := right_decomposition ('#' :: rest)
  have hcore : ∃ core1, core = '#' :: core1 := by
    cases core with
    | nil =>
      have : '#' ∈ ws2 := by
        rw [List.nil_append] at hs
        rw [← hs]
        exact List.mem_cons_self _ _
      exact absurd (hw2 _ this) (by decide)
    | cons x core =>
      rw [List.cons_append] at hs
      injection hs with hx _
      exact ⟨core, by rw [hx]⟩
  obtain ⟨core1, rfl⟩ := hcore
  have hline : ConfigLoader.trim (ws ++ '#' :: rest) = '#' :: core1 := by
    rw [hs, ← List.append_assoc]
    apply trim_eq _ _ _ hws hw2 _ hl
    intro ch hch
    cases hch
    decide
  unfold ConfigLoader.parseLine
  simp [hline]

/-- The effect of `parseLine` on a line `k=text` whose text has a comment. -/
theorem parseLine_with_comment (c : ConfigLoader) (k a b : List Char) (hk : '=' ∉ k)
    (hne : ConfigLoader.trim k ≠ []) (hc : (ConfigLoader.trim k).head? ≠ some '#')
    (ha : '#' ∉ a) :
    ConfigLoader.parseLine c (k ++ '=' :: (a ++ '#' :: b)) =
      ConfigLoader.mk c.config_file_path_ (ConfigLoader.assign c.config_values_
        (ConfigLoader.trim k) (ConfigLoader.trim a)) := by
  obtain ⟨ws1, ws2, hks, h1, h2, hh, hl⟩ := trim_spec k
  obtain ⟨core, wst, hs, hwt, hlt⟩ := right_decomposition ('#' :: b)
  have hcore : ∃ core1, core = '#' :: core1 := by
    cases core with
    | nil =>
      have : '#' ∈ wst := by
        rw [List.nil_append] at hs
        rw [← hs]
        exact List.mem_cons_self _ _
      exact absurd (hwt _ this) (by decide)
    | cons x core =>
      rw [List.cons_append] at hs
      injection hs with hx _
      exact ⟨core, by rw [hx]⟩
  obtain ⟨core1, rfl⟩ := hcore
  have hmem : '=' ∉ ConfigLoader.trim k := by
    intro h
    apply hk
    rw [hks]
    simp [h]
  have hline : ConfigLoader.trim (k ++ '=' :: (a ++ '#' :: b)) =
      ConfigLoader.trim k ++ ws2 ++ '=' :: (a ++ '#' :: core1) := by
    have hform : k ++ '=' :: (a ++ '#' :: b) =
        ws1 ++ (ConfigLoader.trim k ++ ws2 ++ '=' :: (a ++ '#' :: core1)) ++ wst := by
      rw [hs]
      nth_rewrite 1 [hks]
      simp
    rw [hform]
    apply trim_eq _ _ _ h1 hwt
    · intro ch hch
      rw [List.append_assoc, List.head?_append_of_ne_nil _ hne] at hch
      exact hh ch hch
    · intro ch hch
      have hne1 : a ++ '#' :: core1 ≠ [] := by simp
      rw [List.getLast?_append_of_ne_nil _ (List.cons_ne_nil _ _),
        getLast?_cons_of_ne_nil hne1,
        List.getLast?_append_of_ne_nil _ (List.cons_ne_nil _ _)] at hch
      exact hlt ch hch
  rw [parseLine_eq c _ (ConfigLoader.trim k) ws2 (a ++ '#' :: core1) hline hne hh hl h2 hmem hc]
  rw [find_append a core1 '#' ha]
  simp only [List.take_left]

/-- The effect of `parseLine` on a line `k=text` whose text has no comment. -/
theorem parseLine_without_comment (c : ConfigLoader) (k text : List Char) (hk : '=' ∉ k)
    (hne : ConfigLoader.trim k ≠ []) (hc : (ConfigLoader.trim k).head? ≠ some '#')
    (ht : '#' ∉ text) :
    ConfigLoader.parseLine c (k ++ '=' :: text) =
      ConfigLoader.mk c.config_file_path_ (ConfigLoader.assign c.config_values_
        (ConfigLoader.trim k) (ConfigLoader.trim text)) := by
  obtain ⟨ws1, ws2, hks, h1, h2, hh, hl⟩ := trim_spec k
  obtain ⟨core, wst, hs, hwt, hlt⟩ := right_decomposition text
  have hmem : '=' ∉ ConfigLoader.trim k := by
    intro h
    apply hk
    rw [hks]
    simp [h]
  have hline : ConfigLoader.trim (k ++ '=' :: text) =
      ConfigLoader.trim k ++ ws2 ++ '=' :: core := by
    have hform : k ++ '=' :: text = ws1 ++ (ConfigLoader.trim k ++ ws2 ++ '=' :: core) ++ wst := by
      rw [hs]
      nth_rewrite 1 [hks]
      simp
    rw [hform]
    apply trim_eq _ _ _ h1 hwt
    · intro ch hch
      rw [List.append_assoc, List.head?_append_of_ne_nil _ hne] at hch
      exact hh ch hch
    · intro ch hch
      rw [List.getLast?_append_of_ne_nil _ (List.cons_ne_nil _ _)] at hch
      cases core with
      | nil =>
        cases hch
        decide
      | cons x core =>
        rw [getLast?_cons_of_ne_nil (List.cons_ne_nil _ _)] at hch
        exact hlt ch hch
  rw [parseLine_eq c _ (ConfigLoader.trim k) ws2 core hline hne hh hl h2 hmem hc]
  have hfind : ConfigLoader.find core '#' = none := by
    apply find_none
    intro h
    apply ht
    rw [hs]
    simp [h]
  rw [hfind, hs, trim_append_whitespace core wst hwt]

theorem digitChar_spec (k : Nat) (hk : k < 10) :
    (Nat.digitChar k).isDigit = true ∧ (Nat.digitChar k).toNat - 48 = k := by
  interval_cases k <;> exact ⟨by decide, by decide⟩

theorem digitsValue_concat (a : List Char) (d : Char) :
    digitsValue (a ++ [d]) = digitsValue a * 10 + (d.toNat - 48) := by
  simp [digitsValue, List.foldl_append]

/-- The digits `Nat.toDigitsCore` puts in front of its accumulator. -/
theorem toDigitsCore_spec (fuel n : Nat) (ds : List Char) (h : n < fuel) :
    ∃ front : List Char, Nat.toDigitsCore 10 fuel n ds = front ++ ds ∧ front ≠ [] ∧
      (∀ c ∈ front, c.isDigit = true) ∧ digitsValue front = n := by
  induction fuel generalizing n ds with
  | zero => omega
  | succ fuel ih =>
    have hd := digitChar_spec (n % 10) (Nat.mod_lt _ (by decide))
    unfold Nat.toDigitsCore
    simp only
    by_cases h0 : n / 10 = 0
    · rw [if_pos h0]
      refine ⟨[Nat.digitChar (n % 10)], rfl, by simp, ?_, ?_⟩
      · intro c hc
        rw [List.mem_singleton.mp hc]
        exact hd.1
      · have := digitsValue_concat [] (Nat.digitChar (n % 10))
        simp only [List.nil_append] at this
        rw [this, hd.2]
        simp only [digitsValue, List.foldl_nil]
        omega
    · rw [if_neg h0]
      obtain ⟨front, hf, -, hdig, hval⟩ := ih (n / 10) (Nat.digitChar (n % 10) :: ds) (by omega)
      refine ⟨front ++ [Nat.digitChar (n % 10)], by rw [hf]; simp, by simp, ?_, ?_⟩
      · intro c hc
        rcases List.mem_append.mp hc with hc | hc
        · exact hdig c hc
        · rw [List.mem_singleton.mp hc]
          exact hd.1
      · rw [digitsValue_concat, hval, hd.2]
        omega

/-- The decimal text of a natural number: digits only, at least one, with its value. -/
theorem toDigits_spec (n : Nat) :
    Nat.toDigits 10 n ≠ [] ∧ (∀ c ∈ Nat.toDigits 10 n, c.isDigit = true) ∧
      digitsValue (Nat.toDigits 10 n) = n := by
  obtain ⟨front, hf, hne, hdig, hval⟩ := toDigitsCore_spec (n + 1) n [] (by omega)
  have : Nat.toDigits 10 n = front := by
    unfold Nat.toDigits
    rw [hf, List.append_nil]
  rw [this]
  exact ⟨hne, hdig, hval⟩

theorem stoi_body (ws body : List Char) (hws : ∀ c ∈ ws, isspace c = true)
    (hbody : ∀ c, body.head? = some c → isspace c = false) :
    (ws ++ body).dropWhile isspace = body :=
  dropWhile_all_append isspace ws body hws hbody

theorem takeWhile_digits (digits rest : List Char) (hd : ∀ c ∈ digits, c.isDigit = true)
    (hrest : ∀ c, rest.head? = some c → c.isDigit = false) :
    (digits ++ rest).takeWhile Char.isDigit = digits :=
  takeWhile_all_append Char.isDigit digits rest hd hrest

theorem stoiDigits_eq (negative : Bool) (digits rest : List Char)
    (hd : ∀ c ∈ digits, c.isDigit = true) (hne : digits ≠ [])
    (hrest : ∀ c, rest.head? = some c → c.isDigit = false) :
    stoiDigits negative (digits ++ rest) =
      if negative = true then
        (if 2147483648 < digitsValue digits then .error .out_of_range
          else .ok (-(digitsValue digits : Int)))
      else
        (if 2147483647 < digitsValue digits then .error .out_of_range
          else .ok (digitsValue digits : Int)) := by
  unfold stoiDigits
  simp only [takeWhile_digits digits rest hd hrest, hne, if_false]
  cases negative
  · simp only [Bool.false_eq_true, if_false]
    by_cases hbig : 2147483647 < digitsValue digits
    · rw [if_pos (Or.inr (by omega)), if_pos hbig]
    · rw [if_neg (by omega), if_neg hbig]
  · simp only [if_true]
    by_cases hbig : 2147483648 < digitsValue digits
    · rw [if_pos (Or.inl (by omega)), if_pos hbig]
    · rw [if_neg (by omega), if_neg hbig]

theorem stoiDigits_invalid (negative : Bool) (rest : List Char)
    (hrest : ∀ c, rest.head? = some c → c.isDigit = false) :
    stoiDigits negative rest = .error .invalid_argument := by
  unfold stoiDigits
  have : rest.takeWhile Char.isDigit = [] := by
    have := takeWhile_all_append Char.isDigit [] rest (by simp) hrest
    simpa using this
  simp only [this, if_true]

/-- The function `stoi` on whitespace, digits, and a rest that starts with no digit. -/
theorem stoi_unsigned (ws digits rest : List Char) (hws : ∀ c ∈ ws, isspace c = true)
    (hd : ∀ c ∈ digits, c.isDigit = true) (hne : digits ≠ [])
    (hrest : ∀ c, rest.head? = some c → c.isDigit = false) :
    stoi (ws ++ digits ++ rest) =
      if 2147483647 < digitsValue digits then .error .out_of_range
      else .ok (digitsValue digits : Int) := by
  obtain ⟨x, digits1, rfl⟩ := List.exists_cons_of_ne_nil hne
  have hx : x.isDigit = true := hd x (List.mem_cons_self _ _)
  have hbody : (ws ++ (x :: digits1) ++ rest).dropWhile isspace = x :: (digits1 ++ rest) := by
    rw [List.append_assoc]
    apply stoi_body _ _ hws
    intro c hc
    cases hc
    exact isspace_false_of_isDigit _ hx
  have hm : x ≠ '-' := by rintro rfl; revert hx; decide
  have hp : x ≠ '+' := by rintro rfl; revert hx; decide
  have hstep : stoi (ws ++ (x :: digits1) ++ rest) = stoiDigits false (x :: digits1 ++ rest) := by
    unfold stoi
    rw [hbody]
    split
    · rename_i h; injection h with h1 _; exact absurd h1 hm
    · rename_i h; injection h with h1 _; exact absurd h1 hp
    · rfl
  rw [hstep, stoiDigits_eq false (x :: digits1) rest hd hne hrest]
  simp

/-- The function `stoi` on whitespace, a sign, digits, and a rest that starts with no
digit. -/
theorem stoi_signed (ws digits rest : List Char) (hws : ∀ c ∈ ws, isspace c = true)
    (hd : ∀ c ∈ digits, c.isDigit = true) (hne : digits ≠ [])
    (hrest : ∀ c, rest.head? = some c → c.isDigit = false) :
    stoi (ws ++ '+' :: digits ++ rest) =
      (if 2147483647 < digitsValue digits then .error .out_of_range
        else .ok (digitsValue digits : Int)) ∧
    stoi (ws ++ '-' :: digits ++ rest) =
      (if 2147483648 < digitsValue digits then .error .out_of_range
        else .ok (-(digitsValue digits : Int))) := by
  have hplus : (ws ++ '+' :: digits ++ rest).dropWhile isspace = '+' :: (digits ++ rest) := by
    rw [List.append_assoc]
    apply stoi_body _ _ hws
    intro c hc
    cases hc
    decide
  have hminus : (ws ++ '-' :: digits ++ rest).dropWhile isspace = '-' :: (digits ++ rest) := by
    rw [List.append_assoc]
    apply stoi_body _ _ hws
    intro c hc
    cases hc
    decide
  constructor
  · unfold stoi
    rw [hplus]
    simp only
    rw [stoiDigits_eq false digits rest hd hne hrest]
    simp
  · unfold stoi
    rw [hminus]
    simp only
    rw [stoiDigits_eq true digits rest hd hne hrest]
    simp

/-- The function `stoi` on a text without a digit after the whitespace and the sign. -/
theorem stoi_invalid (ws rest : List Char) (hws : ∀ c ∈ ws, isspace c = true)
    (hrest : ∀ c, rest.head? = some c → c.isDigit = false) :
    stoi (ws ++ '+' :: rest) = .error .invalid_argument ∧
    stoi (ws ++ '-' :: rest) = .error .invalid_argument ∧
    ((∀ c, rest.head? = some c → isspace c = false ∧ c ≠ '+' ∧ c ≠ '-') →
      stoi (ws ++ rest) = .error .invalid_argument) := by
  refine ⟨?_, ?_, ?_⟩
  · have hb : (ws ++ '+' :: rest).dropWhile isspace = '+' :: rest :=
      stoi_body _ _ hws (by intro c hc; cases hc; decide)
    unfold stoi
    rw [hb]
    exact stoiDigits_invalid false rest hrest
  · have hb : (ws ++ '-' :: rest).dropWhile isspace = '-' :: rest :=
      stoi_body _ _ hws (by intro c hc; cases hc; decide)
    unfold stoi
    rw [hb]
    exact stoiDigits_invalid true rest hrest
  · intro h
    have hb : (ws ++ rest).dropWhile isspace = rest :=
      stoi_body _ _ hws (fun c hc => (h c hc).1)
    unfold stoi
    rw [hb]
    split
    · exact absurd rfl (h _ rfl).2.2
    · exact absurd rfl (h _ rfl).2.1
    · exact stoiDigits_invalid false rest hrest

/-- The function `stoi` on the decimal text of an integer within the range of `int`. -/
theorem stoi_decimalText (n : Int) (hlo : -2147483648 ≤ n) (hhi : n ≤ 2147483647) :
    stoi (decimalText n) = .ok n := by
  cases n with
  | ofNat m =>
    obtain ⟨hne, hdig, hval⟩ := toDigits_spec m
    have := stoi_unsigned [] (Nat.toDigits 10 m) [] (by simp) hdig hne (by simp)
    simp only [List.nil_append, List.append_nil, hval] at this
    have hm : ¬ 2147483647 < m := by
      have : (m : Int) ≤ 2147483647 := hhi
      omega
    rw [if_neg hm] at this
    exact this
  | negSucc m =>
    obtain ⟨hne, hdig, hval⟩ := toDigits_spec (m + 1)
    have := (stoi_signed [] (Nat.toDigits 10 (m + 1)) [] (by simp) hdig hne (by simp)).2
    simp only [List.nil_append, List.append_nil, hval] at this
    have hm : ¬ 2147483648 < m + 1 := by
      have h1 : -2147483648 ≤ -((m : Int) + 1) := by rw [← Int.negSucc_eq]; exact hlo
      omega
    rw [if_neg hm] at this
    rw [Int.negSucc_eq]
    exact this

/-- C22. Config line parsing. Take a key `k` and a value `v`, both non-empty and without
`=`, `#` or whitespace, and any whitespace `ws1`, `ws2`, `ws3`, `ws4` around them. After
`parseLine` of the line `ws1 k ws2 = ws3 v ws4` the loader has `hasKey(k) = true` and
`getString(k, d) = v` for every default `d`; every other key keeps its entry, so `hasKey`
and `getString` answer for it as before; and a later line of the same form for the same key
replaces the value. -/
theorem parseLine_stores_key_value (c : ConfigLoader) (ws1 k ws2 ws3 v ws4 : List Char)
    (hk : k ≠ []) (hv : v ≠ [])
    (hkc : ∀ ch ∈ k, ch ≠ '=' ∧ ch ≠ '#' ∧ isspace ch = false)
    (hvc : ∀ ch ∈ v, ch ≠ '=' ∧ ch ≠ '#' ∧ isspace ch = false)
    (h1 : ∀ ch ∈ ws1, isspace ch = true) (h2 : ∀ ch ∈ ws2, isspace ch = true)
    (h3 : ∀ ch ∈ ws3, isspace ch = true) (h4 : ∀ ch ∈ ws4, isspace ch = true) :
    (c.parseLine (ws1 ++ k ++ ws2 ++ '=' :: (ws3 ++ v ++ ws4))).hasKey k = true ∧
    (∀ d, (c.parseLine (ws1 ++ k ++ ws2 ++ '=' :: (ws3 ++ v ++ ws4))).getString k d = v) ∧
    (∀ other, other ≠ k →
      ConfigLoader.lookup
          (c.parseLine (ws1 ++ k ++ ws2 ++ '=' :: (ws3 ++ v ++ ws4))).config_values_ other =
        ConfigLoader.lookup c.config_values_ other ∧
      (c.parseLine (ws1 ++ k ++ ws2 ++ '=' :: (ws3 ++ v ++ ws4))).hasKey other =
        c.hasKey other ∧
      ∀ d, (c.parseLine (ws1 ++ k ++ ws2 ++ '=' :: (ws3 ++ v ++ ws4))).getString other d =
        c.getString other d) ∧
    (∀ u1 u2 u3 v2 u4 : List Char, v2 ≠ [] →
      (∀ ch ∈ v2, ch ≠ '=' ∧ ch ≠ '#' ∧ isspace ch = false) →
      (∀ ch ∈ u1, isspace ch = true) → (∀ ch ∈ u2, isspace ch = true) →
      (∀ ch ∈ u3, isspace ch = true) → (∀ ch ∈ u4, isspace ch = true) →
      ∀ d, ((c.parseLine (ws1 ++ k ++ ws2 ++ '=' :: (ws3 ++ v ++ ws4))).parseLine
        (u1 ++ k ++ u2 ++ '=' :: (u3 ++ v2 ++ u4))).getString k d = v2) := by
  rw [parseLine_key_value c ws1 k ws2 ws3 v ws4 hk hv hkc hvc h1 h2 h3 h4]
  refine ⟨?_, ?_, ?_, ?_⟩
  · simp [ConfigLoader.hasKey, lookup_assign_self]
  · intro d
    simp [ConfigLoader.getString, lookup_assign_self]
  · intro other ho
    have hl := lookup_assign_other c.config_values_ k v other ho
    refine ⟨hl, ?_, ?_⟩
    · simp only [ConfigLoader.hasKey, hl]
    · intro d
      simp only [ConfigLoader.getString, hl]
  · intro u1 u2 u3 v2 u4 hv2 hvc2 g1 g2 g3 g4 d
    rw [parseLine_key_value _ u1 k u2 u3 v2 u4 hk hv2 hkc hvc2 g1 g2 g3 g4]
    simp [ConfigLoader.getString, lookup_assign_self]

theorem parseLine_stores_key_value_witness :
    (ConfigLoader.parseLine ⟨[], [("b".toList, "0".toList)]⟩
      (" \t".toList ++ "port".toList ++ " ".toList ++
        '=' :: ("  ".toList ++ "9000".toList ++ "\r".toList))).hasKey "port".toList = true ∧
    (ConfigLoader.parseLine ⟨[], [("b".toList, "0".toList)]⟩
      (" \t".toList ++ "port".toList ++ " ".toList ++
        '=' :: ("  ".toList ++ "9000".toList ++ "\r".toList))).getString "port".toList [] =
      "9000".toList ∧
    (ConfigLoader.parseLine ⟨[], [("b".toList, "0".toList)]⟩
      (" \t".toList ++ "port".toList ++ " ".toList ++
        '=' :: ("  ".toList ++ "9000".toList ++ "\r".toList))).getString "b".toList [] =
      "0".toList := by
  have h := parseLine_stores_key_value ⟨[], [("b".toList, "0".toList)]⟩ " \t".toList
    "port".toList " ".toList "  ".toList "9000".toList "\r".toList (by decide) (by decide)
    (by decide) (by decide) (by decide) (by decide) (by decide) (by decide)
  exact ⟨h.1, h.2.1 [], ((h.2.2.1 "b".toList (by decide)).2.2 []).trans (by decide)⟩

/-- C23. Inline comments are stripped from config values. For a line `k=text` whose key
part `k` has no `=`, is not blank and does not begin a comment: when `text` is `a#b` with no
`#` in `a`, the value stored under the trimmed key is the trimmed `a`; when `text` has no
`#`, it is the trimmed `text`. The line `AUTOSAVE_INTERVAL=120 # in seconds` stores `120`.
A line whose first non-whitespace character is `#` leaves the loader as it was. Trimming
removes exactly the whitespace at the two ends. -/
theorem inline_comment_stripped (c : ConfigLoader) (k text : List Char) (hk : '=' ∉ k)
    (hne : ConfigLoader.trim k ≠ []) (hc : (ConfigLoader.trim k).head? ≠ some '#') :
    (∀ a b : List Char, text = a ++ '#' :: b → '#' ∉ a →
      c.parseLine (k ++ '=' :: text) = ConfigLoader.mk c.config_file_path_
        (ConfigLoader.assign c.config_values_ (ConfigLoader.trim k) (ConfigLoader.trim a)) ∧
      ConfigLoader.lookup (c.parseLine (k ++ '=' :: text)).config_values_
        (ConfigLoader.trim k) = some (ConfigLoader.trim a)) ∧
    ('#' ∉ text →
      c.parseLine (k ++ '=' :: text) = ConfigLoader.mk c.config_file_path_
        (ConfigLoader.assign c.config_values_ (ConfigLoader.trim k)
          (ConfigLoader.trim text)) ∧
      ConfigLoader.lookup (c.parseLine (k ++ '=' :: text)).config_values_
        (ConfigLoader.trim k) = some (ConfigLoader.trim text)) ∧
    ConfigLoader.lookup
      (c.parseLine "AUTOSAVE_INTERVAL=120 # in seconds".toList).config_values_
      "AUTOSAVE_INTERVAL".toList = some "120".toList ∧
    (∀ ws rest : List Char, (∀ ch ∈ ws, isspace ch = true) →
      c.parseLine (ws ++ '#' :: rest) = c) ∧
    (∀ s : List Char, ∃ ws1 ws2 : List Char, s = ws1 ++ ConfigLoader.trim s ++ ws2 ∧
      (∀ ch ∈ ws1, isspace ch = true) ∧ (∀ ch ∈ ws2, isspace ch = true) ∧
      (∀ ch, (ConfigLoader.trim s).head? = some ch → isspace ch = false) ∧
      (∀ ch, (ConfigLoader.trim s).getLast? = some ch → isspace ch = false)) := by
  refine ⟨?_, ?_, ?_, ?_, trim_spec⟩
  · intro a b ht ha
    subst ht
    rw [parseLine_with_comment c k a b hk hne hc ha]
    exact ⟨rfl, lookup_assign_self _ _ _⟩
  · intro ht
    rw [parseLine_without_comment c k text hk hne hc ht]
    exact ⟨rfl, lookup_assign_self _ _ _⟩
  · have h := parseLine_with_comment c "AUTOSAVE_INTERVAL".toList "120 ".toList
      " in seconds".toList (by decide) (by decide) (by decide) (by decide)
    have hline : "AUTOSAVE_INTERVAL=120 # in seconds".toList =
        "AUTOSAVE_INTERVAL".toList ++ '=' :: ("120 ".toList ++ '#' :: " in seconds".toList) := by
      decide
    rw [hline, h]
    have h1 : ConfigLoader.trim "AUTOSAVE_INTERVAL".toList = "AUTOSAVE_INTERVAL".toList := by
      decide
    have h2 : ConfigLoader.trim "120 ".toList = "120".toList := by decide
    rw [h1, h2]
    exact lookup_assign_self _ _ _
  · intro ws rest hws
    exact parseLine_comment c ws rest hws

theorem inline_comment_stripped_witness :
    ConfigLoader.lookup
      (ConfigLoader.parseLine ⟨[], []⟩ ("TIMEOUT ".toList ++ '=' :: " 30 # s".toList)).config_values_
      (ConfigLoader.trim "TIMEOUT ".toList) = some (ConfigLoader.trim " 30 ".toList) ∧
    ConfigLoader.trim "TIMEOUT ".toList = "TIMEOUT".toList ∧
    ConfigLoader.trim " 30 ".toList = "30".toList :=
  ⟨((inline_comment_stripped ⟨[], []⟩ "TIMEOUT ".toList " 30 # s".toList (by decide)
    (by decide) (by decide)).1 " 30 ".toList " s".toList (by decide) (by decide)).2,
    by decide, by decide⟩

/-- C24. Default fallback for absent keys. Let the loader be built from a file none of
whose lines, parsed alone, stores the key `k` (or from a file that cannot be opened). Then
`hasKey(k)` is false. For every loader without the key `k`, `getString(k, d) = d`,
`getInt(k, n) = n` and `getBool(k, b) = b` for every default; `getServerPort()` is 8080
without `SERVER_PORT` and `getAutosaveInterval()` is 300 without `AUTOSAVE_INTERVAL`. -/
theorem absent_key_defaults (path : List Char) (file : Option (List (List Char)))
    (k : List Char)
    (h : ∀ lines, file = some lines → ∀ line ∈ lines,
      (ConfigLoader.parseLine (ConfigLoader.mk path []) line).hasKey k = false) :
    (ConfigLoader.new path file).hasKey k = false ∧
    (∀ c : ConfigLoader, c.hasKey k = false →
      (∀ d, c.getString k d = d) ∧ (∀ n, c.getInt k n = n) ∧ (∀ b, c.getBool k b = b)) ∧
    (∀ c : ConfigLoader, c.hasKey "SERVER_PORT".toList = false → c.getServerPort = 8080) ∧
    (∀ c : ConfigLoader, c.hasKey "AUTOSAVE_INTERVAL".toList = false →
      c.getAutosaveInterval = 300) := by
  have hnone : ∀ (c : ConfigLoader) (key : List Char), c.hasKey key = false →
      ConfigLoader.lookup c.config_values_ key = none := by
    intro c key hc
    simpa [ConfigLoader.hasKey] using hc
  refine ⟨?_, ?_, ?_, ?_⟩
  · cases file with
    | none => rfl
    | some lines =>
      have hl : ∀ line ∈ lines, ConfigLoader.lookup
          (ConfigLoader.parseLine ⟨[], []⟩ line).config_values_ k = none := by
        intro line hline
        have h0 := hnone _ _ (h lines rfl line hline)
        rcases parseLine_cases line with hc | ⟨key, value, hc⟩
        · rw [hc]
          rfl
        · rw [hc] at h0 ⊢
          exact h0
      have := lookup_foldl_parseLine lines k hl ⟨path, []⟩
      simp only [ConfigLoader.new, ConfigLoader.reload, ConfigLoader.hasKey, this]
      rfl
  · intro c hc
    have hl := hnone c k hc
    refine ⟨?_, ?_, ?_⟩
    · intro d
      simp only [ConfigLoader.getString, hl]
    · intro n
      simp only [ConfigLoader.getInt, hl]
    · intro b
      simp only [ConfigLoader.getBool, hl]
  · intro c hc
    have hl := hnone c _ hc
    have hk : "SERVER_PORT".toList =
        ['S', 'E', 'R', 'V', 'E', 'R', '_', 'P', 'O', 'R', 'T'] := by decide
    rw [hk] at hl
    simp only [ConfigLoader.getServerPort, ConfigLoader.getInt, hl]
  · intro c hc
    have hl := hnone c _ hc
    have hk : "AUTOSAVE_INTERVAL".toList = ['A', 'U', 'T', 'O', 'S', 'A', 'V', 'E', '_', 'I',
        'N', 'T', 'E', 'R', 'V', 'A', 'L'] := by decide
    rw [hk] at hl
    simp only [ConfigLoader.getAutosaveInterval, ConfigLoader.getInt, hl]

theorem absent_key_defaults_witness :
    (∀ lines, some ["# Test configuration".toList, "MAX_CONNECTIONS=50".toList] = some lines →
      ∀ line ∈ lines, (ConfigLoader.parseLine (ConfigLoader.mk "server.conf".toList []) line).hasKey
        "NONEXISTENT".toList = false) ∧
    (ConfigLoader.new "server.conf".toList
      (some ["# Test configuration".toList, "MAX_CONNECTIONS=50".toList])).hasKey
        "NONEXISTENT".toList = false ∧
    (ConfigLoader.new "server.conf".toList
      (some ["# Test configuration".toList, "MAX_CONNECTIONS=50".toList])).getInt
        "NONEXISTENT".toList 42 = 42 := by
  have hyp : ∀ lines,
      some ["# Test configuration".toList, "MAX_CONNECTIONS=50".toList] = some lines →
      ∀ line ∈ lines, (ConfigLoader.parseLine (ConfigLoader.mk "server.conf".toList []) line).hasKey
        "NONEXISTENT".toList = false := by
    intro lines hl
    cases hl
    decide
  have h := absent_key_defaults "server.conf".toList
    (some ["# Test configuration".toList, "MAX_CONNECTIONS=50".toList]) "NONEXISTENT".toList hyp
  exact ⟨hyp, h.1, (h.2.1 _ h.1).2.1 42⟩

/-- C26. The member `getBool` recognises exactly six spellings, case-insensitively: for a
key with the stored value `v` and every default `b`, `getBool(key, b)` is true when the
lowercase of `v` is `true`, `yes` or `1`, false when it is `false`, `no` or `0`, both
whatever `b` is, and `b` for every other stored value. -/
theorem getBool_six_spellings (c : ConfigLoader) (key v : List Char)
    (h : ConfigLoader.lookup c.config_values_ key = some v) (b : Bool) :
    ((v.map Char.toLower = "true".toList ∨ v.map Char.toLower = "yes".toList ∨
        v.map Char.toLower = "1".toList) → c.getBool key b = true) ∧
    ((v.map Char.toLower = "false".toList ∨ v.map Char.toLower = "no".toList ∨
        v.map Char.toLower = "0".toList) → c.getBool key b = false) ∧
    ((v.map Char.toLower ≠ "true".toList ∧ v.map Char.toLower ≠ "yes".toList ∧
        v.map Char.toLower ≠ "1".toList ∧ v.map Char.toLower ≠ "false".toList ∧
        v.map Char.toLower ≠ "no".toList ∧ v.map Char.toLower ≠ "0".toList) →
      c.getBool key b = b) := by
  have e1 : "true".toList = ['t', 'r', 'u', 'e'] := by decide
  have e2 : "yes".toList = ['y', 'e', 's'] := by decide
  have e3 : "1".toList = ['1'] := by decide
  have e4 : "false".toList = ['f', 'a', 'l', 's', 'e'] := by decide
  have e5 : "no".toList = ['n', 'o'] := by decide
  have e6 : "0".toList = ['0'] := by decide
  rw [e1, e2, e3, e4, e5, e6]
  simp only [ConfigLoader.getBool, h]
  refine ⟨?_, ?_, ?_⟩
  · rintro (hv | hv | hv) <;> simp [hv]
  · rintro (hv | hv | hv) <;> simp [hv]
  · rintro ⟨h1, h2, h3, h4, h5, h6⟩
    simp [h1, h2, h3, h4, h5, h6]

theorem getBool_six_spellings_witness :
    ConfigLoader.lookup (ConfigLoader.mk [] [("ENABLE_SSL".toList, "Yes".toList)]).config_values_
      "ENABLE_SSL".toList = some "Yes".toList ∧
    (ConfigLoader.mk [] [("ENABLE_SSL".toList, "Yes".toList)]).getBool "ENABLE_SSL".toList
      false = true :=
  ⟨by decide, (getBool_six_spellings (ConfigLoader.mk [] [("ENABLE_SSL".toList, "Yes".toList)])
    "ENABLE_SSL".toList "Yes".toList (by decide) false).1 (Or.inr (Or.inl (by decide)))⟩

/-- C27. The member `getLogLevel` maps the `LOG_LEVEL` value case-insensitively: when its
uppercase is `TRACE`, `DEBUG`, `INFO` or `ERROR` the level of that name is returned, `WARN`
and `WARNING` both give `WARN`, and `INFO` is returned when `LOG_LEVEL` is absent or holds
any other text. -/
theorem getLogLevel_mapping (c : ConfigLoader) :
    (∀ v : List Char, ConfigLoader.lookup c.config_values_ "LOG_LEVEL".toList = some v →
      (v.map Char.toUpper = "TRACE".toList → c.getLogLevel = .TRACE) ∧
      (v.map Char.toUpper = "DEBUG".toList → c.getLogLevel = .DEBUG) ∧
      (v.map Char.toUpper = "INFO".toList → c.getLogLevel = .INFO) ∧
      (v.map Char.toUpper = "ERROR".toList → c.getLogLevel = .ERROR) ∧
      (v.map Char.toUpper = "WARN".toList ∨ v.map Char.toUpper = "WARNING".toList →
        c.getLogLevel = .WARN) ∧
      (v.map Char.toUpper ≠ "TRACE".toList ∧ v.map Char.toUpper ≠ "DEBUG".toList ∧
        v.map Char.toUpper ≠ "INFO".toList ∧ v.map Char.toUpper ≠ "ERROR".toList ∧
        v.map Char.toUpper ≠ "WARN".toList ∧ v.map Char.toUpper ≠ "WARNING".toList →
        c.getLogLevel = .INFO)) ∧
    (ConfigLoader.lookup c.config_values_ "LOG_LEVEL".toList = none →
      c.getLogLevel = .INFO) ∧
    (ConfigLoader.mk [] [("LOG_LEVEL".toList, "debug".toList)]).getLogLevel = .DEBUG ∧
    (ConfigLoader.mk [] [("LOG_LEVEL".toList, "Warning".toList)]).getLogLevel = .WARN ∧
    (ConfigLoader.mk [] [("LOG_LEVEL".toList, "verbose".toList)]).getLogLevel = .INFO := by
  have e0 : "LOG_LEVEL".toList = ['L', 'O', 'G', '_', 'L', 'E', 'V', 'E', 'L'] := by decide
  have e1 : "TRACE".toList = ['T', 'R', 'A', 'C', 'E'] := by decide
  have e2 : "DEBUG".toList = ['D', 'E', 'B', 'U', 'G'] := by decide
  have e3 : "INFO".toList = ['I', 'N', 'F', 'O'] := by decide
  have e4 : "ERROR".toList = ['E', 'R', 'R', 'O', 'R'] := by decide
  have e5 : "WARN".toList = ['W', 'A', 'R', 'N'] := by decide
  have e6 : "WARNING".toList = ['W', 'A', 'R', 'N', 'I', 'N', 'G'] := by decide
  refine ⟨?_, ?_, by decide, by decide, by decide⟩
  · intro v hv
    rw [e0] at hv
    rw [e1, e2, e3, e4, e5, e6]
    simp only [ConfigLoader.getLogLevel, ConfigLoader.getString, hv,
      ConfigLoader.stringToLogLevel]
    refine ⟨?_, ?_, ?_, ?_, ?_, ?_⟩
    · intro h; simp [h]
    · intro h; simp [h]
    · intro h; simp [h]
    · intro h; simp [h]
    · rintro (h | h) <;> simp [h]
    · rintro ⟨h1, h2, h3, h4, h5, h6⟩
      simp [h1, h2, h3, h4, h5, h6]
  · intro hv
    rw [e0] at hv
    simp only [ConfigLoader.getLogLevel, ConfigLoader.getString, hv]
    decide

theorem decimalText_chars (n : Int) : ∀ c ∈ decimalText n, c.isDigit = true ∨ c = '-' := by
  intro c hc
  cases n with
  | ofNat m => exact Or.inl ((toDigits_spec m).2.1 c hc)
  | negSucc m =>
    rcases List.mem_cons.mp hc with hc | hc
    · exact Or.inr hc
    · exact Or.inl ((toDigits_spec (m + 1)).2.1 c hc)

/-- Every string is whitespace, at most one sign, and then either digits followed by a rest
that starts with no digit, or a rest that starts with no digit. -/
theorem stoi_forms (value : List Char) :
    ∃ ws sign rest : List Char, (∀ c ∈ ws, isspace c = true) ∧
      (sign = [] ∨ sign = ['+'] ∨ sign = ['-']) ∧
      (∀ c, rest.head? = some c → c.isDigit = false) ∧
      ((∃ digits : List Char, digits ≠ [] ∧ (∀ c ∈ digits, c.isDigit = true) ∧
          value = ws ++ sign ++ digits ++ rest) ∨
        (value = ws ++ sign ++ rest ∧
          (sign = [] → ∀ c, rest.head? = some c → isspace c = false ∧ c ≠ '+' ∧ c ≠ '-'))) := by
  have hsplit : ∀ u : List Char, ∃ digits rest : List Char, u = digits ++ rest ∧
      (∀ c ∈ digits, c.isDigit = true) ∧ (∀ c, rest.head? = some c → c.isDigit = false) := by
    intro u
    refine ⟨u.takeWhile Char.isDigit, u.dropWhile Char.isDigit,
      (List.takeWhile_append_dropWhile _ _).symm, fun c hc => List.mem_takeWhile_imp hc, ?_⟩
    intro c hc
    cases hu : u.dropWhile Char.isDigit with
    | nil => rw [hu] at hc; cases hc
    | cons x rest =>
      rw [hu] at hc
      cases hc
      have := List.head_dropWhile_not Char.isDigit u (by rw [hu]; simp)
      simp only [hu, List.head_cons] at this
      simpa using this
  have hws : ∀ c ∈ value.takeWhile isspace, isspace c = true :=
    fun c hc => List.mem_takeWhile_imp hc
  have hval : value = value.takeWhile isspace ++ value.dropWhile isspace :=
    (List.takeWhile_append_dropWhile _ _).symm
  have hbody : ∀ c, (value.dropWhile isspace).head? = some c → isspace c = false := by
    intro c hc
    cases hu : value.dropWhile isspace with
    | nil => rw [hu] at hc; cases hc
    | cons x rest =>
      rw [hu] at hc
      cases hc
      have := List.head_dropWhile_not isspace value (by rw [hu]; simp)
      simp only [hu, List.head_cons] at this
      simpa using this
  generalize value.dropWhile isspace = body at hval hbody
  generalize value.takeWhile isspace = ws at hval hws
  subst hval
  have hsigned : ∀ (sign u : List Char), (sign = [] ∨ sign = ['+'] ∨ sign = ['-']) →
      body = sign ++ u →
      (sign = [] → ∀ c, u.head? = some c → isspace c = false ∧ c ≠ '+' ∧ c ≠ '-') →
      ∃ ws1 sign1 rest : List Char, (∀ c ∈ ws1, isspace c = true) ∧
        (sign1 = [] ∨ sign1 = ['+'] ∨ sign1 = ['-']) ∧
        (∀ c, rest.head? = some c → c.isDigit = false) ∧
        ((∃ digits : List Char, digits ≠ [] ∧ (∀ c ∈ digits, c.isDigit = true) ∧
            ws ++ body = ws1 ++ sign1 ++ digits ++ rest) ∨
          (ws ++ body = ws1 ++ sign1 ++ rest ∧
            (sign1 = [] →
              ∀ c, rest.head? = some c → isspace c = false ∧ c ≠ '+' ∧ c ≠ '-'))) := by
    intro sign u hsign hb hcond
    obtain ⟨digits, rest, hu, hd, hr⟩ := hsplit u
    by_cases hdig : digits = []
    · subst hdig
      rw [List.nil_append] at hu
      subst hu
      exact ⟨ws, sign, u, hws, hsign, hr, Or.inr ⟨by rw [hb, List.append_assoc], hcond⟩⟩
    · exact ⟨ws, sign, rest, hws, hsign, hr,
        Or.inl ⟨digits, hdig, hd, by rw [hb, hu]; simp⟩⟩
  have hcases : body = [] ∨ ∃ x u, body = x :: u := by
    cases body with
    | nil => exact Or.inl rfl
    | cons x u => exact Or.inr ⟨x, u, rfl⟩
  rcases hcases with hb | ⟨x, u, hb⟩
  · exact hsigned [] [] (Or.inl rfl) (by rw [hb]; rfl) (by simp)
  · by_cases hp : x = '+'
    · exact hsigned ['+'] u (Or.inr (Or.inl rfl)) (by rw [hb, hp]; rfl) (by simp)
    · by_cases hm : x = '-'
      · exact hsigned ['-'] u (Or.inr (Or.inr rfl)) (by rw [hb, hm]; rfl) (by simp)
      · refine hsigned [] (x :: u) (Or.inl rfl) (by rw [hb]; rfl) ?_
        intro _ c hc
        cases hc
        exact ⟨hbody x (by rw [hb]; rfl), hp, hm⟩

/-- C25, counterexample. The stored value `12abc` is not the decimal text of an integer, and
`getInt` returns 12 for it, not the default 7. -/
theorem getInt_accepts_trailing_text :
    (∀ n : Int, decimalText n ≠ "12abc".toList) ∧
    ConfigLoader.lookup (ConfigLoader.new [] (some ["RETRIES=12abc".toList])).config_values_
      "RETRIES".toList = some "12abc".toList ∧
    (ConfigLoader.new [] (some ["RETRIES=12abc".toList])).getInt "RETRIES".toList 7 = 12 := by
  refine ⟨?_, by decide, by decide⟩
  intro n hn
  have := decimalText_chars n 'a' (by rw [hn]; decide)
  revert this
  decide

/-- C25, amended. The member `getInt` converts the numeric start of the stored value or
falls back, and never raises. When the stored value is the decimal text of an integer `n`
within the range of `int`, `getInt(key, d) = n`, so `SERVER_PORT=9000` gives
`getServerPort() = 9000`. When it is whitespace, at most one sign, digits, and a rest that
starts with no digit, the result is the signed value of the digits if that is within the
range of `int`, whatever the rest is, and `d` otherwise. When no digit follows the
whitespace and the sign, the result is `d`. Every stored value has one of these two
forms. -/
theorem getInt_converts_numeric_start (c : ConfigLoader) (key value : List Char)
    (h : ConfigLoader.lookup c.config_values_ key = some value) (d : Int) :
    (∀ n : Int, -2147483648 ≤ n → n ≤ 2147483647 → value = decimalText n →
      c.getInt key d = n) ∧
    (key = "SERVER_PORT".toList → value = "9000".toList → c.getServerPort = 9000) ∧
    (∀ ws sign digits rest : List Char, (∀ ch ∈ ws, isspace ch = true) →
      (sign = [] ∨ sign = ['+'] ∨ sign = ['-']) →
      digits ≠ [] → (∀ ch ∈ digits, ch.isDigit = true) →
      (∀ ch, rest.head? = some ch → ch.isDigit = false) →
      value = ws ++ sign ++ digits ++ rest →
      c.getInt key d =
        if sign = ['-'] then
          (if digitsValue digits ≤ 2147483648 then -(digitsValue digits : Int) else d)
        else (if digitsValue digits ≤ 2147483647 then (digitsValue digits : Int) else d)) ∧
    (∀ ws sign rest : List Char, (∀ ch ∈ ws, isspace ch = true) →
      (sign = [] ∨ sign = ['+'] ∨ sign = ['-']) →
      (∀ ch, rest.head? = some ch → ch.isDigit = false) →
      (sign = [] → ∀ ch, rest.head? = some ch → isspace ch = false ∧ ch ≠ '+' ∧ ch ≠ '-') →
      value = ws ++ sign ++ rest → c.getInt key d = d) ∧
    (∃ ws sign rest : List Char, (∀ ch ∈ ws, isspace ch = true) ∧
      (sign = [] ∨ sign = ['+'] ∨ sign = ['-']) ∧
      (∀ ch, rest.head? = some ch → ch.isDigit = false) ∧
      ((∃ digits : List Char, digits ≠ [] ∧ (∀ ch ∈ digits, ch.isDigit = true) ∧
          value = ws ++ sign ++ digits ++ rest) ∨
        (value = ws ++ sign ++ rest ∧
          (sign = [] →
            ∀ ch, rest.head? = some ch → isspace ch = false ∧ ch ≠ '+' ∧ ch ≠ '-')))) := by
  refine ⟨?_, ?_, ?_, ?_, stoi_forms value⟩
  · intro n hlo hhi hv
    simp only [ConfigLoader.getInt, h, hv, stoi_decimalText n hlo hhi]
  · intro hk hv
    subst hk hv
    have hk : "SERVER_PORT".toList =
        ['S', 'E', 'R', 'V', 'E', 'R', '_', 'P', 'O', 'R', 'T'] := by decide
    rw [hk] at h
    simp only [ConfigLoader.getServerPort, ConfigLoader.getInt, h]
    decide
  · intro ws sign digits rest hws hsign hne hdig hrest hv
    simp only [ConfigLoader.getInt, h]
    rw [hv]
    rcases hsign with rfl | rfl | rfl
    · have e : ws ++ [] ++ digits ++ rest = ws ++ digits ++ rest := by simp
      rw [e, stoi_unsigned ws digits rest hws hdig hne hrest]
      by_cases hbig : 2147483647 < digitsValue digits
      · rw [if_pos hbig, if_neg (by decide), if_neg (by omega)]
      · rw [if_neg hbig, if_neg (by decide), if_pos (by omega)]
    · have e : ws ++ ['+'] ++ digits ++ rest = ws ++ '+' :: digits ++ rest := by simp
      rw [e, (stoi_signed ws digits rest hws hdig hne hrest).1]
      by_cases hbig : 2147483647 < digitsValue digits
      · rw [if_pos hbig, if_neg (by decide), if_neg (by omega)]
      · rw [if_neg hbig, if_neg (by decide), if_pos (by omega)]
    · have e : ws ++ ['-'] ++ digits ++ rest = ws ++ '-' :: digits ++ rest := by simp
      rw [e, (stoi_signed ws digits rest hws hdig hne hrest).2]
      by_cases hbig : 2147483648 < digitsValue digits
      · rw [if_pos hbig, if_pos rfl, if_neg (by omega)]
      · rw [if_neg hbig, if_pos rfl, if_pos (by omega)]
  · intro ws sign rest hws hsign hrest hcond hv
    simp only [ConfigLoader.getInt, h]
    rw [hv]
    obtain ⟨h1, h2, h3⟩ := stoi_invalid ws rest hws hrest
    rcases hsign with rfl | rfl | rfl
    · rw [List.append_nil, h3 (hcond rfl)]
    · have e : ws ++ ['+'] ++ rest = ws ++ '+' :: rest := by simp
      rw [e, h1]
    · have e : ws ++ ['-'] ++ rest = ws ++ '-' :: rest := by simp
      rw [e, h2]

theorem getInt_converts_numeric_start_witness :
    ConfigLoader.lookup (ConfigLoader.new [] (some ["SERVER_PORT=9000".toList])).config_values_
      "SERVER_PORT".toList = some "9000".toList ∧
    (ConfigLoader.new [] (some ["SERVER_PORT=9000".toList])).getServerPort = 9000 :=
  ⟨by decide, (getInt_converts_numeric_start
    (ConfigLoader.new [] (some ["SERVER_PORT=9000".toList])) "SERVER_PORT".toList
    "9000".toList (by decide) 0).2.1 rfl rfl⟩

/-! ## Lemmas on the sender threads -/

/-- The member `send` is its part before the mutex followed by its block under the mutex. -/
theorem send_eq_sendLocked (e : Endian) (c : TcpConnection) (data : List Byte) (t f : Nat) :
    TcpConnection.send e c data t f =
      match TcpConnection.sendUnlocked e c data t f with
      | .error ex => (.error ex, c)
      | .ok none => (.ok false, c)
      | .ok (some message) => (.ok true, c.sendLocked message) := by
  unfold TcpConnection.send TcpConnection.sendUnlocked
  by_cases hc : c.is_connected_ = true
  · have hn : (!c.is_connected_) = false := by rw [hc]; rfl
    rw [hn]
    simp only [Bool.false_eq_true, if_false]
    split <;> rfl
  · have hn : (!c.is_connected_) = true := by simp [hc]
    rw [hn]
    rfl

theorem sendUnlocked_connected (e : Endian) (c : TcpConnection) (fr : Frame)
    (hc : c.is_connected_ = true) (hlen : fr.payload.length ≤ MAX_BODY_SIZE) :
    TcpConnection.sendUnlocked e c fr.payload fr.type fr.flags = .ok (some (fr.message e)) := by
  have hu : u32 fr.payload.length = fr.payload.length := u32_of_le_max _ hlen
  have hset : ((MessageHeader.new.setMessageType fr.type).setFlags fr.flags).setBodySize
      fr.payload.length = (.ok (), headerOf fr.type fr.flags fr.payload.length) := by
    simp only [MessageHeader.setBodySize, headerOf, hu]
    rw [if_neg (by omega)]
  have hcopy : memcpy (resize [] HEADER_SIZE) 0
      ((headerOf fr.type fr.flags fr.payload.length).encodeToBuffer e
        (List.replicate HEADER_SIZE 0)) = headerBytes e fr.type fr.flags fr.payload.length :=
    memcpy_resize_nil _ (headerBytes_length e _ _ _)
  unfold TcpConnection.sendUnlocked
  simp only [hc, Bool.not_true, Bool.false_eq_true, if_false, hset, hcopy, Frame.message]

theorem sendLocked_carries (e : Endian) (sent : List (List Byte)) (done queued : List Frame)
    (c : TcpConnection) (fr : Frame) (h : c.Carries e sent done queued) :
    (c.sendLocked (fr.message e)).Carries e sent done (queued ++ [fr]) := by
  obtain ⟨hc, hq, hw, ht⟩ := h
  unfold TcpConnection.sendLocked
  cases queued with
  | nil =>
    simp only [List.map_nil] at hq
    simp only [hq, List.isEmpty_nil, Bool.not_true, Bool.not_false, if_true, List.nil_append,
      TcpConnection.asyncWrite]
    refine ⟨hc, rfl, ?_, ?_⟩
    · show c.outstanding_writes ++ [gatherBuffers (fr.message e)] = _
      rw [hw, hq]
      rfl
    · show transmitted (c.trace ++ [.asyncWrite (gatherBuffers (fr.message e))]) = _
      rw [transmitted_append, ht]
      simp [transmitted, writesIssued, gatherBuffers_flatten, Frame.message, frameBytes]
  | cons fr0 rest =>
    simp only [List.map_cons] at hq
    simp only [hq, List.isEmpty_cons, Bool.not_false, Bool.not_true, Bool.false_eq_true,
      if_false]
    refine ⟨hc, ?_, ?_, ?_⟩
    · simp
    · show c.outstanding_writes = _
      rw [hw, hq]
      rfl
    · show transmitted c.trace = _
      rw [ht]
      rfl

theorem completeWrite_carries (e : Endian) (sent : List (List Byte)) (done queued : List Frame)
    (c : TcpConnection) (h : c.Carries e sent done queued)
    (hne : c.outstanding_writes ≠ []) :
    ∃ fr rest, queued = fr :: rest ∧
      (completeWrite c .success).Carries e sent (done ++ [fr]) rest := by
  obtain ⟨hc, hq, hw, ht⟩ := h
  cases queued with
  | nil =>
    simp only [List.map_nil] at hq
    rw [hw, hq] at hne
    exact absurd rfl hne
  | cons fr rest =>
    refine ⟨fr, rest, rfl, ?_⟩
    simp only [List.map_cons] at hq
    have hw1 : c.outstanding_writes = [gatherBuffers (fr.message e)] := by
      rw [hw, hq]
      rfl
    rw [completeWrite_success c _ _ hq hw1]
    cases rest with
    | nil =>
      refine ⟨hc, rfl, rfl, ?_⟩
      show transmitted c.trace = _
      rw [ht]
      simp
    | cons fr1 rest1 =>
      refine ⟨hc, rfl, rfl, ?_⟩
      show transmitted (c.trace ++ [.asyncWrite (gatherBuffers (fr1.message e))]) = _
      rw [transmitted_append, ht]
      simp [transmitted, writesIssued, gatherBuffers_flatten, Frame.message, frameBytes]

theorem interleaving_left_append {order a b : List Frame} (fr : Frame)
    (h : Interleaving order a b) : Interleaving (order ++ [fr]) (a ++ [fr]) b := by
  induction h with
  | nil => exact Interleaving.left fr Interleaving.nil
  | left x _ ih => exact Interleaving.left x ih
  | right x _ ih => exact Interleaving.right x ih

theorem interleaving_right_append {order a b : List Frame} (fr : Frame)
    (h : Interleaving order a b) : Interleaving (order ++ [fr]) a (b ++ [fr]) := by
  induction h with
  | nil => exact Interleaving.right fr Interleaving.nil
  | left x _ ih => exact Interleaving.left x ih
  | right x _ ih => exact Interleaving.right x ih

theorem interleaving_length {order a b : List Frame} (h : Interleaving order a b) :
    order.length = a.length + b.length := by
  induction h with
  | nil => rfl
  | left x _ ih => simp only [List.length_cons, ih]; omega
  | right x _ ih => simp only [List.length_cons, ih]; omega

theorem interleaving_sublist {order a b : List Frame} (h : Interleaving order a b) :
    a.Sublist order ∧ b.Sublist order := by
  induction h with
  | nil => exact ⟨List.Sublist.slnil, List.Sublist.slnil⟩
  | left x _ ih => exact ⟨ih.1.cons₂ x, ih.2.cons x⟩
  | right x _ ih => exact ⟨ih.1.cons x, ih.2.cons₂ x⟩

theorem interleaving_mem {order a b : List Frame} (h : Interleaving order a b) :
    ∀ fr ∈ order, fr ∈ a ∨ fr ∈ b := by
  induction h with
  | nil => intro fr hfr; cases hfr
  | left x _ ih =>
    intro fr hfr
    rcases List.mem_cons.mp hfr with rfl | hfr
    · exact Or.inl (List.mem_cons_self _ _)
    · exact (ih fr hfr).imp (List.mem_cons_of_mem _) id
  | right x _ ih =>
    intro fr hfr
    rcases List.mem_cons.mp hfr with rfl | hfr
    · exact Or.inr (List.mem_cons_self _ _)
    · exact (ih fr hfr).imp id (List.mem_cons_of_mem _)

theorem take_succ_of_drop (calls rest : List Frame) (k : Nat) (fr : Frame)
    (h : calls.drop k = fr :: rest) :
    calls.take (k + 1) = calls.take k ++ [fr] ∧ calls.drop (k + 1) = rest ∧ fr ∈ calls := by
  refine ⟨?_, ?_, ?_⟩
  · have hget : calls[k]? = some fr := by
      have := congrArg List.head? h
      simpa [List.head?_drop] using this
    rw [List.take_succ, hget]
    rfl
  · rw [← List.tail_drop, h]
    rfl
  · apply List.mem_of_mem_drop
    rw [h]
    exact List.mem_cons_self _ _

/-- A step of a sender thread: the part of `send` before the mutex, which builds the message
of the next call, or the block under the mutex, which queues it and returns `true`. -/
theorem senderStep_spec (e : Endian) (c : TcpConnection) (calls : List Frame) (k : Nat)
    (t : SenderThread) (hat : t.At e calls k) (hc : c.is_connected_ = true)
    (hlim : ∀ fr ∈ calls, fr.payload.length ≤ MAX_BODY_SIZE) (c1 : TcpConnection)
    (t1 : SenderThread) (hstep : senderStep e c t = some (c1, t1)) :
    (c1 = c ∧ t1.At e calls k ∧ t1.stepsLeft + 1 = t.stepsLeft) ∨
    (∃ fr, calls.take (k + 1) = calls.take k ++ [fr] ∧ c1 = c.sendLocked (fr.message e) ∧
      t1.At e calls (k + 1) ∧ t1.stepsLeft + 2 = t.stepsLeft) := by
  obtain ⟨hret, hform⟩ := hat
  rcases hform with ⟨hm, hcalls⟩ | ⟨fr, hdrop, hm⟩
  · left
    unfold senderStep at hstep
    rw [hm] at hstep
    cases hcl : t.calls with
    | nil =>
      rw [hcl] at hstep
      cases hstep
    | cons fr rest =>
      rw [hcl] at hstep
      have hd : calls.drop k = fr :: rest := by rw [← hcalls, hcl]
      have hfr := (take_succ_of_drop calls rest k fr hd).2.2
      simp only [sendUnlocked_connected e c fr hc (hlim fr hfr)] at hstep
      cases hstep
      refine ⟨rfl, ⟨hret, Or.inr ⟨fr, hd, rfl⟩⟩, ?_⟩
      simp only [SenderThread.stepsLeft, hcl, hm, List.length_cons]
      simp
      omega
  · right
    unfold senderStep at hstep
    rw [hm] at hstep
    cases hstep
    obtain ⟨htake, hdrop1, -⟩ := take_succ_of_drop calls t.calls k fr hdrop
    refine ⟨fr, htake, rfl, ⟨?_, Or.inl ⟨rfl, hdrop1.symm⟩⟩, ?_⟩
    · show t.returned ++ [.ok true] = _
      rw [hret, List.replicate_succ']
    · simp only [SenderThread.stepsLeft, hm]
      simp

theorem runThreads_append (e : Endian) (xs : List ThreadStep) (x : ThreadStep) :
    ∀ s : Threads, runThreads e s (xs ++ [x]) =
      match runThreads e s xs with
      | none => none
      | some s1 => threadStep e s1 x := by
  induction xs with
  | nil =>
    intro s
    simp only [List.nil_append, runThreads]
    cases threadStep e s x <;> rfl
  | cons y ys ih =>
    intro s
    simp only [List.cons_append, runThreads]
    cases threadStep e s y with
    | none => rfl
    | some s1 => exact ih s1

/-- What holds after every run of two sender threads and the reactor from a connected
connection with an empty queue: the frames queued so far are an interleaving of the calls
the two threads have completed, the connection has handed a prefix of them to the
transport, and the steps taken and the steps left add up to three per call. -/
theorem runThreads_invariant (e : Endian) (c0 : TcpConnection) (callsA callsB : List Frame)
    (hc : c0.is_connected_ = true) (hq : c0.write_queue_ = [])
    (hw : c0.outstanding_writes = [])
    (hA : ∀ fr ∈ callsA, fr.payload.length ≤ MAX_BODY_SIZE)
    (hB : ∀ fr ∈ callsB, fr.payload.length ≤ MAX_BODY_SIZE) :
    ∀ (schedule : List ThreadStep) (s : Threads),
      runThreads e ⟨c0, ⟨callsA, none, []⟩, ⟨callsB, none, []⟩⟩ schedule = some s →
      ∃ (done queued : List Frame) (ka kb : Nat),
        Interleaving (done ++ queued) (callsA.take ka) (callsB.take kb) ∧
        s.threadA.At e callsA ka ∧ s.threadB.At e callsB kb ∧
        s.connection.Carries e (transmitted c0.trace) done queued ∧
        schedule.length + (s.threadA.stepsLeft + s.threadB.stepsLeft + queued.length) =
          3 * (callsA.length + callsB.length) := by
  intro schedule
  induction schedule using List.reverseRecOn with
  | nil =>
    intro s hs
    cases hs
    refine ⟨[], [], 0, 0, Interleaving.nil, ⟨rfl, Or.inl ⟨rfl, rfl⟩⟩, ⟨rfl, Or.inl ⟨rfl, rfl⟩⟩,
      ⟨hc, hq, ?_, by simp⟩, ?_⟩
    · show c0.outstanding_writes = frontWrite c0.write_queue_
      rw [hw, hq]
      rfl
    · simp [SenderThread.stepsLeft]
      omega
  | append_singleton xs x ih =>
    intro s hs
    rw [runThreads_append] at hs
    cases hrun : runThreads e ⟨c0, ⟨callsA, none, []⟩, ⟨callsB, none, []⟩⟩ xs with
    | none => rw [hrun] at hs; cases hs
    | some s1 =>
      rw [hrun] at hs
      obtain ⟨done, queued, ka, kb, hint, hta, htb, hcar, hsteps⟩ := ih s1 hrun
      simp only at hs
      cases x with
      | senderA =>
        simp only [threadStep] at hs
        cases hst : senderStep e s1.connection s1.threadA with
        | none => rw [hst] at hs; cases hs
        | some ct =>
          obtain ⟨c, t⟩ := ct
          rw [hst] at hs
          cases hs
          rcases senderStep_spec e s1.connection callsA ka s1.threadA hta hcar.1 hA c t hst
            with ⟨rfl, hat, hm⟩ | ⟨fr, htake, rfl, hat, hm⟩
          · refine ⟨done, queued, ka, kb, hint, hat, htb, hcar, ?_⟩
            simp only [List.length_append, List.length_singleton]
            omega
          · refine ⟨done, queued ++ [fr], ka + 1, kb, ?_, hat, htb,
              sendLocked_carries e _ done queued _ fr hcar, ?_⟩
            · rw [htake, ← List.append_assoc]
              exact interleaving_left_append fr hint
            · simp only [List.length_append, List.length_singleton]
              omega
      | senderB =>
        simp only [threadStep] at hs
        cases hst : senderStep e s1.connection s1.threadB with
        | none => rw [hst] at hs; cases hs
        | some ct =>
          obtain ⟨c, t⟩ := ct
          rw [hst] at hs
          cases hs
          rcases senderStep_spec e s1.connection callsB kb s1.threadB htb hcar.1 hB c t hst
            with ⟨rfl, hat, hm⟩ | ⟨fr, htake, rfl, hat, hm⟩
          · refine ⟨done, queued, ka, kb, hint, hta, hat, hcar, ?_⟩
            simp only [List.length_append, List.length_singleton]
            omega
          · refine ⟨done, queued ++ [fr], ka, kb + 1, ?_, hta, hat,
              sendLocked_carries e _ done queued _ fr hcar, ?_⟩
            · rw [htake, ← List.append_assoc]
              exact interleaving_right_append fr hint
            · simp only [List.length_append, List.length_singleton]
              omega
      | reactor =>
        simp only [threadStep] at hs
        cases how : s1.connection.outstanding_writes with
        | nil => rw [how] at hs; cases hs
        | cons w ws =>
          rw [how] at hs
          cases hs
          obtain ⟨fr, rest, rfl, hcar1⟩ := completeWrite_carries e _ done queued s1.connection
            hcar (by rw [how]; simp)
          refine ⟨done ++ [fr], rest, ka, kb, ?_, hta, htb, hcar1, ?_⟩
          · rw [List.append_assoc]
            exact hint
          · simp only [List.length_append, List.length_cons, List.length_nil] at hsteps ⊢
            omega

theorem wireBytes_eq_flatten (e : Endian) (frames : List Frame) :
    (frames.map (fun fr => frameBytes e fr.type fr.flags fr.payload)).flatten =
      wireBytes e frames := by
  induction frames with
  | nil => rfl
  | cons fr frames ih => simp only [List.map_cons, List.flatten_cons, wireBytes, ih]

/-- A sender thread with a call to make or a message to queue can take a step. -/
theorem senderStep_enabled (e : Endian) (c : TcpConnection) (t : SenderThread)
    (h : t.message ≠ none ∨ t.calls ≠ []) : ∃ r, senderStep e c t = some r := by
  unfold senderStep
  cases hm : t.message with
  | some m => exact ⟨_, rfl⟩
  | none =>
    cases hcl : t.calls with
    | nil =>
      rcases h with h | h
      · exact absurd hm h
      · exact absurd hcl h
    | cons fr rest =>
      simp only
      split <;> exact ⟨_, rfl⟩

theorem threadStep_enabled (e : Endian) (s : Threads) :
    (∃ step s1, threadStep e s step = some s1) ∨ s.finished := by
  by_cases hA : s.threadA.message ≠ none ∨ s.threadA.calls ≠ []
  · obtain ⟨⟨c, t⟩, hr⟩ := senderStep_enabled e s.connection s.threadA hA
    exact Or.inl ⟨.senderA, { s with connection := c, threadA := t }, by
      simp only [threadStep, hr]⟩
  · by_cases hB : s.threadB.message ≠ none ∨ s.threadB.calls ≠ []
    · obtain ⟨⟨c, t⟩, hr⟩ := senderStep_enabled e s.connection s.threadB hB
      exact Or.inl ⟨.senderB, { s with connection := c, threadB := t }, by
        simp only [threadStep, hr]⟩
    · cases how : s.connection.outstanding_writes with
      | nil =>
        right
        simp only [not_or, not_not] at hA hB
        exact ⟨hA.2, hA.1, hB.2, hB.1, how⟩
      | cons w ws =>
        exact Or.inl ⟨.reactor, { s with connection := completeWrite s.connection .success }, by
          simp only [threadStep, how]⟩

/-- A sender thread that is done has completed all its calls. -/
theorem senderThread_done (e : Endian) (calls : List Frame) (k : Nat) (t : SenderThread)
    (hat : t.At e calls k) (hcalls : t.calls = []) (hm : t.message = none) :
    calls.take k = calls ∧ t.stepsLeft = 0 := by
  obtain ⟨-, hform⟩ := hat
  rcases hform with ⟨-, hd⟩ | ⟨fr, -, hm1⟩
  · constructor
    · apply List.take_of_length_le
      rw [hcalls] at hd
      exact List.drop_eq_nil_iff.mp hd.symm
    · simp [SenderThread.stepsLeft, hcalls, hm]
  · rw [hm] at hm1
    cases hm1

/-- C28. Concurrent senders do not corrupt framing. Two threads call `send` on one
connected connection with an empty queue, thread A for each of `callsA` in order and thread
B for each of `callsB`, every payload within `MAX_BODY_SIZE`, while the reactor thread runs
the write completions. The threads are interleaved in any way at the grain of the mutex: a
step is the part of a `send` before `write_mutex_`, the block of a `send` under it (the
test of the queue, the append, the start of a write), or one completion handler. After
every such schedule: each call that is over returned `true`; the byte strings handed to
the transport, one per gather write with at most one write outstanding, are the frames of
the first `k` calls of an interleaving of the calls the two threads have queued; a peer
with a message callback that reads their concatenation delivers exactly these `k` frames,
in that order, whole, with no error; the schedule has at most three steps per call; and
some thread can take a step unless all are done. When all are done the schedule has
exactly three steps per call and the transmitted frames are those of an interleaving of
`callsA` and `callsB`: one frame per call, 200 for 100 calls each, each thread's frames in
its call order. -/
theorem concurrent_senders_keep_framing (e1 e2 : Endian) (c0 peer : TcpConnection)
    (callsA callsB : List Frame) (schedule : List ThreadStep) (s : Threads)
    (hc : c0.is_connected_ = true) (hq : c0.write_queue_ = [])
    (hw : c0.outstanding_writes = [])
    (hA : ∀ fr ∈ callsA,
      fr.type < 65536 ∧ fr.flags < 65536 ∧ fr.payload.length ≤ MAX_BODY_SIZE)
    (hB : ∀ fr ∈ callsB,
      fr.type < 65536 ∧ fr.flags < 65536 ∧ fr.payload.length ≤ MAX_BODY_SIZE)
    (hso : peer.socket_open = true) (hor : peer.outstanding_reads = [.header])
    (hcb : peer.message_callback_ = true)
    (hrun : runThreads e1 ⟨c0, ⟨callsA, none, []⟩, ⟨callsB, none, []⟩⟩ schedule = some s) :
    ∃ (order : List Frame) (ka kb k : Nat),
      Interleaving order (callsA.take ka) (callsB.take kb) ∧
      s.threadA.returned = List.replicate ka (.ok true) ∧
      s.threadB.returned = List.replicate kb (.ok true) ∧
      k ≤ order.length ∧
      transmitted s.connection.trace = transmitted c0.trace ++
        (order.take k).map (fun fr => frameBytes e1 fr.type fr.flags fr.payload) ∧
      s.connection.outstanding_writes.length ≤ 1 ∧
      ((order.take k).map (fun fr => frameBytes e1 fr.type fr.flags fr.payload)).flatten =
        wireBytes e1 (order.take k) ∧
      (∃ added : List Event,
        (receive e2 peer (wireBytes e1 (order.take k))).2 = [] ∧
        (receive e2 peer (wireBytes e1 (order.take k))).1.trace = peer.trace ++ added ∧
        messageCallbacks added = (order.take k).map Frame.delivered ∧
        errorCallbacks added = []) ∧
      schedule.length ≤ 3 * (callsA.length + callsB.length) ∧
      ((∃ step s1, threadStep e1 s step = some s1) ∨ s.finished) ∧
      (s.finished →
        Interleaving order callsA callsB ∧ k = order.length ∧
        order.length = callsA.length + callsB.length ∧
        callsA.Sublist order ∧ callsB.Sublist order ∧
        schedule.length = 3 * (callsA.length + callsB.length)) := by
  obtain ⟨done, queued, ka, kb, hint, hta, htb, hcar, hsteps⟩ :=
    runThreads_invariant e1 c0 callsA callsB hc hq hw (fun fr h => (hA fr h).2.2)
      (fun fr h => (hB fr h).2.2) schedule s hrun
  obtain ⟨-, hqueue, hout, htrans⟩ := hcar
  have htake : (done ++ queued).take (done.length + (queued.take 1).length) =
      done ++ queued.take 1 := by
    rw [List.take_append]
    cases queued <;> rfl
  have hwf : ∀ fr ∈ (done ++ queued).take (done.length + (queued.take 1).length),
      fr.type < 65536 ∧ fr.flags < 65536 ∧ fr.payload.length ≤ MAX_BODY_SIZE := by
    intro fr hfr
    rcases interleaving_mem hint fr (List.mem_of_mem_take hfr) with h | h
    · exact hA fr (List.mem_of_mem_take h)
    · exact hB fr (List.mem_of_mem_take h)
  refine ⟨done ++ queued, ka, kb, done.length + (queued.take 1).length, hint, hta.1, htb.1,
    ?_, ?_, ?_, wireBytes_eq_flatten e1 _, ?_, by omega, threadStep_enabled e1 s, ?_⟩
  · rw [List.length_append]
    have : (queued.take 1).length ≤ queued.length := by
      rw [List.length_take]
      exact Nat.min_le_right _ _
    omega
  · rw [htake, htrans]
  · rw [hout]
    cases s.connection.write_queue_ <;> simp [frontWrite]
  · have hfuel : 2 * ((done ++ queued).take (done.length + (queued.take 1).length)).length ≤
        2 * (wireBytes e1
          ((done ++ queued).take (done.length + (queued.take 1).length))).length + 2 := by
      have := wireBytes_length e1 ((done ++ queued).take (done.length + (queued.take 1).length))
      omega
    obtain ⟨c1, added, hrecv, htr, hmc, hec, -, -, -⟩ :=
      receiveFuel_frames e1 e2 _ _ peer hfuel hso hor hcb hwf
    refine ⟨added, ?_⟩
    unfold receive
    rw [hrecv]
    exact ⟨rfl, htr, hmc, hec⟩
  · rintro ⟨ha1, ha2, hb1, hb2, how⟩
    obtain ⟨htA, hsA⟩ := senderThread_done e1 callsA ka s.threadA hta ha1 ha2
    obtain ⟨htB, hsB⟩ := senderThread_done e1 callsB kb s.threadB htb hb1 hb2
    have hqe : queued = [] := by
      rw [how] at hout
      cases hqq : queued with
      | nil => rfl
      | cons fr rest =>
        rw [hqueue, hqq] at hout
        cases hout
    rw [htA, htB] at hint
    subst hqe
    refine ⟨hint, by simp, interleaving_length hint, (interleaving_sublist hint).1,
      (interleaving_sublist hint).2, ?_⟩
    rw [hsA, hsB] at hsteps
    simpa using hsteps

theorem concurrent_senders_keep_framing_witness :
    ∃ s : Threads,
      runThreads .little ⟨TcpConnection.accepted.start,
        ⟨[⟨1, 0, [1]⟩, ⟨1, 0, [2]⟩], none, []⟩, ⟨[⟨2, 0, [3]⟩], none, []⟩⟩
        [.senderA, .senderB, .senderB, .senderA, .reactor, .senderA, .reactor, .senderA,
          .reactor] = some s ∧
      ∃ (order : List Frame) (ka kb k : Nat),
        Interleaving order (List.take ka [⟨1, 0, [1]⟩, ⟨1, 0, [2]⟩])
          (List.take kb [⟨2, 0, [3]⟩]) ∧
        k ≤ order.length ∧
        transmitted s.connection.trace = transmitted TcpConnection.accepted.start.trace ++
          (order.take k).map (fun fr => frameBytes .little fr.type fr.flags fr.payload) ∧
        s.connection.outstanding_writes.length ≤ 1 := by
  have hsome : (runThreads .little ⟨TcpConnection.accepted.start,
      ⟨[⟨1, 0, [1]⟩, ⟨1, 0, [2]⟩], none, []⟩, ⟨[⟨2, 0, [3]⟩], none, []⟩⟩
      [.senderA, .senderB, .senderB, .senderA, .reactor, .senderA, .reactor, .senderA,
        .reactor]).isSome = true := by decide
  obtain ⟨s, hs⟩ := Option.isSome_iff_exists.mp hsome
  obtain ⟨order, ka, kb, k, h1, -, -, h2, h3, h4, -⟩ :=
    concurrent_senders_keep_framing .little .big TcpConnection.accepted.start
      (TcpConnection.accepted.setMessageCallback true).start
      [⟨1, 0, [1]⟩, ⟨1, 0, [2]⟩] [⟨2, 0, [3]⟩]
      [.senderA, .senderB, .senderB, .senderA, .reactor, .senderA, .reactor, .senderA,
        .reactor] s (by decide) (by decide) (by decide) (by decide) (by decide) (by decide)
      (by decide) (by decide) hs
  exact ⟨s, hs, order, ka, kb, k, h1, h2, h3, h4⟩

/-! ## The room list stays duplicate-free: claim C31 -/

theorem call_nodup (u : User) (call : RoomCall) (h : u.room_ids.Nodup) :
    (u.call call).room_ids.Nodup := by
  cases call with
  | addToRoom r =>
    by_cases hr : r ∈ u.room_ids
    · simpa [User.call, User.addToRoom, hr] using h
    · simp only [User.call, User.addToRoom, hr, not_false_eq_true, if_true]
      exact List.Nodup.append h (List.nodup_singleton r) (by simpa using hr)
  | removeFromRoom r =>
    by_cases hr : r ∈ u.room_ids
    · simp only [User.call, User.removeFromRoom, hr, if_true]
      exact h.erase r
    · simpa [User.call, User.removeFromRoom, hr] using h

theorem calls_nodup (calls : List RoomCall) :
    ∀ u : User, u.room_ids.Nodup → (u.calls calls).room_ids.Nodup := by
  induction calls with
  | nil => intro u h; exact h
  | cons call rest ih => intro u h; exact ih (u.call call) (call_nodup u call h)

/-- C31: the room list stays duplicate-free. Every constructor produces a user with an
empty `room_ids`. Starting from a user with an empty `room_ids`, after every finite sequence
of `addToRoom` and `removeFromRoom` calls `room_ids` holds no room id twice, and its length
is the number of distinct rooms `r` for which `isInRoom(r)` holds: the set of these rooms
has that many elements, and every duplicate-free list of exactly these rooms has that
length. -/
theorem room_list_stays_duplicate_free (u : User) (calls : List RoomCall)
    (h : u.room_ids = []) :
    (u.calls calls).room_ids.Nodup ∧
    Set.ncard {r : String | (u.calls calls).isInRoom r = true} =
      (u.calls calls).room_ids.length ∧
    (∀ rooms : List String, rooms.Nodup →
      (∀ r, r ∈ rooms ↔ (u.calls calls).isInRoom r = true) →
      rooms.length = (u.calls calls).room_ids.length) ∧
    User.defaulted.room_ids = [] ∧
    (∀ (id name : String) (user_status : UserStatus),
      (User.new id name user_status).room_ids = []) := by
  have hnd : (u.calls calls).room_ids.Nodup := calls_nodup calls u (by rw [h]; exact List.nodup_nil)
  refine ⟨hnd, ?_, ?_, rfl, fun _ _ _ => rfl⟩
  · have hset : {r : String | (u.calls calls).isInRoom r = true} =
        ((u.calls calls).room_ids.toFinset : Set String) := by
      ext r
      simp [User.isInRoom]
    rw [hset, Set.ncard_coe_Finset, List.toFinset_card_of_nodup hnd]
  · intro rooms hrooms hmem
    apply List.Perm.length_eq
    rw [List.perm_ext_iff_of_nodup hrooms hnd]
    intro r
    rw [hmem r]
    simp [User.isInRoom]

theorem room_list_stays_duplicate_free_witness :
    (User.new "u1" "ann" .ONLINE).room_ids = [] ∧
    ((User.new "u1" "ann" .ONLINE).calls [.addToRoom "lobby", .addToRoom "dev",
      .addToRoom "lobby", .removeFromRoom "dev", .removeFromRoom "dev",
      .addToRoom "ops"]).room_ids = ["lobby", "ops"] ∧
    ((User.new "u1" "ann" .ONLINE).calls [.addToRoom "lobby", .addToRoom "dev",
      .addToRoom "lobby", .removeFromRoom "dev", .removeFromRoom "dev",
      .addToRoom "ops"]).room_ids.Nodup :=
  ⟨rfl, by decide,
    (room_list_stays_duplicate_free (User.new "u1" "ann" .ONLINE) [.addToRoom "lobby",
      .addToRoom "dev", .addToRoom "lobby", .removeFromRoom "dev", .removeFromRoom "dev",
      .addToRoom "ops"] rfl).1⟩

/-! ## Well-formed queue entries: claim C32 -/

/-- The entry `send` builds for a payload within the maximum is well-formed. -/
theorem wellFormed_of_le_max (e1 e2 : Endian) (t f : Nat) (data : List Byte)
    (hlen : data.length ≤ MAX_BODY_SIZE) :
    (OutgoingMessage.mk (headerBytes e1 t f data.length) data).wellFormed e2 = true := by
  have hdec : MessageHeader.new.decodeFromBuffer e2 (headerBytes e1 t f data.length) =
      ⟨MessageHeader.MAGIC_NUMBER, u16 t, u16 f, data.length⟩ := by
    unfold headerBytes
    rw [decode_encode e1 e2 _ _ _ (by simp [HEADER_SIZE])]
    have hmu : u32 MessageHeader.MAGIC_NUMBER = MessageHeader.MAGIC_NUMBER := by decide
    have h16 : ∀ n, u16 (u16 n) = u16 n := by intro n; unfold u16; omega
    simp only [headerOf, MessageHeader.setFlags, MessageHeader.setMessageType,
      MessageHeader.new, hmu, h16, u32_of_le_max _ hlen]
  unfold OutgoingMessage.wellFormed
  simp only [hdec, headerBytes_length, HEADER_SIZE, MessageHeader.isValid,
    MessageHeader.getBodySize, beq_self_eq_true, decide_True, Bool.and_self, Bool.true_and,
    decide_eq_true_eq]
  simpa using hlen

/-- The queue after a `send` whose payload length fits `uint32_t` holds well-formed entries
when it did before. -/
theorem send_keeps_wellFormed (e1 e2 : Endian) (c : TcpConnection) (data : List Byte)
    (t f : Nat) (hfit : data.length < 4294967296)
    (hq : ∀ m ∈ c.write_queue_, m.wellFormed e2 = true) :
    ∀ m ∈ (TcpConnection.send e1 c data t f).2.write_queue_, m.wellFormed e2 = true := by
  have hu : u32 data.length = data.length := by unfold u32; omega
  cases hc : c.is_connected_ with
  | false =>
    rw [send_disconnected e1 c data t f hc]
    exact hq
  | true =>
    by_cases hlen : data.length ≤ MAX_BODY_SIZE
    · rw [send_connected e1 c data t f hc (by rw [hu]; exact hlen), hu]
      intro m hm
      by_cases hqe : c.write_queue_ = []
      · rw [if_pos hqe] at hm
        simp only [List.mem_singleton] at hm
        rw [hm]
        exact wellFormed_of_le_max e1 e2 t f data hlen
      · rw [if_neg hqe] at hm
        simp only [List.mem_append, List.mem_singleton] at hm
        rcases hm with hm | hm
        · exact hq m hm
        · rw [hm]
          exact wellFormed_of_le_max e1 e2 t f data hlen
    · rw [send_throws e1 c data t f hc (by rw [hu]; omega)]
      exact hq

/-- A write completion leaves in the queue only entries that were in it. -/
theorem completeWrite_queue_subset (c : TcpConnection) (error : ErrorCode) :
    ∀ m ∈ (completeWrite c error).write_queue_, m ∈ c.write_queue_ := by
  intro m hm
  unfold completeWrite TcpConnection.handleWrite at hm
  by_cases herr : error.failed = true
  · rw [if_pos herr, handleError_eq] at hm
    exact hm
  · rw [if_neg herr] at hm
    cases hq : c.write_queue_ with
    | nil =>
      simp only [hq] at hm
      cases hm
    | cons m0 rest =>
      simp only [hq] at hm
      by_cases hr : rest = []
      · subst hr
        simp at hm
      · have hne : (!rest.isEmpty) = true := by
          cases rest with
          | nil => exact absurd rfl hr
          | cons x xs => rfl
        simp only [hne, if_true, TcpConnection.asyncWrite] at hm
        cases rest with
        | nil => exact absurd rfl hr
        | cons x xs => exact List.mem_cons_of_mem _ hm

theorem payloadsFitUInt32_cons (ev : ConnectionEvent) (evs : List ConnectionEvent)
    (h : payloadsFitUInt32 (ev :: evs) = true) :
    payloadsFitUInt32 [ev] = true ∧ payloadsFitUInt32 evs = true := by
  cases ev with
  | start => exact ⟨rfl, h⟩
  | stop => exact ⟨rfl, h⟩
  | send data t f =>
    simp only [payloadsFitUInt32, Bool.and_eq_true, decide_eq_true_eq] at h ⊢
    exact ⟨⟨h.1, trivial⟩, h.2⟩
  | writeCompleted error => exact ⟨rfl, h⟩

/-- While every payload length fits `uint32_t`, the events `start`, `stop`, `send` and write
completion, with or without error, keep every queue entry well-formed. -/
theorem runConnection_keeps_wellFormed (e1 e2 : Endian) (evs : List ConnectionEvent) :
    ∀ c c1 : TcpConnection, (∀ m ∈ c.write_queue_, m.wellFormed e2 = true) →
      payloadsFitUInt32 evs = true → runConnection e1 c evs = some c1 →
      ∀ m ∈ c1.write_queue_, m.wellFormed e2 = true := by
  induction evs with
  | nil =>
    intro c c1 hq _ hrun
    cases hrun
    exact hq
  | cons ev evs ih =>
    intro c c1 hq hfit hrun
    obtain ⟨hfit1, hfits⟩ := payloadsFitUInt32_cons ev evs hfit
    simp only [runConnection] at hrun
    cases hstep : connectionStep e1 c ev with
    | none => rw [hstep] at hrun; cases hrun
    | some c2 =>
      rw [hstep] at hrun
      refine ih c2 c1 ?_ hfits hrun
      cases ev with
      | start =>
        cases hstep
        exact hq
      | stop =>
        cases hstep
        rw [stop_eq]
        exact hq
      | send data t f =>
        cases hstep
        simp only [payloadsFitUInt32, Bool.and_true, decide_eq_true_eq] at hfit1
        exact send_keeps_wellFormed e1 e2 c data t f hfit1 hq
      | writeCompleted error =>
        simp only [connectionStep] at hstep
        cases how : c.outstanding_writes with
        | nil => rw [how] at hstep; cases hstep
        | cons w ws =>
          rw [how] at hstep
          cases hstep
          intro m hm
          exact hq m (completeWrite_queue_subset c error m hm)

/-- C32, the code at the failing input: after `start()` and a `send` of 4294967296 bytes on
a fresh connection, the one entry of the outbound queue has a header buffer of 12 bytes
that decodes to a valid header, but the body size of that header is 0 while the body of the
entry has 4294967296 bytes. The entry is not well-formed. -/
theorem queued_frame_size_mismatch :
    ∃ c : TcpConnection,
      runConnection .little TcpConnection.accepted
        [.start, .send (List.replicate 4294967296 0) 1 0] = some c ∧
      c.write_queue_ =
        [⟨[0x43, 0x48, 0x41, 0x54, 0, 1, 0, 0, 0, 0, 0, 0], List.replicate 4294967296 0⟩] ∧
      (MessageHeader.new.decodeFromBuffer .little
        [0x43, 0x48, 0x41, 0x54, 0, 1, 0, 0, 0, 0, 0, 0]).isValid = true ∧
      (MessageHeader.new.decodeFromBuffer .little
        [0x43, 0x48, 0x41, 0x54, 0, 1, 0, 0, 0, 0, 0, 0]).getBodySize = 0 ∧
      (List.replicate 4294967296 (0 : Byte)).length = 4294967296 ∧
      ∀ m ∈ c.write_queue_, m.wellFormed .little = false := by
  have hlen : (List.replicate 4294967296 (0 : Byte)).length = 4294967296 :=
    List.length_replicate _ _
  have hu : u32 (List.replicate 4294967296 (0 : Byte)).length = 0 := by
    rw [hlen]; decide
  have hhdr : headerBytes .little 1 0 0 = [0x43, 0x48, 0x41, 0x54, 0, 1, 0, 0, 0, 0, 0, 0] := by
    decide
  have hc : TcpConnection.accepted.start.is_connected_ = true := rfl
  have hq : TcpConnection.accepted.start.write_queue_ = [] := rfl
  have hsend := send_connected .little TcpConnection.accepted.start
    (List.replicate 4294967296 0) 1 0 hc (by rw [hu]; decide)
  rw [hu, hhdr, if_pos hq] at hsend
  refine ⟨(TcpConnection.send .little TcpConnection.accepted.start
    (List.replicate 4294967296 0) 1 0).2, rfl, by rw [hsend], by decide, by decide, hlen, ?_⟩
  rw [hsend]
  intro m hm
  simp only [List.mem_singleton] at hm
  rw [hm]
  have hsz : (MessageHeader.new.decodeFromBuffer .little
      [0x43, 0x48, 0x41, 0x54, 0, 1, 0, 0, 0, 0, 0, 0]).getBodySize = 0 := by decide
  unfold OutgoingMessage.wellFormed
  simp only [hsz, hlen]
  simp

end chat_app
